import Mathlib

/-!
Verification of the skycastle transactional action/artifact graph store
(`skycastle/graph`) and its Starlark script-to-graph compiler binding.

The embedding models:
* the FoundationDB tuple-layer key codec (`subspace.Pack` / `Unpack`),
  with the escaped byte-string element encoding used by the Go bindings;
* the `encoding/gob` value codec, restricted to the record types the store
  uses (structs of Go strings / a byte / a 16-byte uuid array), following
  gob's documented wire format: length-framed messages, compact unsigned
  integers, delta-encoded nonzero fields;  the constant per-type descriptor
  messages gob sends before the first value are omitted, as they are fixed
  per encoder and round-trip transparently;
* Go strings as raw byte lists (Go strings are arbitrary byte sequences);
* uuids (`uuid.NewV7`) as natural numbers below 2^128 drawn from a strictly
  monotone supply, reflecting the in-process monotonicity of version-7
  uuids, encoded as 16 fixed-width big-endian bytes by `MarshalBinary`;
* the FoundationDB database as a byte-ordered association list, with each
  top-level `Transact` an atomic step (a nested `Transaction.Transact`
  reuses the outer transaction, hence commits with it);  non-retryable
  store failures are injected by an oracle indexed by transaction count.
-/

namespace Skycastle

/-- Go byte strings: lists of byte values. -/
abbrev Bytes := List Nat

/-- Strict lexicographic (byte-wise) order on keys, the order of the
FoundationDB keyspace. -/
def blt : Bytes → Bytes → Bool
  | [], [] => false
  | [], _ :: _ => true
  | _ :: _, [] => false
  | a :: as, b :: bs => if a < b then true else if b < a then false else blt as bs

theorem blt_irrefl (a : Bytes) : blt a a = false := by
  induction a with
  | nil => rfl
  | cons x xs ih => simp [blt, ih]

theorem blt_asymm : ∀ {a b : Bytes}, blt a b = true → blt b a = false
  | [], [], h => by simp [blt] at h ⊢
  | [], _ :: _, _ => by simp [blt]
  | _ :: _, [], h => by simp [blt] at h
  | a :: as, b :: bs, h => by
    simp only [blt] at h ⊢
    rcases Nat.lt_trichotomy a b with hab | hab | hab
    · simp [hab, Nat.not_lt.mpr (Nat.le_of_lt hab)]
    · subst hab
      simp only [lt_irrefl, if_false] at h ⊢
      exact blt_asymm h
    · simp [hab, Nat.not_lt.mpr (Nat.le_of_lt hab)] at h

theorem blt_total : ∀ (a b : Bytes), blt a b = true ∨ a = b ∨ blt b a = true
  | [], [] => Or.inr (Or.inl rfl)
  | [], _ :: _ => Or.inl (by simp [blt])
  | _ :: _, [] => Or.inr (Or.inr (by simp [blt]))
  | a :: as, b :: bs => by
    rcases Nat.lt_trichotomy a b with hab | hab | hab
    · exact Or.inl (by simp [blt, hab])
    · subst hab
      rcases blt_total as bs with h | h | h
      · exact Or.inl (by simp [blt, h])
      · exact Or.inr (Or.inl (by rw [h]))
      · exact Or.inr (Or.inr (by simp [blt, h]))
    · exact Or.inr (Or.inr (by simp [blt, hab, Nat.not_lt.mpr (Nat.le_of_lt hab)]))

theorem blt_trans : ∀ {a b c : Bytes}, blt a b = true → blt b c = true → blt a c = true
  | [], b, [], h₁, h₂ => by
    cases b with
    | nil => simp [blt] at h₁
    | cons x xs => simp [blt] at h₂
  | [], _, _ :: _, _, _ => by simp [blt]
  | _ :: _, [], _, h, _ => by simp [blt] at h
  | _ :: _, _ :: _, [], _, h => by simp [blt] at h
  | a :: as, b :: bs, c :: cs, h₁, h₂ => by
    simp only [blt] at h₁ h₂ ⊢
    rcases Nat.lt_trichotomy a b with hab | hab | hab
    · rcases Nat.lt_trichotomy b c with hbc | hbc | hbc
      · simp [Nat.lt_trans hab hbc]
      · subst hbc; simp [hab]
      · simp [hbc, Nat.not_lt.mpr (Nat.le_of_lt hbc)] at h₂
    · subst hab
      rcases Nat.lt_trichotomy a c with hac | hac | hac
      · simp [hac]
      · subst hac
        simp only [lt_irrefl, if_false] at h₁ h₂ ⊢
        exact blt_trans h₁ h₂
      · simp [hac, Nat.not_lt.mpr (Nat.le_of_lt hac)] at h₂
    · simp [hab, Nat.not_lt.mpr (Nat.le_of_lt hab)] at h₁

theorem blt_append_same : ∀ (p a b : Bytes), blt (p ++ a) (p ++ b) = blt a b := by
  intro p
  induction p with
  | nil => intro a b; rfl
  | cons x xs ih => intro a b; simp [blt, ih]

/-- If neither of `a`, `b` lexicographically precedes the other they are equal. -/
theorem blt_eq_of_not (a b : Bytes) (h₁ : blt a b = false) (h₂ : blt b a = false) :
    a = b := by
  rcases blt_total a b with h | h | h
  · rw [h₁] at h; cases h
  · exact h
  · rw [h₂] at h; cases h

/-! ### FoundationDB tuple-layer element escaping

Byte-string tuple elements are encoded as `0x01 <escaped bytes> 0x00`,
string elements as `0x02 <escaped bytes> 0x00`, where a `0x00` byte inside
the payload is escaped to `0x00 0xFF`. -/

/-- Tuple-layer payload escaping: each zero byte becomes `0x00 0xFF`. -/
def esc : Bytes → Bytes
  | [] => []
  | 0 :: rest => 0 :: 255 :: esc rest
  | b :: rest => b :: esc rest

theorem esc_nil : esc [] = [] := rfl

theorem esc_cons_zero (rest : Bytes) : esc (0 :: rest) = 0 :: 255 :: esc rest := rfl

theorem esc_cons_pos (b : Nat) (hb : b ≠ 0) (rest : Bytes) :
    esc (b :: rest) = b :: esc rest := by
  cases b with
  | zero => exact absurd rfl hb
  | succ n => rfl

/-- Inverse of `esc` plus terminator scanning: parse the escaped payload up
to (and consuming) the first unescaped `0x00` terminator, returning the
decoded payload and the remaining bytes. -/
def unesc : Bytes → Option (Bytes × Bytes)
  | [] => none
  | b :: rest =>
    if b = 0 then
      match rest with
      | 255 :: rest' => (unesc rest').map (fun p => (0 :: p.1, p.2))
      | _ => some ([], rest)
    else (unesc rest).map (fun p => (b :: p.1, p.2))

theorem unesc_nil : unesc [] = none := rfl

theorem unesc_zero_255 (rest : Bytes) :
    unesc (0 :: 255 :: rest) = (unesc rest).map (fun p => (0 :: p.1, p.2)) := rfl

theorem unesc_zero_nil : unesc [0] = some ([], []) := rfl

theorem unesc_zero_cons (c : Nat) (hc : c ≠ 255) (rest : Bytes) :
    unesc (0 :: c :: rest) = some ([], c :: rest) := by
  rw [unesc.eq_3 0 (c :: rest) (by intro r' h; injection h with h1 _; exact hc h1),
    if_pos rfl]

theorem unesc_pos (b : Nat) (hb : b ≠ 0) (rest : Bytes) :
    unesc (b :: rest) = (unesc rest).map (fun p => (b :: p.1, p.2)) := by
  cases rest with
  | nil => rw [unesc.eq_3 b [] (by intro r' h; cases h), if_neg hb]
  | cons c rest' =>
    by_cases hc : c = 255
    · subst hc
      rw [unesc.eq_2, if_neg hb]
    · rw [unesc.eq_3 b (c :: rest') (by intro r' h; injection h with h1 _; exact hc h1),
        if_neg hb]

/-- Parsing an escaped payload followed by the terminator and a remainder
that does not begin with `0xFF` recovers the payload and remainder. -/
theorem unesc_esc (b r : Bytes) (hr : ∀ c, r.head? = some c → c ≠ 255) :
    unesc (esc b ++ 0 :: r) = some (b, r) := by
  induction b with
  | nil =>
    cases r with
    | nil => simp [esc_nil, unesc_zero_nil]
    | cons c cs =>
      have hc : c ≠ 255 := hr c rfl
      simp [esc_nil, unesc_zero_cons c hc]
  | cons x xs ih =>
    cases x with
    | zero =>
      rw [esc_cons_zero]
      show unesc (0 :: 255 :: (esc xs ++ 0 :: r)) = _
      rw [unesc_zero_255, ih]
      rfl
    | succ n =>
      rw [esc_cons_pos _ (Nat.succ_ne_zero n)]
      show unesc (n.succ :: (esc xs ++ 0 :: r)) = _
      rw [unesc_pos _ (Nat.succ_ne_zero n), ih]
      rfl

/-- Soundness: a successful `unesc` means the input was exactly the escaped
payload, the terminator, then the remainder. -/
theorem unesc_sound : ∀ {l c r : Bytes}, unesc l = some (c, r) →
    l = esc c ++ 0 :: r
  | [], c, r, h => by rw [unesc_nil] at h; cases h
  | [0], c, r, h => by
    rw [unesc_zero_nil] at h
    injection h with h
    injection h with h1 h2
    rw [← h1, ← h2]
    rfl
  | 0 :: c' :: rest, c, r, h => by
    by_cases hc : c' = 255
    · subst hc
      rw [unesc_zero_255] at h
      cases hu : unesc rest with
      | none => rw [hu] at h; cases h
      | some p =>
        rw [hu] at h
        have h' : (0 :: p.1, p.2) = (c, r) := Option.some.inj h
        injection h' with h1 h2
        have heq := unesc_sound (l := rest) hu
        rw [← h1, ← h2, esc_cons_zero]
        show 0 :: 255 :: rest = 0 :: 255 :: (esc p.1 ++ 0 :: p.2)
        rw [← heq]
    · rw [unesc_zero_cons c' hc] at h
      have h' : (([] : Bytes), c' :: rest) = (c, r) := Option.some.inj h
      injection h' with h1 h2
      rw [← h1, ← h2]
      rfl
  | (b + 1) :: rest, c, r, h => by
    rw [unesc_pos _ (Nat.succ_ne_zero b)] at h
    cases hu : unesc rest with
    | none => rw [hu] at h; cases h
    | some p =>
      rw [hu] at h
      have h' : ((b + 1) :: p.1, p.2) = (c, r) := Option.some.inj h
      injection h' with h1 h2
      have heq := unesc_sound (l := rest) hu
      rw [← h1, ← h2, esc_cons_pos _ (Nat.succ_ne_zero b)]
      show (b + 1) :: rest = (b + 1) :: (esc p.1 ++ 0 :: p.2)
      rw [← heq]

/-- `unesc` consumes at least one byte more than it returns. -/
theorem unesc_length {l c r : Bytes} (h : unesc l = some (c, r)) :
    r.length < l.length := by
  rw [unesc_sound h]
  simp
  omega

/-- `esc` of equal-length payloads followed by anything: equality of the
streams forces equality of the payloads and remainders. -/
theorem esc_append_inj : ∀ {a b t₁ t₂ : Bytes}, a.length = b.length →
    esc a ++ t₁ = esc b ++ t₂ → a = b ∧ t₁ = t₂ := by
  intro a
  induction a with
  | nil =>
    intro b t₁ t₂ hl he
    cases b with
    | nil => exact ⟨rfl, he⟩
    | cons _ _ => simp at hl
  | cons x xs ih =>
    intro b t₁ t₂ hl he
    cases b with
    | nil => simp at hl
    | cons y ys =>
      have hl' : xs.length = ys.length := by simpa using hl
      cases x with
      | zero =>
        cases y with
        | zero =>
          rw [esc_cons_zero, esc_cons_zero] at he
          simp only [List.cons_append, List.cons.injEq] at he
          obtain ⟨-, -, he⟩ := he
          obtain ⟨h₁, h₂⟩ := ih hl' he
          exact ⟨by rw [h₁], h₂⟩
        | succ n =>
          rw [esc_cons_zero, esc_cons_pos _ (Nat.succ_ne_zero n)] at he
          simp only [List.cons_append, List.cons.injEq] at he
          omega
      | succ m =>
        cases y with
        | zero =>
          rw [esc_cons_pos _ (Nat.succ_ne_zero m), esc_cons_zero] at he
          simp only [List.cons_append, List.cons.injEq] at he
          omega
        | succ n =>
          rw [esc_cons_pos _ (Nat.succ_ne_zero m), esc_cons_pos _ (Nat.succ_ne_zero n)] at he
          simp only [List.cons_append, List.cons.injEq] at he
          obtain ⟨hxy, he⟩ := he
          obtain ⟨h₁, h₂⟩ := ih hl' he
          have hmn : m = n := by omega
          subst hmn
          exact ⟨by rw [h₁], h₂⟩

/-- `esc` respects the lexicographic order on equal-length payloads,
whatever follows each escaped payload in the key. -/
theorem blt_esc_append : ∀ {a b : Bytes} (t₁ t₂ : Bytes), a.length = b.length →
    a ≠ b → blt (esc a ++ t₁) (esc b ++ t₂) = blt a b := by
  intro a
  induction a with
  | nil =>
    intro b t₁ t₂ hl hne
    cases b with
    | nil => exact absurd rfl hne
    | cons _ _ => simp at hl
  | cons x xs ih =>
    intro b t₁ t₂ hl hne
    cases b with
    | nil => simp at hl
    | cons y ys =>
      have hl' : xs.length = ys.length := by simpa using hl
      rcases Nat.lt_trichotomy x y with hxy | hxy | hxy
      · have h1 : blt (x :: xs) (y :: ys) = true := by simp [blt, hxy]
        rw [h1]
        cases x with
        | zero =>
          rw [esc_cons_zero]
          cases y with
          | zero => omega
          | succ n =>
            rw [esc_cons_pos _ (Nat.succ_ne_zero n)]
            simp [blt, hxy]
        | succ m =>
          rw [esc_cons_pos _ (Nat.succ_ne_zero m)]
          cases y with
          | zero => omega
          | succ n =>
            rw [esc_cons_pos _ (Nat.succ_ne_zero n)]
            simp [blt, hxy]
      · subst hxy
        have hne' : xs ≠ ys := fun h => hne (by rw [h])
        have h1 : blt (x :: xs) (x :: ys) = blt xs ys := by simp [blt]
        rw [h1]
        cases x with
        | zero =>
          rw [esc_cons_zero, esc_cons_zero]
          show blt (0 :: 255 :: (esc xs ++ t₁)) (0 :: 255 :: (esc ys ++ t₂)) = _
          have h2 : blt (0 :: 255 :: (esc xs ++ t₁)) (0 :: 255 :: (esc ys ++ t₂)) =
              blt (esc xs ++ t₁) (esc ys ++ t₂) := by simp [blt]
          rw [h2, ih t₁ t₂ hl' hne']
        | succ m =>
          rw [esc_cons_pos _ (Nat.succ_ne_zero m), esc_cons_pos _ (Nat.succ_ne_zero m)]
          show blt (m.succ :: (esc xs ++ t₁)) (m.succ :: (esc ys ++ t₂)) = _
          have h2 : blt (m.succ :: (esc xs ++ t₁)) (m.succ :: (esc ys ++ t₂)) =
              blt (esc xs ++ t₁) (esc ys ++ t₂) := by simp [blt]
          rw [h2, ih t₁ t₂ hl' hne']
      · have h1 : blt (x :: xs) (y :: ys) = false := by
          simp [blt, hxy, Nat.not_lt.mpr (Nat.le_of_lt hxy)]
        rw [h1]
        cases x with
        | zero => omega
        | succ m =>
          rw [esc_cons_pos _ (Nat.succ_ne_zero m)]
          cases y with
          | zero =>
            rw [esc_cons_zero]
            simp [blt, hxy, Nat.not_lt.mpr (Nat.le_of_lt hxy)]
          | succ n =>
            rw [esc_cons_pos _ (Nat.succ_ne_zero n)]
            simp [blt, hxy, Nat.not_lt.mpr (Nat.le_of_lt hxy)]

theorem esc_injective {a b : Bytes} (hl : a.length = b.length)
    (h : esc a = esc b) : a = b :=
  (esc_append_inj hl (by rw [h] : esc a ++ [] = esc b ++ [])).1

/-! ### Fixed-width big-endian byte encoding of identifiers

`uuid.UUID` values are 128-bit; `MarshalBinary` yields their 16 raw bytes
(big-endian), `UnmarshalBinary` requires exactly 16 bytes. -/

/-- `beBytes w n`: the `w`-byte big-endian encoding of `n % 256^w`. -/
def beBytes : Nat → Nat → Bytes
  | 0, _ => []
  | w + 1, n => beBytes w (n / 256) ++ [n % 256]

/-- Big-endian byte-string to number. -/
def beNat : Bytes → Nat
  | [] => 0
  | b :: rest => b * 256 ^ rest.length + beNat rest

theorem beBytes_length (w n : Nat) : (beBytes w n).length = w := by
  induction w generalizing n with
  | zero => rfl
  | succ w ih => simp [beBytes, ih]

theorem beBytes_lt (w n : Nat) : ∀ b ∈ beBytes w n, b < 256 := by
  induction w generalizing n with
  | zero => intro b hb; cases hb
  | succ w ih =>
    intro b hb
    simp only [beBytes, List.mem_append, List.mem_singleton] at hb
    rcases hb with hb | hb
    · exact ih _ b hb
    · rw [hb]; exact Nat.mod_lt _ (by norm_num)

theorem beNat_append_one (l : Bytes) (b : Nat) :
    beNat (l ++ [b]) = beNat l * 256 + b := by
  induction l with
  | nil => simp [beNat]
  | cons c cs ih =>
    have h1 : (c :: cs) ++ [b] = c :: (cs ++ [b]) := rfl
    rw [h1]
    show c * 256 ^ (cs ++ [b]).length + beNat (cs ++ [b]) = _
    rw [ih]
    have h2 : (cs ++ [b]).length = cs.length + 1 := by simp
    rw [h2, pow_succ]
    show _ = (c * 256 ^ cs.length + beNat cs) * 256 + b
    ring

theorem beNat_beBytes (w n : Nat) : beNat (beBytes w n) = n % 256 ^ w := by
  induction w generalizing n with
  | zero => simp [beBytes, beNat, Nat.mod_one]
  | succ w ih =>
    simp only [beBytes]
    rw [beNat_append_one, ih]
    have h1 : 256 ^ (w + 1) = 256 * 256 ^ w := by rw [pow_succ]; ring
    rw [h1, Nat.mod_mul]
    ring

theorem beBytes_beNat : ∀ (l : Bytes), (∀ b ∈ l, b < 256) →
    beBytes l.length (beNat l) = l := by
  intro l
  induction l using List.reverseRecOn with
  | nil => intro _; rfl
  | append_singleton bs b ih =>
    intro hlt
    have hb : b < 256 := hlt b (by simp)
    have hbs : ∀ x ∈ bs, x < 256 := fun x hx => hlt x (by simp [hx])
    have hlen : (bs ++ [b]).length = bs.length + 1 := by simp
    rw [hlen, beNat_append_one]
    simp only [beBytes]
    have harr : beNat bs * 256 + b = b + 256 * beNat bs := by ring
    have hdiv : (beNat bs * 256 + b) / 256 = beNat bs := by
      rw [harr, Nat.add_mul_div_left _ _ (by norm_num : (0:Nat) < 256),
        Nat.div_eq_of_lt hb, Nat.zero_add]
    have hmod : (beNat bs * 256 + b) % 256 = b := by
      rw [harr, Nat.add_mul_mod_self_left, Nat.mod_eq_of_lt hb]
    rw [hdiv, hmod, ih hbs]


theorem blt_append_congr : ∀ {a b : Bytes} (s t : Bytes), a.length = b.length →
    a ≠ b → blt (a ++ s) (b ++ t) = blt a b := by
  intro a
  induction a with
  | nil =>
    intro b s t hl hne
    cases b with
    | nil => exact absurd rfl hne
    | cons _ _ => simp at hl
  | cons x xs ih =>
    intro b s t hl hne
    cases b with
    | nil => simp at hl
    | cons y ys =>
      have hl' : xs.length = ys.length := by simpa using hl
      show blt (x :: (xs ++ s)) (y :: (ys ++ t)) = blt (x :: xs) (y :: ys)
      rcases Nat.lt_trichotomy x y with hxy | hxy | hxy
      · simp [blt, hxy]
      · subst hxy
        have hne' : xs ≠ ys := fun h => hne (by rw [h])
        simp only [blt, lt_irrefl, if_false]
        exact ih s t hl' hne'
      · simp [blt, hxy, Nat.not_lt.mpr (Nat.le_of_lt hxy)]

theorem beBytes_inj {w m n : Nat} (hm : m < 256 ^ w) (hn : n < 256 ^ w)
    (h : beBytes w m = beBytes w n) : m = n := by
  have h1 := beNat_beBytes w m
  have h2 := beNat_beBytes w n
  rw [h] at h1
  rw [h2, Nat.mod_eq_of_lt hn] at h1
  rw [Nat.mod_eq_of_lt hm] at h1
  exact h1.symm

/-- Fixed-width big-endian encoding is strictly monotone: numeric order of
identifiers is byte-lexicographic order of their encodings. -/
theorem blt_beBytes : ∀ (w : Nat) {m n : Nat}, m < n → n < 256 ^ w →
    blt (beBytes w m) (beBytes w n) = true := by
  intro w
  induction w with
  | zero =>
    intro m n h hn
    simp only [pow_zero] at hn
    omega
  | succ w ih =>
    intro m n h hn
    have hm : m < 256 ^ (w + 1) := Nat.lt_trans h hn
    have hmd : m / 256 < 256 ^ w := by
      rw [Nat.div_lt_iff_lt_mul (by norm_num : (0:Nat) < 256)]
      calc m < 256 ^ (w + 1) := hm
        _ = 256 ^ w * 256 := by rw [pow_succ]
    have hnd : n / 256 < 256 ^ w := by
      rw [Nat.div_lt_iff_lt_mul (by norm_num : (0:Nat) < 256)]
      calc n < 256 ^ (w + 1) := hn
        _ = 256 ^ w * 256 := by rw [pow_succ]
    show blt (beBytes w (m / 256) ++ [m % 256]) (beBytes w (n / 256) ++ [n % 256]) = true
    by_cases hq : m / 256 = n / 256
    · rw [hq, blt_append_same]
      have : m % 256 < n % 256 := by omega
      simp [blt, this]
    · have hlt : m / 256 < n / 256 := by
        have := Nat.div_le_div_right (c := 256) (Nat.le_of_lt h)
        omega
      have hneq : beBytes w (m / 256) ≠ beBytes w (n / 256) := by
        intro he
        exact hq (beBytes_inj hmd hnd he)
      rw [blt_append_congr _ _ (by rw [beBytes_length, beBytes_length]) hneq]
      exact ih hlt hnd

/-! ### FoundationDB tuple layer: elements, packing, parsing -/

/-- Tuple elements used by the graph keyspace: `[]byte` elements (type tag
`0x01`) and string elements (type tag `0x02`, used by `subspace.Sub`). -/
inductive TupElem
  | bytes (b : Bytes)
  | str (s : Bytes)
  deriving DecidableEq

/-- Tuple-layer encoding of one element. -/
def encElem : TupElem → Bytes
  | .bytes b => 1 :: (esc b ++ [0])
  | .str s => 2 :: (esc s ++ [0])

/-- Tuple-layer encoding of an element sequence (`tuple.Tuple.Pack`
without a subspace). -/
def encElems : List TupElem → Bytes
  | [] => []
  | e :: rest => encElem e ++ encElems rest

/-- Tuple-layer parsing of an element sequence, fuelled for structural
recursion (one unit of fuel per element; the input length is always enough
fuel since every element occupies at least two bytes). -/
def parseElemsF : Nat → Bytes → Option (List TupElem)
  | _, [] => some []
  | 0, _ :: _ => none
  | fuel + 1, 1 :: rest =>
    match unesc rest with
    | some (c, r) => (parseElemsF fuel r).map (fun els => TupElem.bytes c :: els)
    | none => none
  | fuel + 1, 2 :: rest =>
    match unesc rest with
    | some (c, r) => (parseElemsF fuel r).map (fun els => TupElem.str c :: els)
    | none => none
  | _ + 1, _ => none

/-- Tuple-layer parsing of an element sequence (`tuple.Unpack`): strict,
rejecting unknown type tags and unterminated payloads. -/
def parseElems (l : Bytes) : Option (List TupElem) := parseElemsF l.length l

theorem parseElemsF_fuel : ∀ (fuel₁ fuel₂ : Nat) (l : Bytes),
    l.length ≤ fuel₁ → l.length ≤ fuel₂ → parseElemsF fuel₁ l = parseElemsF fuel₂ l := by
  intro fuel₁
  induction fuel₁ with
  | zero =>
    intro fuel₂ l h₁ _
    cases l with
    | nil =>
      cases fuel₂ with
      | zero => rfl
      | succ g => rfl
    | cons b rest => simp at h₁
  | succ f ih =>
    intro fuel₂ l h₁ h₂
    cases l with
    | nil =>
      cases fuel₂ with
      | zero => rfl
      | succ g => rfl
    | cons b rest =>
      cases fuel₂ with
      | zero => simp at h₂
      | succ g =>
        match b with
        | 0 => rfl
        | n + 3 => rfl
        | 1 =>
          show (match unesc rest with
            | some (c, r) => (parseElemsF f r).map (fun els => TupElem.bytes c :: els)
            | none => none) =
            (match unesc rest with
            | some (c, r) => (parseElemsF g r).map (fun els => TupElem.bytes c :: els)
            | none => none)
          cases hu : unesc rest with
          | none => rfl
          | some p =>
            obtain ⟨c, r⟩ := p
            have hr := unesc_length hu
            have hlen : rest.length + 1 ≤ f + 1 := h₁
            have hlen₂ : rest.length + 1 ≤ g + 1 := h₂
            show (parseElemsF f r).map (fun els => TupElem.bytes c :: els) =
              (parseElemsF g r).map (fun els => TupElem.bytes c :: els)
            rw [ih g r (by omega) (by omega)]
        | 2 =>
          show (match unesc rest with
            | some (c, r) => (parseElemsF f r).map (fun els => TupElem.str c :: els)
            | none => none) =
            (match unesc rest with
            | some (c, r) => (parseElemsF g r).map (fun els => TupElem.str c :: els)
            | none => none)
          cases hu : unesc rest with
          | none => rfl
          | some p =>
            obtain ⟨c, r⟩ := p
            have hr := unesc_length hu
            have hlen : rest.length + 1 ≤ f + 1 := h₁
            have hlen₂ : rest.length + 1 ≤ g + 1 := h₂
            show (parseElemsF f r).map (fun els => TupElem.str c :: els) =
              (parseElemsF g r).map (fun els => TupElem.str c :: els)
            rw [ih g r (by omega) (by omega)]

theorem parseElems_nil : parseElems [] = some [] := rfl

theorem parseElems_cons1 (rest : Bytes) : parseElems (1 :: rest) =
    match unesc rest with
    | some (c, r) => (parseElems r).map (fun els => TupElem.bytes c :: els)
    | none => none := by
  show (match unesc rest with
    | some (c, r) => (parseElemsF rest.length r).map (fun els => TupElem.bytes c :: els)
    | none => none) = _
  cases hu : unesc rest with
  | none => rfl
  | some p =>
    obtain ⟨c, r⟩ := p
    have hr := unesc_length hu
    show (parseElemsF rest.length r).map (fun els => TupElem.bytes c :: els) =
      (parseElems r).map (fun els => TupElem.bytes c :: els)
    rw [parseElems, parseElemsF_fuel rest.length r.length r (by omega) (by omega)]

theorem parseElems_cons2 (rest : Bytes) : parseElems (2 :: rest) =
    match unesc rest with
    | some (c, r) => (parseElems r).map (fun els => TupElem.str c :: els)
    | none => none := by
  show (match unesc rest with
    | some (c, r) => (parseElemsF rest.length r).map (fun els => TupElem.str c :: els)
    | none => none) = _
  cases hu : unesc rest with
  | none => rfl
  | some p =>
    obtain ⟨c, r⟩ := p
    have hr := unesc_length hu
    show (parseElemsF rest.length r).map (fun els => TupElem.str c :: els) =
      (parseElems r).map (fun els => TupElem.str c :: els)
    rw [parseElems, parseElemsF_fuel rest.length r.length r (by omega) (by omega)]

theorem parseElems_other (b : Nat) (hb1 : b ≠ 1) (hb2 : b ≠ 2) (rest : Bytes) :
    parseElems (b :: rest) = none := by
  show parseElemsF (rest.length + 1) (b :: rest) = none
  match b, hb1, hb2 with
  | 0, _, _ => rfl
  | 1, h, _ => exact absurd rfl h
  | 2, _, h => exact absurd rfl h
  | n + 3, _, _ => rfl

/-- Heads that can start an encoded element stream are `1` and `2`;
in particular never the escape continuation byte `255`. -/
theorem encElems_head_ne (els : List TupElem) (c : Nat)
    (h : (encElems els).head? = some c) : c ≠ 255 := by
  cases els with
  | nil => simp [encElems] at h
  | cons e rest =>
    cases e with
    | bytes b =>
      have h1 : encElems (TupElem.bytes b :: rest) =
          1 :: (esc b ++ [0] ++ encElems rest) := by simp [encElems, encElem]
      rw [h1, List.head?_cons] at h
      injection h with h
      omega
    | str s =>
      have h1 : encElems (TupElem.str s :: rest) =
          2 :: (esc s ++ [0] ++ encElems rest) := by simp [encElems, encElem]
      rw [h1, List.head?_cons] at h
      injection h with h
      omega

/-- Round trip: parsing an encoded element sequence recovers it. -/
theorem parseElems_enc (els : List TupElem) :
    parseElems (encElems els) = some els := by
  induction els with
  | nil => rw [encElems, parseElems_nil]
  | cons e rest ih =>
    cases e with
    | bytes b =>
      show parseElems (1 :: ((esc b ++ [0]) ++ encElems rest)) = _
      have hs : (esc b ++ [0]) ++ encElems rest = esc b ++ 0 :: encElems rest := by
        simp
      rw [hs, parseElems_cons1, unesc_esc b (encElems rest) (encElems_head_ne rest)]
      show (parseElems (encElems rest)).map (fun els => TupElem.bytes b :: els) = _
      rw [ih]
      rfl
    | str s =>
      show parseElems (2 :: ((esc s ++ [0]) ++ encElems rest)) = _
      have hs : (esc s ++ [0]) ++ encElems rest = esc s ++ 0 :: encElems rest := by
        simp
      rw [hs, parseElems_cons2, unesc_esc s (encElems rest) (encElems_head_ne rest)]
      show (parseElems (encElems rest)).map (fun els => TupElem.str s :: els) = _
      rw [ih]
      rfl

/-- Soundness: a successful parse means the input was exactly the encoding
of the parsed elements. -/
theorem parseElems_sound {l : Bytes} {els : List TupElem}
    (h : parseElems l = some els) : l = encElems els := by
  have H : ∀ (n : Nat) (l : Bytes) (els : List TupElem), l.length = n →
      parseElems l = some els → l = encElems els := by
    intro n
    induction n using Nat.strong_induction_on with
    | _ n ihn =>
    intro l els hn h
    cases l with
    | nil =>
      rw [parseElems_nil] at h
      injection h with h
      rw [← h]
      rfl
    | cons b rest =>
      by_cases hb1 : b = 1
      · subst hb1
        rw [parseElems_cons1 rest] at h
        split at h
        · rename_i c r hu
          cases hp : parseElems r with
          | none => rw [hp] at h; cases h
          | some els' =>
            rw [hp] at h
            have he : TupElem.bytes c :: els' = els := Option.some.inj h
            have hr : r.length < rest.length := unesc_length hu
            have hrec := ihn r.length (by rw [← hn]; simp; omega) r els' rfl hp
            rw [← he]
            show 1 :: rest = encElem (.bytes c) ++ encElems els'
            rw [unesc_sound hu, hrec]
            simp [encElem]
        · cases h
      · by_cases hb2 : b = 2
        · subst hb2
          rw [parseElems_cons2 rest] at h
          split at h
          · rename_i c r hu
            cases hp : parseElems r with
            | none => rw [hp] at h; cases h
            | some els' =>
              rw [hp] at h
              have he : TupElem.str c :: els' = els := Option.some.inj h
              have hr : r.length < rest.length := unesc_length hu
              have hrec := ihn r.length (by rw [← hn]; simp; omega) r els' rfl hp
              rw [← he]
              show 2 :: rest = encElem (.str c) ++ encElems els'
              rw [unesc_sound hu, hrec]
              simp [encElem]
          · cases h
        · rw [parseElems_other b hb1 hb2 rest] at h
          cases h
  exact H l.length l els rfl h

/-! ### Subspaces (`subspace.Sub`) and the six graph namespaces -/

/-- Drop an expected prefix from a key, or fail (`bytes.HasPrefix` check in
`subspace.Unpack`). -/
def strip : Bytes → Bytes → Option Bytes
  | [], k => some k
  | _ :: _, [] => none
  | a :: as, b :: bs => if a = b then strip as bs else none

theorem strip_append (p r : Bytes) : strip p (p ++ r) = some r := by
  induction p with
  | nil => rfl
  | cons a as ih => simp [strip, ih]

theorem strip_sound : ∀ {p k r : Bytes}, strip p k = some r → k = p ++ r := by
  intro p
  induction p with
  | nil =>
    intro k r h
    injection h with h
  | cons a as ih =>
    intro k r h
    cases k with
    | nil => cases h
    | cons b bs =>
      by_cases hab : a = b
      · subst hab
        rw [show strip (a :: as) (a :: bs) = strip as bs from by simp [strip]] at h
        rw [ih h]
        rfl
      · rw [show strip (a :: as) (b :: bs) = none from by simp [strip, hab]] at h
        cases h

/-- `subspace.Sub(name).Pack(els)`: the packed string prefix followed by the
packed elements. -/
def subPack (name : Bytes) (els : List TupElem) : Bytes :=
  encElem (.str name) ++ encElems els

/-- `subspace.Sub(name).Unpack(key)`: require the subspace prefix, then
parse the remainder as a tuple. -/
def subUnpack (name : Bytes) (key : Bytes) : Option (List TupElem) :=
  match strip (encElem (.str name)) key with
  | none => none
  | some rest => parseElems rest

theorem subUnpack_subPack (name : Bytes) (els : List TupElem) :
    subUnpack name (subPack name els) = some els := by
  rw [subPack, subUnpack, strip_append]
  exact parseElems_enc els

theorem subUnpack_sound {name key : Bytes} {els : List TupElem}
    (h : subUnpack name key = some els) : key = subPack name els := by
  rw [subUnpack] at h
  cases hs : strip (encElem (.str name)) key with
  | none => rw [hs] at h; cases h
  | some rest =>
    rw [hs] at h
    rw [subPack, ← parseElems_sound h]
    exact strip_sound hs

/-- ASCII bytes of the six namespace names declared in the graph package:
`action`, `artifact`, `input`, `output`, `producer`, `consumer`. -/
def nmAction : Bytes := [97, 99, 116, 105, 111, 110]

def nmArtifact : Bytes := [97, 114, 116, 105, 102, 97, 99, 116]

def nmInput : Bytes := [105, 110, 112, 117, 116]

def nmOutput : Bytes := [111, 117, 116, 112, 117, 116]

def nmProducer : Bytes := [112, 114, 111, 100, 117, 99, 101, 114]

def nmConsumer : Bytes := [99, 111, 110, 115, 117, 109, 101, 114]

/-! ### Identifier (uuid) codec -/

/-- `uuid.UUID.MarshalBinary`: the 16 raw big-endian bytes of a 128-bit id. -/
def uuidBytes (n : Nat) : Bytes := beBytes 16 n

theorem uuidBytes_length (n : Nat) : (uuidBytes n).length = 16 :=
  beBytes_length 16 n

theorem uuidBytes_inj {m n : Nat} (hm : m < 2 ^ 128) (hn : n < 2 ^ 128)
    (h : uuidBytes m = uuidBytes n) : m = n := by
  have h256 : (256 : Nat) ^ 16 = 2 ^ 128 := by norm_num
  exact beBytes_inj (by rw [h256]; exact hm) (by rw [h256]; exact hn) h

theorem beNat_uuidBytes (n : Nat) (hn : n < 2 ^ 128) :
    beNat (uuidBytes n) = n := by
  have h256 : (256 : Nat) ^ 16 = 2 ^ 128 := by norm_num
  rw [uuidBytes, beNat_beBytes, h256, Nat.mod_eq_of_lt hn]

theorem uuidBytes_beNat (b : Bytes) (hlen : b.length = 16)
    (hlt : ∀ c ∈ b, c < 256) : uuidBytes (beNat b) = b := by
  rw [uuidBytes, ← hlen]
  exact beBytes_beNat b hlt

/-! ### Graph errors (`errors.go` and the `fmt.Errorf` sites) -/

/-- The error conditions of the graph package, one constructor per distinct
error site. -/
inductive GErr
  | invalidTupleLength (expected actual : Nat)
  | invalidElementType
  | invalidUuidLength (got : Nat)
  | unpackError
  | gobDecodeError
  | actionNotFound (id : Nat)
  | artifactNotFound (id : Nat)
  | noProducerFound (id : Nat)
  | storeError
  | uuidGenError
  | invalidArtifactKind
  deriving DecidableEq

/-! ### Key codecs (`action.go`, `artifact.go`, `actionInput.go`,
`actionOutput.go`, `artifactProducer.go`, `artifactConsumer.go`) -/

/-- `actionKey`: the action entity key, `action.Pack({id bytes})`. -/
structure actionKey where
  id : Nat
  deriving DecidableEq

def actionKey.Encode (k : actionKey) : Bytes :=
  subPack nmAction [.bytes (uuidBytes k.id)]

def actionKey.Decode (key : Bytes) : Except GErr actionKey :=
  match subUnpack nmAction key with
  | none => .error .unpackError
  | some t =>
    match t with
    | [TupElem.bytes id] =>
      if id.length = 16 then .ok ⟨beNat id⟩
      else .error (.invalidUuidLength id.length)
    | [TupElem.str _] => .error .invalidElementType
    | _ => .error (.invalidTupleLength 1 t.length)

/-- `artifactKey`: the artifact entity key, `artifact.Pack({id bytes})`. -/
structure artifactKey where
  id : Nat
  deriving DecidableEq

def artifactKey.Encode (k : artifactKey) : Bytes :=
  subPack nmArtifact [.bytes (uuidBytes k.id)]

def artifactKey.Decode (key : Bytes) : Except GErr artifactKey :=
  match subUnpack nmArtifact key with
  | none => .error .unpackError
  | some t =>
    match t with
    | [TupElem.bytes id] =>
      if id.length = 16 then .ok ⟨beNat id⟩
      else .error (.invalidUuidLength id.length)
    | [TupElem.str _] => .error .invalidElementType
    | _ => .error (.invalidTupleLength 1 t.length)

/-- `artifactProducerKey`: producer index key, `producer.Pack({artifact id})`. -/
structure artifactProducerKey where
  artifactID : Nat
  deriving DecidableEq

def artifactProducerKey.Encode (k : artifactProducerKey) : Bytes :=
  subPack nmProducer [.bytes (uuidBytes k.artifactID)]

def artifactProducerKey.Decode (key : Bytes) : Except GErr artifactProducerKey :=
  match subUnpack nmProducer key with
  | none => .error .unpackError
  | some t =>
    match t with
    | [TupElem.bytes id] =>
      if id.length = 16 then .ok ⟨beNat id⟩
      else .error (.invalidUuidLength id.length)
    | [TupElem.str _] => .error .invalidElementType
    | _ => .error (.invalidTupleLength 1 t.length)

/-- `actionInputKey`: input edge key, `input.Pack({action id, artifact id})`. -/
structure actionInputKey where
  actionID : Nat
  artifactID : Nat
  deriving DecidableEq

def actionInputKey.Encode (k : actionInputKey) : Bytes :=
  subPack nmInput [.bytes (uuidBytes k.actionID), .bytes (uuidBytes k.artifactID)]

def actionInputKey.Decode (key : Bytes) : Except GErr actionInputKey :=
  match subUnpack nmInput key with
  | none => .error .unpackError
  | some t =>
    match t with
    | [e1, e2] =>
      match e1 with
      | TupElem.str _ => .error .invalidElementType
      | TupElem.bytes a =>
        if a.length = 16 then
          match e2 with
          | TupElem.str _ => .error .invalidElementType
          | TupElem.bytes b =>
            if b.length = 16 then .ok ⟨beNat a, beNat b⟩
            else .error (.invalidUuidLength b.length)
        else .error (.invalidUuidLength a.length)
    | _ => .error (.invalidTupleLength 2 t.length)

/-- `actionOutputKey`: output edge key, `output.Pack({action id, artifact id})`. -/
structure actionOutputKey where
  actionID : Nat
  artifactID : Nat
  deriving DecidableEq

def actionOutputKey.Encode (k : actionOutputKey) : Bytes :=
  subPack nmOutput [.bytes (uuidBytes k.actionID), .bytes (uuidBytes k.artifactID)]

def actionOutputKey.Decode (key : Bytes) : Except GErr actionOutputKey :=
  match subUnpack nmOutput key with
  | none => .error .unpackError
  | some t =>
    match t with
    | [e1, e2] =>
      match e1 with
      | TupElem.str _ => .error .invalidElementType
      | TupElem.bytes a =>
        if a.length = 16 then
          match e2 with
          | TupElem.str _ => .error .invalidElementType
          | TupElem.bytes b =>
            if b.length = 16 then .ok ⟨beNat a, beNat b⟩
            else .error (.invalidUuidLength b.length)
        else .error (.invalidUuidLength a.length)
    | _ => .error (.invalidTupleLength 2 t.length)

/-- `artifactConsumerKey`: consumer index key,
`consumer.Pack({artifact id, action id})`. -/
structure artifactConsumerKey where
  artifactID : Nat
  actionID : Nat
  deriving DecidableEq

def artifactConsumerKey.Encode (k : artifactConsumerKey) : Bytes :=
  subPack nmConsumer [.bytes (uuidBytes k.artifactID), .bytes (uuidBytes k.actionID)]

def artifactConsumerKey.Decode (key : Bytes) : Except GErr artifactConsumerKey :=
  match subUnpack nmConsumer key with
  | none => .error .unpackError
  | some t =>
    match t with
    | [e1, e2] =>
      match e1 with
      | TupElem.str _ => .error .invalidElementType
      | TupElem.bytes a =>
        if a.length = 16 then
          match e2 with
          | TupElem.str _ => .error .invalidElementType
          | TupElem.bytes b =>
            if b.length = 16 then .ok ⟨beNat a, beNat b⟩
            else .error (.invalidUuidLength b.length)
        else .error (.invalidUuidLength a.length)
    | _ => .error (.invalidTupleLength 2 t.length)

theorem encElems_append (L₁ L₂ : List TupElem) :
    encElems (L₁ ++ L₂) = encElems L₁ ++ encElems L₂ := by
  induction L₁ with
  | nil => rfl
  | cons e t ih => simp [encElems, ih]

/-! ### Key algebra: injectivity, prefix ranges, ordering -/

/-- All six graph keys are a namespace name packed with a list of uuid
elements; this uniform view drives the keyspace lemmas. -/
def packKey (nm : Bytes) (ids : List Nat) : Bytes :=
  subPack nm (ids.map (fun i => TupElem.bytes (uuidBytes i)))

theorem actionKey_as_packKey (k : actionKey) :
    k.Encode = packKey nmAction [k.id] := rfl

theorem artifactKey_as_packKey (k : artifactKey) :
    k.Encode = packKey nmArtifact [k.id] := rfl

theorem producerKey_as_packKey (k : artifactProducerKey) :
    k.Encode = packKey nmProducer [k.artifactID] := rfl

theorem inputKey_as_packKey (k : actionInputKey) :
    k.Encode = packKey nmInput [k.actionID, k.artifactID] := rfl

theorem outputKey_as_packKey (k : actionOutputKey) :
    k.Encode = packKey nmOutput [k.actionID, k.artifactID] := rfl

theorem consumerKey_as_packKey (k : artifactConsumerKey) :
    k.Encode = packKey nmConsumer [k.artifactID, k.actionID] := rfl

theorem subPack_eq_encElems (name : Bytes) (els : List TupElem) :
    subPack name els = encElems (TupElem.str name :: els) := rfl

/-- Whole-key injectivity at the tuple level: a packed key determines its
namespace and its element list. -/
theorem subPack_inj {n₁ n₂ : Bytes} {e₁ e₂ : List TupElem}
    (h : subPack n₁ e₁ = subPack n₂ e₂) : n₁ = n₂ ∧ e₁ = e₂ := by
  have h1 := parseElems_enc (TupElem.str n₁ :: e₁)
  rw [← subPack_eq_encElems, h, subPack_eq_encElems, parseElems_enc] at h1
  injection h1 with h1
  injection h1 with h2 h3
  injection h2 with h2
  exact ⟨h2.symm, h3.symm⟩

theorem packKey_inj {n₁ n₂ : Bytes} {ids₁ ids₂ : List Nat}
    (hb₁ : ∀ i ∈ ids₁, i < 2 ^ 128) (hb₂ : ∀ i ∈ ids₂, i < 2 ^ 128)
    (h : packKey n₁ ids₁ = packKey n₂ ids₂) : n₁ = n₂ ∧ ids₁ = ids₂ := by
  obtain ⟨hn, he⟩ := subPack_inj h
  refine ⟨hn, ?_⟩
  clear h hn
  induction ids₁ generalizing ids₂ with
  | nil =>
    cases ids₂ with
    | nil => rfl
    | cons _ _ => cases he
  | cons a t₁ ih =>
    cases ids₂ with
    | nil => cases he
    | cons b t₂ =>
      simp only [List.map_cons, List.cons.injEq] at he
      obtain ⟨hab, ht⟩ := he
      injection hab with hab
      have ha := hb₁ a (by simp)
      have hb := hb₂ b (by simp)
      have : a = b := uuidBytes_inj ha hb hab
      rw [this, ih (fun i hi => hb₁ i (by simp [hi])) (fun i hi => hb₂ i (by simp [hi])) ht]

/-- Boolean prefix test used by range reads (`fdb.PrefixRange`). -/
def starts : Bytes → Bytes → Bool
  | [], _ => true
  | _ :: _, [] => false
  | a :: as, b :: bs => a == b && starts as bs

theorem starts_iff (p k : Bytes) : starts p k = true ↔ ∃ r, k = p ++ r := by
  induction p generalizing k with
  | nil => simp [starts]
  | cons a as ih =>
    cases k with
    | nil =>
      simp only [starts]
      constructor
      · intro h; cases h
      · rintro ⟨r, hr⟩; cases hr
    | cons b bs =>
      simp only [starts, Bool.and_eq_true, beq_iff_eq, ih]
      constructor
      · rintro ⟨hab, r, hr⟩
        exact ⟨r, by simp [hab, hr]⟩
      · rintro ⟨r, hr⟩
        injection hr with h1 h2
        exact ⟨h1.symm, r, h2⟩

theorem starts_append (p r : Bytes) : starts p (p ++ r) = true :=
  (starts_iff p (p ++ r)).mpr ⟨r, rfl⟩

/-- `esc` is the identity on zero-free payloads (such as namespace names). -/
theorem esc_zf (nm : Bytes) (h : ∀ c ∈ nm, c ≠ 0) : esc nm = nm := by
  induction nm with
  | nil => rfl
  | cons c cs ih =>
    rw [esc_cons_pos c (h c (by simp)), ih (fun x hx => h x (by simp [hx]))]

/-- Zero-free segments before a zero delimiter are determined by the
stream. -/
theorem zf_append_inj : ∀ {n₁ n₂ : Bytes} {r₁ r₂ : Bytes},
    (∀ c ∈ n₁, c ≠ 0) → (∀ c ∈ n₂, c ≠ 0) →
    n₁ ++ 0 :: r₁ = n₂ ++ 0 :: r₂ → n₁ = n₂ ∧ r₁ = r₂ := by
  intro n₁
  induction n₁ with
  | nil =>
    intro n₂ r₁ r₂ _ h₂ he
    cases n₂ with
    | nil =>
      injection he with _ h
      exact ⟨rfl, h⟩
    | cons c cs =>
      injection he with h1 _
      exact absurd h1.symm (h₂ c (by simp))
  | cons c cs ih =>
    intro n₂ r₁ r₂ h₁ h₂ he
    cases n₂ with
    | nil =>
      injection he with h1 _
      exact absurd h1 (h₁ c (by simp))
    | cons d ds =>
      injection he with h1 h2
      obtain ⟨hn, hr⟩ := ih (fun x hx => h₁ x (by simp [hx]))
        (fun x hx => h₂ x (by simp [hx])) h2
      exact ⟨by rw [h1, hn], hr⟩

/-- A stream of encoded uuid elements followed by a remainder determines a
prefix relation on the id lists. -/
theorem encUuidStream_pre : ∀ (ids₁ ids₂ : List Nat) (r : Bytes),
    encElems (ids₂.map (fun i => TupElem.bytes (uuidBytes i))) =
      encElems (ids₁.map (fun i => TupElem.bytes (uuidBytes i))) ++ r →
    ∃ t : List Nat, ids₂.map uuidBytes = ids₁.map uuidBytes ++ t.map uuidBytes ∧
      r = encElems (t.map (fun i => TupElem.bytes (uuidBytes i))) := by
  intro ids₁
  induction ids₁ with
  | nil =>
    intro ids₂ r he
    refine ⟨ids₂, by simp, ?_⟩
    rw [he]
    rfl
  | cons u t₁ ih =>
    intro ids₂ r he
    cases ids₂ with
    | nil =>
      exfalso
      rw [show encElems (List.map (fun i => TupElem.bytes (uuidBytes i)) []) = [] from rfl]
        at he
      have : encElems (List.map (fun i => TupElem.bytes (uuidBytes i)) (u :: t₁)) =
          1 :: (esc (uuidBytes u) ++ [0]) ++
            encElems (t₁.map (fun i => TupElem.bytes (uuidBytes i))) := rfl
      rw [this] at he
      cases he
    | cons a t₂ =>
      have h2 : (1 : Nat) :: (esc (uuidBytes a) ++
            (0 :: encElems (t₂.map (fun i => TupElem.bytes (uuidBytes i))))) =
          1 :: (esc (uuidBytes u) ++
            (0 :: (encElems (t₁.map (fun i => TupElem.bytes (uuidBytes i))) ++ r))) := by
        have hL : encElems ((a :: t₂).map (fun i => TupElem.bytes (uuidBytes i))) =
            1 :: (esc (uuidBytes a) ++
              (0 :: encElems (t₂.map (fun i => TupElem.bytes (uuidBytes i))))) := by
          simp [encElems, encElem]
        have hR : encElems ((u :: t₁).map (fun i => TupElem.bytes (uuidBytes i))) ++ r =
            1 :: (esc (uuidBytes u) ++
              (0 :: (encElems (t₁.map (fun i => TupElem.bytes (uuidBytes i))) ++ r))) := by
          simp [encElems, encElem]
        rw [← hL, ← hR, he]
      injection h2 with _ h2
      have h3 : esc (uuidBytes a) ++ 0 ::
            encElems (t₂.map (fun i => TupElem.bytes (uuidBytes i))) =
          esc (uuidBytes u) ++ 0 ::
            (encElems (t₁.map (fun i => TupElem.bytes (uuidBytes i))) ++ r) := by
        simpa using h2
      obtain ⟨hau, htail⟩ := esc_append_inj
        (by rw [uuidBytes_length, uuidBytes_length]) h3
      injection htail with h0 htail
      obtain ⟨t, ht, hr⟩ := ih t₂ r htail
      refine ⟨t, ?_, hr⟩
      simp only [List.map_cons, List.cons_append, List.cons.injEq]
      exact ⟨hau, ht⟩

/-- Characterization of prefix-range membership for well-formed keys: a key
in the keyspace starts with `packKey nm ids` exactly when its namespace is
`nm` and its id components extend `ids`. -/
theorem packKey_starts {nm₁ nm₂ : Bytes} {ids₁ ids₂ : List Nat}
    (hz₁ : ∀ c ∈ nm₁, c ≠ 0) (hz₂ : ∀ c ∈ nm₂, c ≠ 0)
    (h : starts (packKey nm₁ ids₁) (packKey nm₂ ids₂) = true) :
    nm₁ = nm₂ ∧ ∃ t : List Nat,
      ids₂.map uuidBytes = ids₁.map uuidBytes ++ t.map uuidBytes := by
  obtain ⟨r, hr⟩ := (starts_iff _ _).mp h
  have hshape : ∀ (nm : Bytes) (ids : List Nat), packKey nm ids =
      2 :: (esc nm ++ 0 :: encElems (ids.map (fun i => TupElem.bytes (uuidBytes i)))) := by
    intro nm ids
    show 2 :: ((esc nm ++ [0]) ++ encElems (ids.map fun i => TupElem.bytes (uuidBytes i))) = _
    simp
  rw [hshape, hshape] at hr
  have hr' : (2 : Nat) :: (esc nm₂ ++ 0 ::
        encElems (ids₂.map (fun i => TupElem.bytes (uuidBytes i)))) =
      2 :: (esc nm₁ ++ 0 ::
        (encElems (ids₁.map (fun i => TupElem.bytes (uuidBytes i))) ++ r)) := by
    rw [hr]
    simp
  injection hr' with _ hr'
  rw [esc_zf nm₁ hz₁, esc_zf nm₂ hz₂] at hr'
  obtain ⟨hn, hs⟩ := zf_append_inj hz₂ hz₁ hr'
  obtain ⟨t, ht, -⟩ := encUuidStream_pre ids₁ ids₂ r hs
  exact ⟨hn.symm, t, ht⟩

/-- Keys in one namespace sharing the leading elements are ordered by the
byte order of their last element payload. -/
theorem blt_subPack_bytesLast (nm : Bytes) (preE : List TupElem) {u v : Bytes}
    (hlen : u.length = v.length) (hne : u ≠ v) (hblt : blt u v = true) :
    blt (subPack nm (preE ++ [.bytes u])) (subPack nm (preE ++ [.bytes v])) = true := by
  have hgen : ∀ (w : Bytes), subPack nm (preE ++ [.bytes w]) =
      (encElem (.str nm) ++ encElems preE) ++ (1 :: (esc w ++ [0])) := by
    intro w
    show encElem (.str nm) ++ encElems (preE ++ [.bytes w]) = _
    rw [encElems_append, ← List.append_assoc]
    have h2 : encElems [TupElem.bytes w] = 1 :: (esc w ++ [0]) := by
      simp [encElems, encElem]
    rw [h2]
  rw [hgen u, hgen v, blt_append_same]
  have h1 : ∀ (x y : Bytes), blt (1 :: x) (1 :: y) = blt x y := by
    intro x y
    simp [blt]
  rw [h1, blt_esc_append [0] [0] hlen hne]
  exact hblt

/-- Keys in one namespace sharing the leading id components are ordered by
their last id, matching numeric id order. -/
theorem blt_packKey_last {nm : Bytes} (pre : List Nat) {a b : Nat}
    (ha : a < 2 ^ 128) (hb : b < 2 ^ 128) (hab : a < b) :
    blt (packKey nm (pre ++ [a])) (packKey nm (pre ++ [b])) = true := by
  have hm : ∀ (x : Nat), packKey nm (pre ++ [x]) =
      subPack nm (pre.map (fun i => TupElem.bytes (uuidBytes i)) ++
        [.bytes (uuidBytes x)]) := by
    intro x
    rw [packKey, List.map_append]
    simp only [List.map_cons, List.map_nil]
  rw [hm a, hm b]
  have h256 : (256 : Nat) ^ 16 = 2 ^ 128 := by norm_num
  exact blt_subPack_bytesLast nm _ (by rw [uuidBytes_length, uuidBytes_length])
    (fun he => absurd (uuidBytes_inj ha hb he) (Nat.ne_of_lt hab))
    (blt_beBytes 16 hab (by rw [h256]; exact hb))

/-! ### Value codec: model of `encoding/gob` for the record types

Model of the gob wire format for the value structs: compact unsigned
integers, length-prefixed strings, delta-encoded nonzero fields with a `0`
terminator, and a length-framed message carrying the (per-stream constant)
type id.  The per-type descriptor messages a fresh encoder emits before its
first value are constant and round-trip transparently, so the model elides
them;  every `Encode` in the Go code uses a fresh encoder, so the single
first user type id `65` frames every value. -/

/-- Number of base-256 digits of an unsigned 64-bit value (0 for 0);
gob integers are at most eight bytes. -/
def byteLen (n : Nat) : Nat :=
  if n = 0 then 0
  else if n < 256 then 1
  else if n < 256 ^ 2 then 2
  else if n < 256 ^ 3 then 3
  else if n < 256 ^ 4 then 4
  else if n < 256 ^ 5 then 5
  else if n < 256 ^ 6 then 6
  else if n < 256 ^ 7 then 7
  else 8

theorem lt_pow_byteLen {n : Nat} (hn : n < 2 ^ 64) : n < 256 ^ byteLen n := by
  rw [byteLen]
  have h64 : n < 256 ^ 8 := by
    have : (2 : Nat) ^ 64 = 256 ^ 8 := by norm_num
    omega
  split
  · next h => rw [h]; norm_num
  · split
    · next h => simpa using h
    · split
      · next h => simpa using h
      · split
        · next h => simpa using h
        · split
          · next h => simpa using h
          · split
            · next h => simpa using h
            · split
              · next h => simpa using h
              · split
                · next h => simpa using h
                · exact h64

theorem byteLen_le_8 (n : Nat) : byteLen n ≤ 8 := by
  rw [byteLen]
  repeat' split
  all_goals omega

theorem byteLen_pos {n : Nat} (hn : n ≠ 0) : 1 ≤ byteLen n := by
  rw [byteLen, if_neg hn]
  repeat' split
  all_goals omega

/-- gob compact unsigned integer encoding: one byte for values up to 127,
otherwise a count byte `256 - n` followed by the `n` minimal big-endian
bytes. -/
def gobUintEnc (n : Nat) : Bytes :=
  if n ≤ 127 then [n]
  else (256 - byteLen n) :: beBytes (byteLen n) n

/-- gob compact unsigned integer decoding. -/
def gobUintDec : Bytes → Option (Nat × Bytes)
  | [] => none
  | b :: rest =>
    if b ≤ 127 then some (b, rest)
    else
      if rest.length < 256 - b then none
      else some (beNat (rest.take (256 - b)), rest.drop (256 - b))

theorem gobUintDec_long (L : Nat) (bs r : Bytes) (hlen : bs.length = L)
    (h1 : 1 ≤ L) (h8 : L ≤ 8) :
    gobUintDec ((256 - L) :: (bs ++ r)) = some (beNat bs, r) := by
  rw [gobUintDec]
  rw [if_neg (by omega)]
  have hmark : 256 - (256 - L) = L := by omega
  have hl2 : (bs ++ r).length = L + r.length := by simp [hlen]
  rw [hmark, if_neg (by omega)]
  rw [← hlen, List.take_left, List.drop_left]

theorem gobUintDec_enc {n : Nat} (hn : n < 2 ^ 64) (r : Bytes) :
    gobUintDec (gobUintEnc n ++ r) = some (n, r) := by
  rw [gobUintEnc]
  by_cases h : n ≤ 127
  · rw [if_pos h]
    show gobUintDec (n :: r) = some (n, r)
    rw [gobUintDec]
    rw [if_pos h]
  · rw [if_neg h]
    show gobUintDec ((256 - byteLen n) :: (beBytes (byteLen n) n ++ r)) = some (n, r)
    rw [gobUintDec_long (byteLen n) _ r (beBytes_length _ _)
      (byteLen_pos (by omega)) (byteLen_le_8 n)]
    rw [beNat_beBytes, Nat.mod_eq_of_lt (lt_pow_byteLen hn)]

/-- gob string encoding: unsigned byte count then the raw bytes. -/
def gobStrEnc (s : Bytes) : Bytes := gobUintEnc s.length ++ s

/-- gob string decoding. -/
def gobStrDec (m : Bytes) : Option (Bytes × Bytes) :=
  match gobUintDec m with
  | none => none
  | some (L, rest) =>
    if rest.length < L then none
    else some (rest.take L, rest.drop L)

theorem gobStrDec_enc {s : Bytes} (hs : s.length < 2 ^ 64) (r : Bytes) :
    gobStrDec (gobStrEnc s ++ r) = some (s, r) := by
  rw [gobStrEnc, List.append_assoc, gobStrDec, gobUintDec_enc hs]
  have hlen : (s ++ r).length = s.length + r.length := by simp
  show (if (s ++ r).length < s.length then none
    else some ((s ++ r).take s.length, (s ++ r).drop s.length)) = some (s, r)
  rw [if_neg (by omega)]
  rw [List.take_left, List.drop_left]

/-- Elementwise gob encoding of a byte array (each element a compact
uint). -/
def gobUintsEnc : List Nat → Bytes
  | [] => []
  | v :: t => gobUintEnc v ++ gobUintsEnc t

/-- Elementwise gob decoding of a counted byte array. -/
def gobUintsDec : Nat → Bytes → Option (List Nat × Bytes)
  | 0, m => some ([], m)
  | k + 1, m =>
    match gobUintDec m with
    | none => none
    | some (v, m') => (gobUintsDec k m').map (fun p => (v :: p.1, p.2))

theorem gobUintsDec_enc : ∀ {l : List Nat}, (∀ v ∈ l, v < 2 ^ 64) → ∀ (r : Bytes),
    gobUintsDec l.length (gobUintsEnc l ++ r) = some (l, r) := by
  intro l
  induction l with
  | nil => intro _ r; rfl
  | cons v t ih =>
    intro hb r
    show gobUintsDec (t.length + 1) (gobUintsEnc (v :: t) ++ r) = _
    rw [show gobUintsEnc (v :: t) = gobUintEnc v ++ gobUintsEnc t from rfl,
      List.append_assoc]
    rw [gobUintsDec]
    rw [gobUintDec_enc (hb v (by simp))]
    show (gobUintsDec t.length (gobUintsEnc t ++ r)).map (fun p => (v :: p.1, p.2)) = _
    rw [ih (fun x hx => hb x (by simp [hx])) r]
    rfl

/-- The fixed first user type id assigned by a fresh gob encoder. -/
def gobTid : Nat := 65

/-- gob value message framing: a byte count, then the (zigzag-encoded)
type id and the value body. -/
def gobMsg (body : Bytes) : Bytes :=
  gobUintEnc (gobUintEnc (2 * gobTid) ++ body).length ++
    (gobUintEnc (2 * gobTid) ++ body)

/-- Opening a gob value message: read the frame length, bound the payload,
check the type id, return the value body. -/
def gobOpen (data : Bytes) : Option Bytes :=
  match gobUintDec data with
  | none => none
  | some (L, rest) =>
    if rest.length < L then none
    else
      match gobUintDec (rest.take L) with
      | none => none
      | some (tid, m) => if tid = 2 * gobTid then some m else none

theorem gobOpen_msg {body : Bytes} (hb : body.length < 2 ^ 32) :
    gobOpen (gobMsg body) = some body := by
  have htid : gobUintEnc (2 * gobTid) = [255, 130] := by decide
  have hL : (gobUintEnc (2 * gobTid) ++ body).length = body.length + 2 := by
    rw [htid]
    simp
  rw [gobMsg, gobOpen, gobUintDec_enc (by omega)]
  show (if (gobUintEnc (2 * gobTid) ++ body).length <
        (gobUintEnc (2 * gobTid) ++ body).length then none
    else
      match gobUintDec ((gobUintEnc (2 * gobTid) ++ body).take
          (gobUintEnc (2 * gobTid) ++ body).length) with
      | none => none
      | some (tid, m) => if tid = 2 * gobTid then some m else none) = some body
  rw [if_neg (lt_irrefl _), List.take_length, htid]
  show (match gobUintDec (255 :: 130 :: body) with
    | none => none
    | some (tid, m) => if tid = 2 * gobTid then some m else none) = some body
  have h1 : (256 : Nat) - 255 = 1 := by norm_num
  have hdec : gobUintDec (255 :: 130 :: body) = some (130, body) := by
    rw [gobUintDec, if_neg (by norm_num), h1, if_neg (by simp)]
    rfl
  rw [hdec]
  rfl

theorem gobUintEnc_length_le (n : Nat) : (gobUintEnc n).length ≤ 9 := by
  rw [gobUintEnc]
  split
  · simp
  · simp [beBytes_length]
    have := byteLen_le_8 n
    omega

theorem gobStrEnc_length_le (s : Bytes) : (gobStrEnc s).length ≤ 9 + s.length := by
  rw [gobStrEnc]
  have := gobUintEnc_length_le s.length
  simp
  omega

/-! ### Struct body encoders and parsers for the value record shapes -/

/-- gob struct body with two string fields (field numbers 0 and 1):
delta-encoded nonzero fields, then the `0` terminator. -/
def bodyTwoStr (f0 f1 : Bytes) : Bytes :=
  (if f0 = [] then [] else gobUintEnc 1 ++ gobStrEnc f0) ++
    ((if f1 = [] then [] else gobUintEnc (if f0 = [] then 2 else 1) ++ gobStrEnc f1) ++ [0])

/-- Parser for a two-string-field gob struct body (strict: must consume the
whole body and see the terminator). -/
def decTwoStr (m : Bytes) : Option (Bytes × Bytes) :=
  match gobUintDec m with
  | none => none
  | some (0, m1) => if m1 = [] then some ([], []) else none
  | some (1, m1) =>
    match gobStrDec m1 with
    | none => none
    | some (s0, m2) =>
      match gobUintDec m2 with
      | none => none
      | some (0, m3) => if m3 = [] then some (s0, []) else none
      | some (1, m3) =>
        match gobStrDec m3 with
        | none => none
        | some (s1, m4) =>
          match gobUintDec m4 with
          | some (0, m5) => if m5 = [] then some (s0, s1) else none
          | _ => none
      | some _ => none
  | some (2, m1) =>
    match gobStrDec m1 with
    | none => none
    | some (s1, m2) =>
      match gobUintDec m2 with
      | some (0, m3) => if m3 = [] then some ([], s1) else none
      | _ => none
  | some _ => none

theorem gobUintDec_zero_nil : gobUintDec [0] = some (0, []) := by
  rw [gobUintDec]
  norm_num

theorem decTwoStr_body (f0 f1 : Bytes) (h0 : f0.length < 2 ^ 64)
    (h1 : f1.length < 2 ^ 64) : decTwoStr (bodyTwoStr f0 f1) = some (f0, f1) := by
  by_cases hf0 : f0 = []
  · by_cases hf1 : f1 = []
    · subst hf0
      subst hf1
      rfl
    · subst hf0
      have hsh : bodyTwoStr [] f1 = gobUintEnc 2 ++ (gobStrEnc f1 ++ [0]) := by
        rw [bodyTwoStr, if_neg hf1]
        simp
      rw [hsh, decTwoStr, gobUintDec_enc (by norm_num)]
      show (match gobStrDec (gobStrEnc f1 ++ [0]) with
        | none => none
        | some (s1, m2) =>
          match gobUintDec m2 with
          | some (0, m3) => if m3 = [] then some (([] : Bytes), s1) else none
          | _ => none) = some ([], f1)
      rw [gobStrDec_enc h1]
      rfl
  · by_cases hf1 : f1 = []
    · subst hf1
      have hsh : bodyTwoStr f0 [] = gobUintEnc 1 ++ (gobStrEnc f0 ++ [0]) := by
        rw [bodyTwoStr, if_neg hf0]
        simp
      rw [hsh, decTwoStr, gobUintDec_enc (by norm_num)]
      show (match gobStrDec (gobStrEnc f0 ++ [0]) with
        | none => none
        | some (s0, m2) =>
          match gobUintDec m2 with
          | none => none
          | some (0, m3) => if m3 = [] then some (s0, ([] : Bytes)) else none
          | some (1, m3) =>
            match gobStrDec m3 with
            | none => none
            | some (s1, m4) =>
              match gobUintDec m4 with
              | some (0, m5) => if m5 = [] then some (s0, s1) else none
              | _ => none
          | some _ => none) = some (f0, [])
      rw [gobStrDec_enc h0]
      rfl
    · have hsh : bodyTwoStr f0 f1 =
          gobUintEnc 1 ++ (gobStrEnc f0 ++ (gobUintEnc 1 ++ (gobStrEnc f1 ++ [0]))) := by
        rw [bodyTwoStr, if_neg hf0, if_neg hf1, if_neg hf0]
        simp
      rw [hsh, decTwoStr, gobUintDec_enc (by norm_num)]
      show (match gobStrDec (gobStrEnc f0 ++
            (gobUintEnc 1 ++ (gobStrEnc f1 ++ [0]))) with
        | none => none
        | some (s0, m2) =>
          match gobUintDec m2 with
          | none => none
          | some (0, m3) => if m3 = [] then some (s0, ([] : Bytes)) else none
          | some (1, m3) =>
            match gobStrDec m3 with
            | none => none
            | some (s1, m4) =>
              match gobUintDec m4 with
              | some (0, m5) => if m5 = [] then some (s0, s1) else none
              | _ => none
          | some _ => none) = some (f0, f1)
      rw [gobStrDec_enc h0]
      show (match gobUintDec (gobUintEnc 1 ++ (gobStrEnc f1 ++ [0])) with
        | none => none
        | some (0, m3) => if m3 = [] then some (f0, ([] : Bytes)) else none
        | some (1, m3) =>
          match gobStrDec m3 with
          | none => none
          | some (s1, m4) =>
            match gobUintDec m4 with
            | some (0, m5) => if m5 = [] then some (f0, s1) else none
            | _ => none
        | some _ => none) = some (f0, f1)
      rw [gobUintDec_enc (by norm_num)]
      show (match gobStrDec (gobStrEnc f1 ++ [0]) with
        | none => none
        | some (s1, m4) =>
          match gobUintDec m4 with
          | some (0, m5) => if m5 = [] then some (f0, s1) else none
          | _ => none) = some (f0, f1)
      rw [gobStrDec_enc h1]
      rfl

/-- gob struct body with a string field 0 and an unsigned field 1. -/
def bodyStrUint (f0 : Bytes) (k : Nat) : Bytes :=
  (if f0 = [] then [] else gobUintEnc 1 ++ gobStrEnc f0) ++
    ((if k = 0 then [] else gobUintEnc (if f0 = [] then 2 else 1) ++ gobUintEnc k) ++ [0])

/-- Parser for a string-then-uint gob struct body. -/
def decStrUint (m : Bytes) : Option (Bytes × Nat) :=
  match gobUintDec m with
  | none => none
  | some (0, m1) => if m1 = [] then some ([], 0) else none
  | some (1, m1) =>
    match gobStrDec m1 with
    | none => none
    | some (s0, m2) =>
      match gobUintDec m2 with
      | none => none
      | some (0, m3) => if m3 = [] then some (s0, 0) else none
      | some (1, m3) =>
        match gobUintDec m3 with
        | none => none
        | some (k, m4) =>
          match gobUintDec m4 with
          | some (0, m5) => if m5 = [] then some (s0, k) else none
          | _ => none
      | some _ => none
  | some (2, m1) =>
    match gobUintDec m1 with
    | none => none
    | some (k, m2) =>
      match gobUintDec m2 with
      | some (0, m3) => if m3 = [] then some ([], k) else none
      | _ => none
  | some _ => none

theorem decStrUint_body (f0 : Bytes) (k : Nat) (h0 : f0.length < 2 ^ 64)
    (hk : k < 2 ^ 64) : decStrUint (bodyStrUint f0 k) = some (f0, k) := by
  by_cases hf0 : f0 = []
  · by_cases hk0 : k = 0
    · subst hf0
      subst hk0
      rfl
    · subst hf0
      have hsh : bodyStrUint [] k = gobUintEnc 2 ++ (gobUintEnc k ++ [0]) := by
        rw [bodyStrUint, if_neg hk0]
        simp
      rw [hsh, decStrUint, gobUintDec_enc (by norm_num)]
      show (match gobUintDec (gobUintEnc k ++ [0]) with
        | none => none
        | some (k', m2) =>
          match gobUintDec m2 with
          | some (0, m3) => if m3 = [] then some (([] : Bytes), k') else none
          | _ => none) = some ([], k)
      rw [gobUintDec_enc hk]
      rfl
  · by_cases hk0 : k = 0
    · subst hk0
      have hsh : bodyStrUint f0 0 = gobUintEnc 1 ++ (gobStrEnc f0 ++ [0]) := by
        rw [bodyStrUint, if_neg hf0]
        simp
      rw [hsh, decStrUint, gobUintDec_enc (by norm_num)]
      show (match gobStrDec (gobStrEnc f0 ++ [0]) with
        | none => none
        | some (s0, m2) =>
          match gobUintDec m2 with
          | none => none
          | some (0, m3) => if m3 = [] then some (s0, 0) else none
          | some (1, m3) =>
            match gobUintDec m3 with
            | none => none
            | some (k', m4) =>
              match gobUintDec m4 with
              | some (0, m5) => if m5 = [] then some (s0, k') else none
              | _ => none
          | some _ => none) = some (f0, 0)
      rw [gobStrDec_enc h0]
      rfl
    · have hsh : bodyStrUint f0 k =
          gobUintEnc 1 ++ (gobStrEnc f0 ++ (gobUintEnc 1 ++ (gobUintEnc k ++ [0]))) := by
        rw [bodyStrUint, if_neg hf0, if_neg hk0, if_neg hf0]
        simp
      rw [hsh, decStrUint, gobUintDec_enc (by norm_num)]
      show (match gobStrDec (gobStrEnc f0 ++
            (gobUintEnc 1 ++ (gobUintEnc k ++ [0]))) with
        | none => none
        | some (s0, m2) =>
          match gobUintDec m2 with
          | none => none
          | some (0, m3) => if m3 = [] then some (s0, 0) else none
          | some (1, m3) =>
            match gobUintDec m3 with
            | none => none
            | some (k', m4) =>
              match gobUintDec m4 with
              | some (0, m5) => if m5 = [] then some (s0, k') else none
              | _ => none
          | some _ => none) = some (f0, k)
      rw [gobStrDec_enc h0]
      show (match gobUintDec (gobUintEnc 1 ++ (gobUintEnc k ++ [0])) with
        | none => none
        | some (0, m3) => if m3 = [] then some (f0, 0) else none
        | some (1, m3) =>
          match gobUintDec m3 with
          | none => none
          | some (k', m4) =>
            match gobUintDec m4 with
            | some (0, m5) => if m5 = [] then some (f0, k') else none
            | _ => none
        | some _ => none) = some (f0, k)
      rw [gobUintDec_enc (by norm_num)]
      show (match gobUintDec (gobUintEnc k ++ [0]) with
        | none => none
        | some (k', m4) =>
          match gobUintDec m4 with
          | some (0, m5) => if m5 = [] then some (f0, k') else none
          | _ => none) = some (f0, k)
      rw [gobUintDec_enc hk]
      rfl

/-- gob struct body with a single string field. -/
def bodyOneStr (f0 : Bytes) : Bytes :=
  (if f0 = [] then [] else gobUintEnc 1 ++ gobStrEnc f0) ++ [0]

/-- Parser for a single-string-field gob struct body. -/
def decOneStr (m : Bytes) : Option Bytes :=
  match gobUintDec m with
  | none => none
  | some (0, m1) => if m1 = [] then some [] else none
  | some (1, m1) =>
    match gobStrDec m1 with
    | none => none
    | some (s0, m2) =>
      match gobUintDec m2 with
      | some (0, m3) => if m3 = [] then some s0 else none
      | _ => none
  | some _ => none

theorem decOneStr_body (f0 : Bytes) (h0 : f0.length < 2 ^ 64) :
    decOneStr (bodyOneStr f0) = some f0 := by
  by_cases hf0 : f0 = []
  · subst hf0
    rfl
  · have hsh : bodyOneStr f0 = gobUintEnc 1 ++ (gobStrEnc f0 ++ [0]) := by
      rw [bodyOneStr, if_neg hf0]
      simp
    rw [hsh, decOneStr, gobUintDec_enc (by norm_num)]
    show (match gobStrDec (gobStrEnc f0 ++ [0]) with
      | none => none
      | some (s0, m2) =>
        match gobUintDec m2 with
        | some (0, m3) => if m3 = [] then some s0 else none
        | _ => none) = some f0
    rw [gobStrDec_enc h0]
    rfl

/-- gob struct body with a single 16-byte-array field (a `uuid.UUID`),
sent as a count and the elementwise encoded bytes. -/
def bodyUuid (id : Nat) : Bytes :=
  gobUintEnc 1 ++ (gobUintEnc 16 ++ (gobUintsEnc (uuidBytes id) ++ [0]))

/-- Parser for a single 16-byte-array gob struct body. -/
def decUuidArr (m : Bytes) : Option Nat :=
  match gobUintDec m with
  | none => none
  | some (1, m1) =>
    match gobUintDec m1 with
    | some (16, m2) =>
      match gobUintsDec 16 m2 with
      | none => none
      | some (elems, m3) =>
        match gobUintDec m3 with
        | some (0, m4) => if m4 = [] then some (beNat elems) else none
        | _ => none
    | _ => none
  | some _ => none

theorem decUuidArr_body (id : Nat) (hid : id < 2 ^ 128) :
    decUuidArr (bodyUuid id) = some id := by
  have h16 : (uuidBytes id).length = 16 := uuidBytes_length id
  have hlt : ∀ v ∈ uuidBytes id, v < 2 ^ 64 := by
    intro v hv
    have := beBytes_lt 16 id v hv
    omega
  have hbe : beNat (uuidBytes id) = id := beNat_uuidBytes id hid
  rw [bodyUuid]
  generalize hU : uuidBytes id = U at h16 hlt hbe ⊢
  rw [decUuidArr]
  rw [gobUintDec_enc (by norm_num : (1:Nat) < 2 ^ 64)]
  show (match gobUintDec (gobUintEnc 16 ++ (gobUintsEnc U ++ [0])) with
    | some (16, m2) =>
      match gobUintsDec 16 m2 with
      | none => none
      | some (elems, m3) =>
        match gobUintDec m3 with
        | some (0, m4) => if m4 = [] then some (beNat elems) else none
        | _ => none
    | _ => none) = some id
  rw [gobUintDec_enc (by norm_num : (16:Nat) < 2 ^ 64)]
  show (match gobUintsDec 16 (gobUintsEnc U ++ [0]) with
    | none => none
    | some (elems, m3) =>
      match gobUintDec m3 with
      | some (0, m4) => if m4 = [] then some (beNat elems) else none
      | _ => none) = some id
  rw [← h16, gobUintsDec_enc hlt [0]]
  show (match gobUintDec [0] with
    | some (0, m4) => if m4 = [] then some (beNat U) else none
    | _ => none) = some id
  rw [gobUintDec_zero_nil]
  show some (beNat U) = some id
  rw [hbe]

/-! ### The six value codecs (`actionValue`, `artifactValue`,
`actionInputValue`, `actionOutputValue`, `artifactProducerValue`,
`artifactConsumerValue`) -/

/-- `actionValue`: label and command of an action record. -/
structure actionValue where
  Label : Bytes
  Command : Bytes
  deriving DecidableEq

def actionValue.Encode (v : actionValue) : Bytes :=
  gobMsg (bodyTwoStr v.Label v.Command)

def actionValue.Decode (data : Bytes) : Except GErr actionValue :=
  match gobOpen data with
  | none => .error .gobDecodeError
  | some m =>
    match decTwoStr m with
    | none => .error .gobDecodeError
    | some (l, c) => .ok ⟨l, c⟩

/-- `artifactValue`: label and kind of an artifact record. -/
structure artifactValue where
  Label : Bytes
  Kind : Nat
  deriving DecidableEq

def artifactValue.Encode (v : artifactValue) : Bytes :=
  gobMsg (bodyStrUint v.Label v.Kind)

def artifactValue.Decode (data : Bytes) : Except GErr artifactValue :=
  match gobOpen data with
  | none => .error .gobDecodeError
  | some m =>
    match decStrUint m with
    | none => .error .gobDecodeError
    | some (l, k) => .ok ⟨l, k⟩

/-- `actionInputValue`: the input name on an input edge. -/
structure actionInputValue where
  Name : Bytes
  deriving DecidableEq

def actionInputValue.Encode (v : actionInputValue) : Bytes :=
  gobMsg (bodyOneStr v.Name)

def actionInputValue.Decode (data : Bytes) : Except GErr actionInputValue :=
  match gobOpen data with
  | none => .error .gobDecodeError
  | some m =>
    match decOneStr m with
    | none => .error .gobDecodeError
    | some n => .ok ⟨n⟩

/-- `actionOutputValue`: the output name on an output edge. -/
structure actionOutputValue where
  Name : Bytes
  deriving DecidableEq

def actionOutputValue.Encode (v : actionOutputValue) : Bytes :=
  gobMsg (bodyOneStr v.Name)

def actionOutputValue.Decode (data : Bytes) : Except GErr actionOutputValue :=
  match gobOpen data with
  | none => .error .gobDecodeError
  | some m =>
    match decOneStr m with
    | none => .error .gobDecodeError
    | some n => .ok ⟨n⟩

/-- `artifactProducerValue`: the producing action id in the producer
index. -/
structure artifactProducerValue where
  ActionID : Nat
  deriving DecidableEq

def artifactProducerValue.Encode (v : artifactProducerValue) : Bytes :=
  gobMsg (bodyUuid v.ActionID)

def artifactProducerValue.Decode (data : Bytes) : Except GErr artifactProducerValue :=
  match gobOpen data with
  | none => .error .gobDecodeError
  | some m =>
    match decUuidArr m with
    | none => .error .gobDecodeError
    | some id => .ok ⟨id⟩

/-- `artifactConsumerValue`: the empty existence marker of the consumer
index.  Its `Encode` returns the empty byte string and its `Decode`
ignores the input entirely and always succeeds, exactly as in the source. -/
structure artifactConsumerValue where
  deriving DecidableEq

def artifactConsumerValue.Encode (_ : artifactConsumerValue) : Bytes := []

def artifactConsumerValue.Decode (_ : Bytes) : Except GErr artifactConsumerValue :=
  .ok ⟨⟩

/-! ### Value round trips -/

theorem bodyTwoStr_length (f0 f1 : Bytes) :
    (bodyTwoStr f0 f1).length ≤ 37 + f0.length + f1.length := by
  have e1 := gobUintEnc_length_le 1
  have e2 := gobUintEnc_length_le 2
  have s0 := gobStrEnc_length_le f0
  have s1 := gobStrEnc_length_le f1
  rw [bodyTwoStr]
  by_cases hf0 : f0 = [] <;> by_cases hf1 : f1 = [] <;>
    simp [hf0, hf1, List.length_append] <;> omega

theorem bodyStrUint_length (f0 : Bytes) (k : Nat) :
    (bodyStrUint f0 k).length ≤ 37 + f0.length := by
  have e1 := gobUintEnc_length_le 1
  have e2 := gobUintEnc_length_le 2
  have ek := gobUintEnc_length_le k
  have s0 := gobStrEnc_length_le f0
  rw [bodyStrUint]
  by_cases hf0 : f0 = [] <;> by_cases hk : k = 0 <;>
    simp [hf0, hk, List.length_append] <;> omega

theorem bodyOneStr_length (f0 : Bytes) :
    (bodyOneStr f0).length ≤ 19 + f0.length := by
  have e1 := gobUintEnc_length_le 1
  have s0 := gobStrEnc_length_le f0
  rw [bodyOneStr]
  by_cases hf0 : f0 = [] <;> simp [hf0, List.length_append] <;> omega

theorem gobUintsEnc_length (l : Bytes) (hl : ∀ v ∈ l, v < 256) :
    (gobUintsEnc l).length ≤ 2 * l.length := by
  induction l with
  | nil => simp [gobUintsEnc]
  | cons v t ih =>
    have hv : v < 256 := hl v (by simp)
    have henc : (gobUintEnc v).length ≤ 2 := by
      rw [gobUintEnc]
      split
      · simp
      · next h =>
        have hbl : byteLen v = 1 := by
          rw [byteLen]
          rw [if_neg (by omega), if_pos hv]
        simp [beBytes_length, hbl]
    have := ih (fun x hx => hl x (by simp [hx]))
    show (gobUintEnc v ++ gobUintsEnc t).length ≤ 2 * (t.length + 1)
    simp [List.length_append]
    omega

theorem bodyUuid_length (id : Nat) : (bodyUuid id).length ≤ 51 := by
  have e1 := gobUintEnc_length_le 1
  have e16 := gobUintEnc_length_le 16
  have hu : (gobUintsEnc (uuidBytes id)).length ≤ 2 * 16 := by
    have h := gobUintsEnc_length (uuidBytes id) (beBytes_lt 16 id)
    rw [uuidBytes_length] at h
    exact h
  rw [bodyUuid]
  simp [List.length_append]
  omega

theorem actionValue_roundtrip (v : actionValue) (h0 : v.Label.length < 2 ^ 20)
    (h1 : v.Command.length < 2 ^ 20) : actionValue.Decode v.Encode = .ok v := by
  rw [actionValue.Encode, actionValue.Decode]
  have hlen := bodyTwoStr_length v.Label v.Command
  rw [gobOpen_msg (by omega)]
  show (match decTwoStr (bodyTwoStr v.Label v.Command) with
    | none => Except.error GErr.gobDecodeError
    | some (l, c) => Except.ok (⟨l, c⟩ : actionValue)) = Except.ok v
  rw [decTwoStr_body v.Label v.Command (by omega) (by omega)]

theorem artifactValue_roundtrip (v : artifactValue) (h0 : v.Label.length < 2 ^ 20)
    (hk : v.Kind < 256) : artifactValue.Decode v.Encode = .ok v := by
  rw [artifactValue.Encode, artifactValue.Decode]
  have hlen := bodyStrUint_length v.Label v.Kind
  rw [gobOpen_msg (by omega)]
  show (match decStrUint (bodyStrUint v.Label v.Kind) with
    | none => Except.error GErr.gobDecodeError
    | some (l, k) => Except.ok (⟨l, k⟩ : artifactValue)) = Except.ok v
  rw [decStrUint_body v.Label v.Kind (by omega) (by omega)]

theorem actionInputValue_roundtrip (v : actionInputValue)
    (h0 : v.Name.length < 2 ^ 20) : actionInputValue.Decode v.Encode = .ok v := by
  rw [actionInputValue.Encode, actionInputValue.Decode]
  have hlen := bodyOneStr_length v.Name
  rw [gobOpen_msg (by omega)]
  show (match decOneStr (bodyOneStr v.Name) with
    | none => Except.error GErr.gobDecodeError
    | some n => Except.ok (⟨n⟩ : actionInputValue)) = Except.ok v
  rw [decOneStr_body v.Name (by omega)]

theorem actionOutputValue_roundtrip (v : actionOutputValue)
    (h0 : v.Name.length < 2 ^ 20) : actionOutputValue.Decode v.Encode = .ok v := by
  rw [actionOutputValue.Encode, actionOutputValue.Decode]
  have hlen := bodyOneStr_length v.Name
  rw [gobOpen_msg (by omega)]
  show (match decOneStr (bodyOneStr v.Name) with
    | none => Except.error GErr.gobDecodeError
    | some n => Except.ok (⟨n⟩ : actionOutputValue)) = Except.ok v
  rw [decOneStr_body v.Name (by omega)]

theorem artifactProducerValue_roundtrip (v : artifactProducerValue)
    (hid : v.ActionID < 2 ^ 128) : artifactProducerValue.Decode v.Encode = .ok v := by
  have hlen := bodyUuid_length v.ActionID
  have hdec := decUuidArr_body v.ActionID hid
  rw [artifactProducerValue.Encode, artifactProducerValue.Decode]
  generalize hB : bodyUuid v.ActionID = B at hlen hdec ⊢
  rw [gobOpen_msg (by omega)]
  show (match decUuidArr B with
    | none => Except.error GErr.gobDecodeError
    | some id => Except.ok (⟨id⟩ : artifactProducerValue)) = Except.ok v
  rw [hdec]

theorem artifactConsumerValue_roundtrip (v : artifactConsumerValue) :
    artifactConsumerValue.Decode v.Encode = .ok v := rfl

/-! ### Key round trips and decode soundness -/

theorem mem_esc {c : Nat} : ∀ {b : Bytes}, c ∈ b → c ∈ esc b := by
  intro b
  induction b with
  | nil => intro h; cases h
  | cons x xs ih =>
    intro h
    cases x with
    | zero =>
      rw [esc_cons_zero]
      rcases List.mem_cons.mp h with h | h
      · rw [h]; simp
      · simp [ih h]
    | succ n =>
      rw [esc_cons_pos _ (Nat.succ_ne_zero n)]
      rcases List.mem_cons.mp h with h | h
      · rw [h]; simp
      · simp [ih h]

theorem mem_subPack {c : Nat} {nm : Bytes} {els : List TupElem} {id : Bytes}
    (he : TupElem.bytes id ∈ els) (hc : c ∈ id) : c ∈ subPack nm els := by
  show c ∈ encElem (.str nm) ++ encElems els
  rw [List.mem_append]
  right
  induction els with
  | nil => cases he
  | cons e t ih =>
    show c ∈ encElem e ++ encElems t
    rw [List.mem_append]
    rcases List.mem_cons.mp he with he' | he'
    · left
      rw [← he']
      show c ∈ 1 :: (esc id ++ [0])
      simp [mem_esc hc]
    · right
      exact ih he'

theorem actionKey_roundtrip (k : actionKey) (h : k.id < 2 ^ 128) :
    actionKey.Decode k.Encode = .ok k := by
  have hlen := uuidBytes_length k.id
  have hbe := beNat_uuidBytes k.id h
  rw [actionKey.Encode, actionKey.Decode]
  generalize hU : uuidBytes k.id = U at hlen hbe ⊢
  rw [subUnpack_subPack]
  show (if U.length = 16 then Except.ok (⟨beNat U⟩ : actionKey)
    else Except.error (GErr.invalidUuidLength U.length)) = Except.ok k
  rw [hlen, if_pos rfl, hbe]

theorem actionKey_decode_sound {key : Bytes} {k : actionKey}
    (hwf : ∀ c ∈ key, c < 256) (h : actionKey.Decode key = .ok k) :
    key = actionKey.Encode k := by
  rw [actionKey.Decode] at h
  cases hsub : subUnpack nmAction key with
  | none => rw [hsub] at h; cases h
  | some t =>
    rw [hsub] at h
    cases t with
    | nil => cases h
    | cons e t' =>
      cases t' with
      | nil =>
        cases e with
        | str s => cases h
        | bytes id =>
          have h' : (if id.length = 16 then Except.ok (⟨beNat id⟩ : actionKey)
              else Except.error (GErr.invalidUuidLength id.length)) = Except.ok k := h
          by_cases hlen : id.length = 16
          · rw [if_pos hlen] at h'
            have hk : (⟨beNat id⟩ : actionKey) = k := Except.ok.inj h'
            have hkey := subUnpack_sound hsub
            have hid : uuidBytes (beNat id) = id :=
              uuidBytes_beNat id hlen (fun c hc =>
                hwf c (by rw [hkey]; exact mem_subPack (by simp) hc))
            rw [hkey, ← hk, actionKey.Encode]
            show subPack nmAction [TupElem.bytes id] =
              subPack nmAction [TupElem.bytes (uuidBytes (beNat id))]
            rw [hid]
          · rw [if_neg hlen] at h'
            cases h'
      | cons e2 t'' =>
        cases e <;> cases e2 <;> cases h

theorem artifactKey_roundtrip (k : artifactKey) (h : k.id < 2 ^ 128) :
    artifactKey.Decode k.Encode = .ok k := by
  have hlen := uuidBytes_length k.id
  have hbe := beNat_uuidBytes k.id h
  rw [artifactKey.Encode, artifactKey.Decode]
  generalize hU : uuidBytes k.id = U at hlen hbe ⊢
  rw [subUnpack_subPack]
  show (if U.length = 16 then Except.ok (⟨beNat U⟩ : artifactKey)
    else Except.error (GErr.invalidUuidLength U.length)) = Except.ok k
  rw [hlen, if_pos rfl, hbe]

theorem artifactKey_decode_sound {key : Bytes} {k : artifactKey}
    (hwf : ∀ c ∈ key, c < 256) (h : artifactKey.Decode key = .ok k) :
    key = artifactKey.Encode k := by
  rw [artifactKey.Decode] at h
  cases hsub : subUnpack nmArtifact key with
  | none => rw [hsub] at h; cases h
  | some t =>
    rw [hsub] at h
    cases t with
    | nil => cases h
    | cons e tl =>
      cases tl with
      | nil =>
        cases e with
        | str s => cases h
        | bytes id =>
          have hx : (if id.length = 16 then Except.ok (⟨beNat id⟩ : artifactKey)
              else Except.error (GErr.invalidUuidLength id.length)) = Except.ok k := h
          by_cases hlen : id.length = 16
          · rw [if_pos hlen] at hx
            have hk : (⟨beNat id⟩ : artifactKey) = k := Except.ok.inj hx
            have hkey := subUnpack_sound hsub
            have hid : uuidBytes (beNat id) = id :=
              uuidBytes_beNat id hlen (fun c hc =>
                hwf c (by rw [hkey]; exact mem_subPack (by simp) hc))
            rw [hkey, ← hk, artifactKey.Encode]
            show subPack nmArtifact [TupElem.bytes id] =
              subPack nmArtifact [TupElem.bytes (uuidBytes (beNat id))]
            rw [hid]
          · rw [if_neg hlen] at hx
            cases hx
      | cons e2 tl2 =>
        cases e <;> cases e2 <;> cases h

theorem artifactProducerKey_roundtrip (k : artifactProducerKey) (h : k.artifactID < 2 ^ 128) :
    artifactProducerKey.Decode k.Encode = .ok k := by
  have hlen := uuidBytes_length k.artifactID
  have hbe := beNat_uuidBytes k.artifactID h
  rw [artifactProducerKey.Encode, artifactProducerKey.Decode]
  generalize hU : uuidBytes k.artifactID = U at hlen hbe ⊢
  rw [subUnpack_subPack]
  show (if U.length = 16 then Except.ok (⟨beNat U⟩ : artifactProducerKey)
    else Except.error (GErr.invalidUuidLength U.length)) = Except.ok k
  rw [hlen, if_pos rfl, hbe]

theorem artifactProducerKey_decode_sound {key : Bytes} {k : artifactProducerKey}
    (hwf : ∀ c ∈ key, c < 256) (h : artifactProducerKey.Decode key = .ok k) :
    key = artifactProducerKey.Encode k := by
  rw [artifactProducerKey.Decode] at h
  cases hsub : subUnpack nmProducer key with
  | none => rw [hsub] at h; cases h
  | some t =>
    rw [hsub] at h
    cases t with
    | nil => cases h
    | cons e tl =>
      cases tl with
      | nil =>
        cases e with
        | str s => cases h
        | bytes id =>
          have hx : (if id.length = 16 then Except.ok (⟨beNat id⟩ : artifactProducerKey)
              else Except.error (GErr.invalidUuidLength id.length)) = Except.ok k := h
          by_cases hlen : id.length = 16
          · rw [if_pos hlen] at hx
            have hk : (⟨beNat id⟩ : artifactProducerKey) = k := Except.ok.inj hx
            have hkey := subUnpack_sound hsub
            have hid : uuidBytes (beNat id) = id :=
              uuidBytes_beNat id hlen (fun c hc =>
                hwf c (by rw [hkey]; exact mem_subPack (by simp) hc))
            rw [hkey, ← hk, artifactProducerKey.Encode]
            show subPack nmProducer [TupElem.bytes id] =
              subPack nmProducer [TupElem.bytes (uuidBytes (beNat id))]
            rw [hid]
          · rw [if_neg hlen] at hx
            cases hx
      | cons e2 tl2 =>
        cases e <;> cases e2 <;> cases h

theorem actionInputKey_roundtrip (k : actionInputKey) (ha : k.actionID < 2 ^ 128)
    (hb : k.artifactID < 2 ^ 128) : actionInputKey.Decode k.Encode = .ok k := by
  have hlen1 := uuidBytes_length k.actionID
  have hlen2 := uuidBytes_length k.artifactID
  have hbe1 := beNat_uuidBytes k.actionID ha
  have hbe2 := beNat_uuidBytes k.artifactID hb
  rw [actionInputKey.Encode, actionInputKey.Decode]
  generalize hU1 : uuidBytes k.actionID = U1 at hlen1 hbe1 ⊢
  generalize hU2 : uuidBytes k.artifactID = U2 at hlen2 hbe2 ⊢
  rw [subUnpack_subPack]
  show (if U1.length = 16 then
      (if U2.length = 16 then Except.ok (⟨beNat U1, beNat U2⟩ : actionInputKey)
        else Except.error (GErr.invalidUuidLength U2.length))
    else Except.error (GErr.invalidUuidLength U1.length)) = Except.ok k
  rw [hlen1, hlen2, if_pos rfl, if_pos rfl, hbe1, hbe2]

theorem actionInputKey_decode_sound {key : Bytes} {k : actionInputKey}
    (hwf : ∀ c ∈ key, c < 256) (h : actionInputKey.Decode key = .ok k) :
    key = actionInputKey.Encode k := by
  rw [actionInputKey.Decode] at h
  cases hsub : subUnpack nmInput key with
  | none => rw [hsub] at h; cases h
  | some t =>
    rw [hsub] at h
    cases t with
    | nil => cases h
    | cons e tl =>
      cases tl with
      | nil => cases e <;> cases h
      | cons e2 tl2 =>
        cases tl2 with
        | nil =>
          cases e with
          | str s => cases h
          | bytes a =>
            cases e2 with
            | str s2 =>
              have hx : (if a.length = 16 then Except.error GErr.invalidElementType
                  else Except.error (GErr.invalidUuidLength a.length)) = Except.ok k := h
              by_cases hal : a.length = 16
              · rw [if_pos hal] at hx
                cases hx
              · rw [if_neg hal] at hx
                cases hx
            | bytes b =>
              have hx : (if a.length = 16 then
                  (if b.length = 16 then Except.ok (⟨beNat a, beNat b⟩ : actionInputKey)
                    else Except.error (GErr.invalidUuidLength b.length))
                  else Except.error (GErr.invalidUuidLength a.length)) = Except.ok k := h
              by_cases hal : a.length = 16
              · rw [if_pos hal] at hx
                by_cases hbl : b.length = 16
                · rw [if_pos hbl] at hx
                  have hk : (⟨beNat a, beNat b⟩ : actionInputKey) = k := Except.ok.inj hx
                  have hkey := subUnpack_sound hsub
                  have hida : uuidBytes (beNat a) = a :=
                    uuidBytes_beNat a hal (fun c hc =>
                      hwf c (by rw [hkey]; exact mem_subPack (by simp) hc))
                  have hidb : uuidBytes (beNat b) = b :=
                    uuidBytes_beNat b hbl (fun c hc =>
                      hwf c (by rw [hkey]; exact mem_subPack (by simp) hc))
                  rw [hkey, ← hk, actionInputKey.Encode]
                  show subPack nmInput [TupElem.bytes a, TupElem.bytes b] =
                    subPack nmInput [TupElem.bytes (uuidBytes (beNat a)),
                      TupElem.bytes (uuidBytes (beNat b))]
                  rw [hida, hidb]
                · rw [if_neg hbl] at hx
                  cases hx
              · rw [if_neg hal] at hx
                cases hx
        | cons e3 tl3 =>
          cases e <;> cases e2 <;> cases e3 <;> cases h

theorem actionOutputKey_roundtrip (k : actionOutputKey) (ha : k.actionID < 2 ^ 128)
    (hb : k.artifactID < 2 ^ 128) : actionOutputKey.Decode k.Encode = .ok k := by
  have hlen1 := uuidBytes_length k.actionID
  have hlen2 := uuidBytes_length k.artifactID
  have hbe1 := beNat_uuidBytes k.actionID ha
  have hbe2 := beNat_uuidBytes k.artifactID hb
  rw [actionOutputKey.Encode, actionOutputKey.Decode]
  generalize hU1 : uuidBytes k.actionID = U1 at hlen1 hbe1 ⊢
  generalize hU2 : uuidBytes k.artifactID = U2 at hlen2 hbe2 ⊢
  rw [subUnpack_subPack]
  show (if U1.length = 16 then
      (if U2.length = 16 then Except.ok (⟨beNat U1, beNat U2⟩ : actionOutputKey)
        else Except.error (GErr.invalidUuidLength U2.length))
    else Except.error (GErr.invalidUuidLength U1.length)) = Except.ok k
  rw [hlen1, hlen2, if_pos rfl, if_pos rfl, hbe1, hbe2]

theorem actionOutputKey_decode_sound {key : Bytes} {k : actionOutputKey}
    (hwf : ∀ c ∈ key, c < 256) (h : actionOutputKey.Decode key = .ok k) :
    key = actionOutputKey.Encode k := by
  rw [actionOutputKey.Decode] at h
  cases hsub : subUnpack nmOutput key with
  | none => rw [hsub] at h; cases h
  | some t =>
    rw [hsub] at h
    cases t with
    | nil => cases h
    | cons e tl =>
      cases tl with
      | nil => cases e <;> cases h
      | cons e2 tl2 =>
        cases tl2 with
        | nil =>
          cases e with
          | str s => cases h
          | bytes a =>
            cases e2 with
            | str s2 =>
              have hx : (if a.length = 16 then Except.error GErr.invalidElementType
                  else Except.error (GErr.invalidUuidLength a.length)) = Except.ok k := h
              by_cases hal : a.length = 16
              · rw [if_pos hal] at hx
                cases hx
              · rw [if_neg hal] at hx
                cases hx
            | bytes b =>
              have hx : (if a.length = 16 then
                  (if b.length = 16 then Except.ok (⟨beNat a, beNat b⟩ : actionOutputKey)
                    else Except.error (GErr.invalidUuidLength b.length))
                  else Except.error (GErr.invalidUuidLength a.length)) = Except.ok k := h
              by_cases hal : a.length = 16
              · rw [if_pos hal] at hx
                by_cases hbl : b.length = 16
                · rw [if_pos hbl] at hx
                  have hk : (⟨beNat a, beNat b⟩ : actionOutputKey) = k := Except.ok.inj hx
                  have hkey := subUnpack_sound hsub
                  have hida : uuidBytes (beNat a) = a :=
                    uuidBytes_beNat a hal (fun c hc =>
                      hwf c (by rw [hkey]; exact mem_subPack (by simp) hc))
                  have hidb : uuidBytes (beNat b) = b :=
                    uuidBytes_beNat b hbl (fun c hc =>
                      hwf c (by rw [hkey]; exact mem_subPack (by simp) hc))
                  rw [hkey, ← hk, actionOutputKey.Encode]
                  show subPack nmOutput [TupElem.bytes a, TupElem.bytes b] =
                    subPack nmOutput [TupElem.bytes (uuidBytes (beNat a)),
                      TupElem.bytes (uuidBytes (beNat b))]
                  rw [hida, hidb]
                · rw [if_neg hbl] at hx
                  cases hx
              · rw [if_neg hal] at hx
                cases hx
        | cons e3 tl3 =>
          cases e <;> cases e2 <;> cases e3 <;> cases h

theorem artifactConsumerKey_roundtrip (k : artifactConsumerKey) (ha : k.artifactID < 2 ^ 128)
    (hb : k.actionID < 2 ^ 128) : artifactConsumerKey.Decode k.Encode = .ok k := by
  have hlen1 := uuidBytes_length k.artifactID
  have hlen2 := uuidBytes_length k.actionID
  have hbe1 := beNat_uuidBytes k.artifactID ha
  have hbe2 := beNat_uuidBytes k.actionID hb
  rw [artifactConsumerKey.Encode, artifactConsumerKey.Decode]
  generalize hU1 : uuidBytes k.artifactID = U1 at hlen1 hbe1 ⊢
  generalize hU2 : uuidBytes k.actionID = U2 at hlen2 hbe2 ⊢
  rw [subUnpack_subPack]
  show (if U1.length = 16 then
      (if U2.length = 16 then Except.ok (⟨beNat U1, beNat U2⟩ : artifactConsumerKey)
        else Except.error (GErr.invalidUuidLength U2.length))
    else Except.error (GErr.invalidUuidLength U1.length)) = Except.ok k
  rw [hlen1, hlen2, if_pos rfl, if_pos rfl, hbe1, hbe2]

theorem artifactConsumerKey_decode_sound {key : Bytes} {k : artifactConsumerKey}
    (hwf : ∀ c ∈ key, c < 256) (h : artifactConsumerKey.Decode key = .ok k) :
    key = artifactConsumerKey.Encode k := by
  rw [artifactConsumerKey.Decode] at h
  cases hsub : subUnpack nmConsumer key with
  | none => rw [hsub] at h; cases h
  | some t =>
    rw [hsub] at h
    cases t with
    | nil => cases h
    | cons e tl =>
      cases tl with
      | nil => cases e <;> cases h
      | cons e2 tl2 =>
        cases tl2 with
        | nil =>
          cases e with
          | str s => cases h
          | bytes a =>
            cases e2 with
            | str s2 =>
              have hx : (if a.length = 16 then Except.error GErr.invalidElementType
                  else Except.error (GErr.invalidUuidLength a.length)) = Except.ok k := h
              by_cases hal : a.length = 16
              · rw [if_pos hal] at hx
                cases hx
              · rw [if_neg hal] at hx
                cases hx
            | bytes b =>
              have hx : (if a.length = 16 then
                  (if b.length = 16 then Except.ok (⟨beNat a, beNat b⟩ : artifactConsumerKey)
                    else Except.error (GErr.invalidUuidLength b.length))
                  else Except.error (GErr.invalidUuidLength a.length)) = Except.ok k := h
              by_cases hal : a.length = 16
              · rw [if_pos hal] at hx
                by_cases hbl : b.length = 16
                · rw [if_pos hbl] at hx
                  have hk : (⟨beNat a, beNat b⟩ : artifactConsumerKey) = k := Except.ok.inj hx
                  have hkey := subUnpack_sound hsub
                  have hida : uuidBytes (beNat a) = a :=
                    uuidBytes_beNat a hal (fun c hc =>
                      hwf c (by rw [hkey]; exact mem_subPack (by simp) hc))
                  have hidb : uuidBytes (beNat b) = b :=
                    uuidBytes_beNat b hbl (fun c hc =>
                      hwf c (by rw [hkey]; exact mem_subPack (by simp) hc))
                  rw [hkey, ← hk, artifactConsumerKey.Encode]
                  show subPack nmConsumer [TupElem.bytes a, TupElem.bytes b] =
                    subPack nmConsumer [TupElem.bytes (uuidBytes (beNat a)),
                      TupElem.bytes (uuidBytes (beNat b))]
                  rw [hida, hidb]
                · rw [if_neg hbl] at hx
                  cases hx
              · rw [if_neg hal] at hx
                cases hx
        | cons e3 tl3 =>
          cases e <;> cases e2 <;> cases e3 <;> cases h

/-! ### Truncated gob messages are rejected -/

theorem gobMsg_truncated {body : Bytes} (hb : body.length < 2 ^ 32) (k : Nat)
    (hk : k < (gobMsg body).length) : gobOpen ((gobMsg body).take k) = none := by
  have hT : (gobUintEnc (2 * gobTid) ++ body).length = body.length + 2 := by
    rw [show gobUintEnc (2 * gobTid) = [255, 130] from by decide]
    simp
  set T := gobUintEnc (2 * gobTid) ++ body with hTdef
  set L := T.length with hLdef
  have hL64 : L < 2 ^ 64 := by omega
  have hmsg : gobMsg body = gobUintEnc L ++ T := rfl
  rw [hmsg] at hk ⊢
  rcases Nat.eq_zero_or_pos k with hk0 | hkpos
  · subst hk0
    rfl
  · by_cases hkH : k < (gobUintEnc L).length
    · have hLbig : ¬ L ≤ 127 := by
        intro hle
        rw [gobUintEnc, if_pos hle] at hkH
        simp at hkH
        omega
      rw [gobUintEnc, if_neg hLbig] at hkH ⊢
      have hbl8 : byteLen L ≤ 8 := byteLen_le_8 L
      have hbl1 : 1 ≤ byteLen L := byteLen_pos (by omega)
      have hkH' : k - 1 < byteLen L := by
        simp [beBytes_length] at hkH
        omega
      have htk : ((256 - byteLen L) :: beBytes (byteLen L) L ++ T).take k =
          (256 - byteLen L) :: (beBytes (byteLen L) L ++ T).take (k - 1) := by
        cases k with
        | zero => omega
        | succ kk => simp
      rw [htk, gobOpen]
      have hdec : gobUintDec ((256 - byteLen L) ::
          (beBytes (byteLen L) L ++ T).take (k - 1)) = none := by
        rw [gobUintDec, if_neg (by omega)]
        have hlt : ((beBytes (byteLen L) L ++ T).take (k - 1)).length < 256 - (256 - byteLen L) := by
          rw [List.length_take]
          have : 256 - (256 - byteLen L) = byteLen L := by omega
          rw [this]
          omega
        rw [if_pos hlt]
      rw [hdec]
    · have hkH2 : (gobUintEnc L).length ≤ k := Nat.le_of_not_lt hkH
      have hkL : k - (gobUintEnc L).length < L := by
        rw [List.length_append] at hk
        omega
      have htk : (gobUintEnc L ++ T).take k = gobUintEnc L ++ T.take (k - (gobUintEnc L).length) := by
        rw [List.take_append_eq_append_take, List.take_of_length_le hkH2]
      rw [htk, gobOpen, gobUintDec_enc hL64]
      show (if (T.take (k - (gobUintEnc L).length)).length < L then none
        else match gobUintDec ((T.take (k - (gobUintEnc L).length)).take L) with
          | none => none
          | some (tid, m) => if tid = 2 * gobTid then some m else none) = none
      rw [if_pos (by rw [List.length_take]; omega)]

theorem actionValue_decode_truncated (v : actionValue) (h0 : v.Label.length < 2 ^ 20)
    (h1 : v.Command.length < 2 ^ 20) (k : Nat) (hk : k < v.Encode.length) :
    actionValue.Decode (v.Encode.take k) = .error .gobDecodeError := by
  have hlen := bodyTwoStr_length v.Label v.Command
  rw [actionValue.Encode] at hk ⊢
  rw [actionValue.Decode, gobMsg_truncated (by omega) k hk]

theorem artifactValue_decode_truncated (v : artifactValue) (h0 : v.Label.length < 2 ^ 20)
    (k : Nat) (hk : k < v.Encode.length) :
    artifactValue.Decode (v.Encode.take k) = .error .gobDecodeError := by
  have hlen := bodyStrUint_length v.Label v.Kind
  rw [artifactValue.Encode] at hk ⊢
  rw [artifactValue.Decode, gobMsg_truncated (by omega) k hk]

theorem actionInputValue_decode_truncated (v : actionInputValue)
    (h0 : v.Name.length < 2 ^ 20) (k : Nat) (hk : k < v.Encode.length) :
    actionInputValue.Decode (v.Encode.take k) = .error .gobDecodeError := by
  have hlen := bodyOneStr_length v.Name
  rw [actionInputValue.Encode] at hk ⊢
  rw [actionInputValue.Decode, gobMsg_truncated (by omega) k hk]

theorem actionOutputValue_decode_truncated (v : actionOutputValue)
    (h0 : v.Name.length < 2 ^ 20) (k : Nat) (hk : k < v.Encode.length) :
    actionOutputValue.Decode (v.Encode.take k) = .error .gobDecodeError := by
  have hlen := bodyOneStr_length v.Name
  rw [actionOutputValue.Encode] at hk ⊢
  rw [actionOutputValue.Decode, gobMsg_truncated (by omega) k hk]

theorem artifactProducerValue_decode_truncated (v : artifactProducerValue)
    (k : Nat) (hk : k < v.Encode.length) :
    artifactProducerValue.Decode (v.Encode.take k) = .error .gobDecodeError := by
  have hlen := bodyUuid_length v.ActionID
  rw [artifactProducerValue.Encode] at hk ⊢
  rw [artifactProducerValue.Decode, gobMsg_truncated (by omega) k hk]

/-! ### The ordered transactional key-value store

The FoundationDB keyspace is modelled as an association list sorted
strictly by byte-lexicographic key order.  `get`/`set` are the point
operations; `rangeScan` is an ascending prefix range read
(`tr.GetRange(fdb.PrefixRange(p))`). -/

/-- The store contents: a key-sorted association list. -/
abbrev Store := List (Bytes × Bytes)

/-- Point read (`tr.Get`). -/
def Store.get : Store → Bytes → Option Bytes
  | [], _ => none
  | (k', v') :: t, k => if k = k' then some v' else Store.get t k

/-- Point write (`tr.Set`): insert in key order, replacing an existing
entry for the same key. -/
def Store.set : Store → Bytes → Bytes → Store
  | [], k, v => [(k, v)]
  | (k', v') :: t, k, v =>
    if blt k k' = true then (k, v) :: (k', v') :: t
    else if k = k' then (k, v) :: t
    else (k', v') :: Store.set t k v

/-- Ascending prefix range read. -/
def Store.rangeScan (s : Store) (p : Bytes) : Store :=
  s.filter (fun kv => starts p kv.1)

/-- Store well-formedness: keys strictly ascending. -/
def Store.Wf (s : Store) : Prop :=
  s.Pairwise (fun a b => blt a.1 b.1 = true)

theorem Store.get_set_self (s : Store) (k v : Bytes) :
    (s.set k v).get k = some v := by
  induction s with
  | nil => simp [Store.set, Store.get]
  | cons hd t ih =>
    obtain ⟨k', v'⟩ := hd
    rw [Store.set]
    by_cases h1 : blt k k' = true
    · rw [if_pos h1, Store.get, if_pos rfl]
    · rw [if_neg h1]
      by_cases h2 : k = k'
      · rw [if_pos h2, Store.get, if_pos rfl]
      · rw [if_neg h2, Store.get, if_neg h2]
        exact ih

theorem Store.get_set_ne (s : Store) (k v k₂ : Bytes) (hne : k₂ ≠ k) :
    (s.set k v).get k₂ = s.get k₂ := by
  induction s with
  | nil => simp [Store.set, Store.get, hne]
  | cons hd t ih =>
    obtain ⟨k', v'⟩ := hd
    rw [Store.set]
    by_cases h1 : blt k k' = true
    · rw [if_pos h1, Store.get, if_neg hne]
    · rw [if_neg h1]
      by_cases h2 : k = k'
      · subst h2
        rw [if_pos rfl, Store.get, if_neg hne, Store.get, if_neg hne]
      · rw [if_neg h2, Store.get, Store.get]
        by_cases h3 : k₂ = k'
        · rw [if_pos h3, if_pos h3]
        · rw [if_neg h3, if_neg h3]
          exact ih

theorem Store.mem_set {s : Store} {k v : Bytes} {kv : Bytes × Bytes}
    (h : kv ∈ s.set k v) : kv = (k, v) ∨ kv ∈ s := by
  induction s with
  | nil =>
    rw [Store.set] at h
    rcases List.mem_singleton.mp h with h
    exact Or.inl h
  | cons hd t ih =>
    obtain ⟨k', v'⟩ := hd
    rw [Store.set] at h
    by_cases h1 : blt k k' = true
    · rw [if_pos h1] at h
      rcases List.mem_cons.mp h with h | h
      · exact Or.inl h
      · exact Or.inr h
    · rw [if_neg h1] at h
      by_cases h2 : k = k'
      · rw [if_pos h2] at h
        rcases List.mem_cons.mp h with h | h
        · exact Or.inl h
        · exact Or.inr (List.mem_cons.mpr (Or.inr h))
      · rw [if_neg h2] at h
        rcases List.mem_cons.mp h with h | h
        · exact Or.inr (List.mem_cons.mpr (Or.inl h))
        · rcases ih h with h | h
          · exact Or.inl h
          · exact Or.inr (List.mem_cons.mpr (Or.inr h))

theorem Store.wf_set {s : Store} (hwf : s.Wf) (k v : Bytes) : (s.set k v).Wf := by
  induction s with
  | nil =>
    rw [Store.set]
    exact List.pairwise_singleton _ _
  | cons hd t ih =>
    obtain ⟨k', v'⟩ := hd
    rw [Store.Wf, List.pairwise_cons] at hwf
    obtain ⟨hhd, htl⟩ := hwf
    rw [Store.set]
    by_cases h1 : blt k k' = true
    · rw [if_pos h1]
      rw [Store.Wf, List.pairwise_cons]
      constructor
      · intro x hx
        rcases List.mem_cons.mp hx with hx | hx
        · rw [hx]
          exact h1
        · exact blt_trans h1 (hhd x hx)
      · rw [List.pairwise_cons]
        exact ⟨hhd, htl⟩
    · rw [if_neg h1]
      by_cases h2 : k = k'
      · rw [if_pos h2]
        rw [Store.Wf, List.pairwise_cons]
        subst h2
        exact ⟨hhd, htl⟩
      · rw [if_neg h2]
        rw [Store.Wf, List.pairwise_cons]
        constructor
        · intro x hx
          rcases Store.mem_set hx with hx | hx
          · rw [hx]
            rcases blt_total k k' with ht | ht | ht
            · exact absurd ht h1
            · exact absurd ht h2
            · exact ht
          · exact hhd x hx
        · exact ih htl

theorem Store.get_of_mem : ∀ {s : Store}, s.Wf → ∀ {k v : Bytes}, (k, v) ∈ s →
    s.get k = some v := by
  intro s
  induction s with
  | nil =>
    intro _ k v h
    cases h
  | cons hd t ih =>
    intro hwf k v h
    obtain ⟨k', v'⟩ := hd
    rw [Store.Wf, List.pairwise_cons] at hwf
    obtain ⟨hhd, htl⟩ := hwf
    rcases List.mem_cons.mp h with h | h
    · injection h with h1 h2
      subst h1
      subst h2
      rw [Store.get, if_pos rfl]
    · have hne : k ≠ k' := by
        intro he
        have hb := hhd (k, v) h
        rw [he] at hb
        rw [blt_irrefl] at hb
        cases hb
      rw [Store.get, if_neg hne]
      exact ih htl h

theorem Store.mem_of_get : ∀ {s : Store} {k v : Bytes}, s.get k = some v →
    (k, v) ∈ s := by
  intro s
  induction s with
  | nil =>
    intro k v h
    rw [Store.get] at h
    cases h
  | cons hd t ih =>
    intro k v h
    obtain ⟨k', v'⟩ := hd
    rw [Store.get] at h
    by_cases h2 : k = k'
    · rw [if_pos h2] at h
      injection h with h
      rw [h2, h]
      simp
    · rw [if_neg h2] at h
      exact List.mem_cons.mpr (Or.inr (ih h))

/-- Number of entries under one key. -/
def Store.keyCount (s : Store) (k : Bytes) : Nat :=
  (s.filter (fun kv => kv.1 == k)).length

theorem Store.keyCount_of_get {s : Store} (hwf : s.Wf) {k v : Bytes}
    (h : s.get k = some v) : s.keyCount k = 1 := by
  induction s with
  | nil =>
    rw [Store.get] at h
    cases h
  | cons hd t ih =>
    obtain ⟨k', v'⟩ := hd
    rw [Store.Wf, List.pairwise_cons] at hwf
    obtain ⟨hhd, htl⟩ := hwf
    rw [Store.get] at h
    by_cases h2 : k = k'
    · subst h2
      have hnone : t.filter (fun kv => kv.1 == k) = [] := by
        rw [List.filter_eq_nil]
        intro a ha
        have hb := hhd a ha
        simp only [beq_iff_eq]
        intro he
        rw [he] at hb
        rw [blt_irrefl] at hb
        cases hb
      rw [Store.keyCount]
      rw [List.filter_cons]
      simp only [beq_self_eq_true, if_true]
      rw [hnone]
      rfl
    · rw [if_neg h2] at h
      rw [Store.keyCount, List.filter_cons]
      have hne : ((k', v').1 == k) = false := by
        simp only [beq_eq_false_iff_ne, ne_eq]
        exact fun he => h2 he.symm
      rw [hne]
      simp only [Bool.false_eq_true, if_false]
      exact ih htl h

theorem Store.wf_rangeScan {s : Store} (hwf : s.Wf) (p : Bytes) :
    (s.rangeScan p).Wf :=
  List.Pairwise.sublist (List.filter_sublist s) hwf

theorem Store.mem_rangeScan {s : Store} {p : Bytes} {kv : Bytes × Bytes} :
    kv ∈ s.rangeScan p ↔ kv ∈ s ∧ starts p kv.1 = true := by
  rw [Store.rangeScan, List.mem_filter]

/-! ### Graph store operations

Translations of `transactions.go` plus the `Graph`, `actionCursor` and
`artifactCursor` wrappers.  Cursors carry their decoded key and value
(`Id()`, `Label()`, `Command()` / `Kind()`).  Every top-level
`db.Transact` is one atomic step; `addActionOutputTransaction` calls
`addArtifactTransaction` with the transaction it was handed, so in
`actionCursor.AddOutput` all three writes belong to the one transaction.
A store-level non-retryable failure is injected by an oracle consulted
once per top-level write transaction; `uuid.NewV7` failure is modelled as
exhaustion of the 128-bit id supply. -/

/-- `actionCursor`: decoded action record handle. -/
structure ActionCursor where
  id : Nat
  label : Bytes
  command : Bytes
  deriving DecidableEq

/-- `artifactCursor`: decoded artifact record handle. -/
structure ArtifactCursor where
  id : Nat
  label : Bytes
  kind : Nat
  deriving DecidableEq

def actionKeyEnc (id : Nat) : Bytes := actionKey.Encode ⟨id⟩

def artifactKeyEnc (id : Nat) : Bytes := artifactKey.Encode ⟨id⟩

def inputKeyEnc (act art : Nat) : Bytes := actionInputKey.Encode ⟨act, art⟩

def outputKeyEnc (act art : Nat) : Bytes := actionOutputKey.Encode ⟨act, art⟩

def producerKeyEnc (art : Nat) : Bytes := artifactProducerKey.Encode ⟨art⟩

def consumerKeyEnc (art act : Nat) : Bytes := artifactConsumerKey.Encode ⟨art, act⟩

/-- `addActionTransaction`: generate a fresh id, write the action record. -/
def addActionTransaction (st : Store) (nextId : Nat) (label command : Bytes) :
    Except GErr (Store × ActionCursor) :=
  if nextId < 2 ^ 128 then
    .ok (st.set (actionKeyEnc nextId) (actionValue.Encode ⟨label, command⟩),
      ⟨nextId, label, command⟩)
  else .error .uuidGenError

/-- `addArtifactTransaction`: generate a fresh id, write the artifact
record. -/
def addArtifactTransaction (st : Store) (nextId : Nat) (label : Bytes) (kind : Nat) :
    Except GErr (Store × ArtifactCursor) :=
  if nextId < 2 ^ 128 then
    .ok (st.set (artifactKeyEnc nextId) (artifactValue.Encode ⟨label, kind⟩),
      ⟨nextId, label, kind⟩)
  else .error .uuidGenError

/-- `addActionInputTransaction`: write the input edge and the
consumer-index entry in the same transaction. -/
def addActionInputTransaction (st : Store) (act : ActionCursor) (name : Bytes)
    (art : ArtifactCursor) : Store :=
  let st1 := st.set (inputKeyEnc act.id art.id) (actionInputValue.Encode ⟨name⟩)
  st1.set (consumerKeyEnc art.id act.id) (artifactConsumerValue.Encode ⟨⟩)

/-- `addActionOutputTransaction`: create the artifact, then write the
output edge and the producer-index entry; the nested
`addArtifactTransaction` runs on the same transaction. -/
def addActionOutputTransaction (st : Store) (nextId : Nat) (act : ActionCursor)
    (name label : Bytes) (kind : Nat) : Except GErr (Store × ArtifactCursor) :=
  match addArtifactTransaction st nextId label kind with
  | .error e => .error e
  | .ok (st1, artifact) =>
    let st2 := st1.set (outputKeyEnc act.id artifact.id)
      (actionOutputValue.Encode ⟨name⟩)
    let st3 := st2.set (producerKeyEnc artifact.id)
      (artifactProducerValue.Encode ⟨act.id⟩)
    .ok (st3, artifact)

/-- `actionTransaction`: point read and decode of an action record;
NotFound when absent. -/
def actionTransaction (st : Store) (id : Nat) : Except GErr ActionCursor :=
  match st.get (actionKeyEnc id) with
  | none => .error (.actionNotFound id)
  | some data =>
    match actionValue.Decode data with
    | .error e => .error e
    | .ok v => .ok ⟨id, v.Label, v.Command⟩

/-- `artifactTransaction`: point read and decode of an artifact record;
NotFound when absent. -/
def artifactTransaction (st : Store) (id : Nat) : Except GErr ArtifactCursor :=
  match st.get (artifactKeyEnc id) with
  | none => .error (.artifactNotFound id)
  | some data =>
    match artifactValue.Decode data with
    | .error e => .error e
    | .ok v => .ok ⟨id, v.Label, v.Kind⟩

/-- `artifactProducerTransaction`: point read on the producer index, then
a dependent action read; NotFound when no producer entry exists. -/
def artifactProducerTransaction (st : Store) (art : ArtifactCursor) :
    Except GErr ActionCursor :=
  match st.get (producerKeyEnc art.id) with
  | none => .error (.noProducerFound art.id)
  | some data =>
    match artifactProducerValue.Decode data with
    | .error e => .error e
    | .ok apv => actionTransaction st apv.ActionID

/-- Iteration body of `artifactConsumersTransaction`: decode each consumer
key and resolve its action. -/
def consumersLoop (st : Store) : List (Bytes × Bytes) → Except GErr (List ActionCursor)
  | [] => .ok []
  | (k, _) :: rest =>
    match artifactConsumerKey.Decode k with
    | .error e => .error e
    | .ok ack =>
      match actionTransaction st ack.actionID with
      | .error e => .error e
      | .ok a =>
        match consumersLoop st rest with
        | .error e => .error e
        | .ok tl => .ok (a :: tl)

/-- `artifactConsumersTransaction`: ascending prefix scan of the consumer
namespace filtered to the artifact. -/
def artifactConsumersTransaction (st : Store) (art : ArtifactCursor) :
    Except GErr (List ActionCursor) :=
  consumersLoop st (st.rangeScan (packKey nmConsumer [art.id]))

/-- Go `map[string]Artifact` assignment: replace the binding if the name
is present, else add it. -/
def mapSet {α : Type} : List (Bytes × α) → Bytes → α → List (Bytes × α)
  | [], k, v => [(k, v)]
  | (k', v') :: t, k, v =>
    if k' = k then (k, v) :: t else (k', v') :: mapSet t k v

/-- Go map lookup. -/
def mapGet {α : Type} : List (Bytes × α) → Bytes → Option α
  | [], _ => none
  | (k', v') :: t, k => if k' = k then some v' else mapGet t k

/-- Iteration body of `actionInputsTransaction`: decode key and value,
resolve the artifact, collect into the name-keyed map. -/
def inputsLoop (st : Store) : List (Bytes × Bytes) → List (Bytes × ArtifactCursor) →
    Except GErr (List (Bytes × ArtifactCursor))
  | [], acc => .ok acc
  | (k, v) :: rest, acc =>
    match actionInputKey.Decode k with
    | .error e => .error e
    | .ok aik =>
      match actionInputValue.Decode v with
      | .error e => .error e
      | .ok aiv =>
        match artifactTransaction st aik.artifactID with
        | .error e => .error e
        | .ok artifact => inputsLoop st rest (mapSet acc aiv.Name artifact)

/-- `actionInputsTransaction`: ascending prefix scan of the input
namespace filtered to the action, collected name-to-artifact. -/
def actionInputsTransaction (st : Store) (act : ActionCursor) :
    Except GErr (List (Bytes × ArtifactCursor)) :=
  inputsLoop st (st.rangeScan (packKey nmInput [act.id])) []

/-- Iteration body of `actionOutputsTransaction`. -/
def outputsLoop (st : Store) : List (Bytes × Bytes) → List (Bytes × ArtifactCursor) →
    Except GErr (List (Bytes × ArtifactCursor))
  | [], acc => .ok acc
  | (k, v) :: rest, acc =>
    match actionOutputKey.Decode k with
    | .error e => .error e
    | .ok aok =>
      match actionOutputValue.Decode v with
      | .error e => .error e
      | .ok aov =>
        match artifactTransaction st aok.artifactID with
        | .error e => .error e
        | .ok artifact => outputsLoop st rest (mapSet acc aov.Name artifact)

/-- `actionOutputsTransaction`: ascending prefix scan of the output
namespace filtered to the action, collected name-to-artifact. -/
def actionOutputsTransaction (st : Store) (act : ActionCursor) :
    Except GErr (List (Bytes × ArtifactCursor)) :=
  outputsLoop st (st.rangeScan (packKey nmOutput [act.id])) []

/-- Iteration body of `actionsTransaction`: decode key and value of every
action record. -/
def actionsLoop : List (Bytes × Bytes) → Except GErr (List ActionCursor)
  | [] => .ok []
  | (k, v) :: rest =>
    match actionKey.Decode k with
    | .error e => .error e
    | .ok ak =>
      match actionValue.Decode v with
      | .error e => .error e
      | .ok av =>
        match actionsLoop rest with
        | .error e => .error e
        | .ok tl => .ok (⟨ak.id, av.Label, av.Command⟩ :: tl)

/-- `actionsTransaction`: full ascending scan of the action namespace. -/
def actionsTransaction (st : Store) : Except GErr (List ActionCursor) :=
  actionsLoop (st.rangeScan (packKey nmAction []))

/-! ### Top-level transactional system -/

/-- Store-failure oracle: whether the n-th top-level write transaction
fails non-retryably. -/
abbrev Oracle := Nat → Bool

/-- The transactional system: store contents, the monotone id supply, and
the write-transaction counter. -/
structure Sys where
  store : Store
  nextId : Nat
  txnCount : Nat
  deriving DecidableEq

def Sys.init : Sys := ⟨[], 0, 0⟩

/-- `Graph.AddAction`: one write transaction. -/
def Graph.addAction (o : Oracle) (s : Sys) (label command : Bytes) :
    Sys × Except GErr ActionCursor :=
  if o s.txnCount then
    ({ s with txnCount := s.txnCount + 1 }, .error .storeError)
  else
    match addActionTransaction s.store s.nextId label command with
    | .error e => ({ s with txnCount := s.txnCount + 1 }, .error e)
    | .ok (st, cur) => (⟨st, s.nextId + 1, s.txnCount + 1⟩, .ok cur)

/-- `Graph.AddArtifact`: one write transaction (the standalone artifact
creation path). -/
def Graph.addArtifact (o : Oracle) (s : Sys) (label : Bytes) (kind : Nat) :
    Sys × Except GErr ArtifactCursor :=
  if o s.txnCount then
    ({ s with txnCount := s.txnCount + 1 }, .error .storeError)
  else
    match addArtifactTransaction s.store s.nextId label kind with
    | .error e => ({ s with txnCount := s.txnCount + 1 }, .error e)
    | .ok (st, cur) => (⟨st, s.nextId + 1, s.txnCount + 1⟩, .ok cur)

/-- `actionCursor.AddInput`: one write transaction writing the input edge
and the consumer entry together. -/
def ActionCursor.addInput (o : Oracle) (s : Sys) (act : ActionCursor) (name : Bytes)
    (art : ArtifactCursor) : Sys × Except GErr Unit :=
  if o s.txnCount then
    ({ s with txnCount := s.txnCount + 1 }, .error .storeError)
  else
    ({ s with
        store := addActionInputTransaction s.store act name art,
        txnCount := s.txnCount + 1 }, .ok ())

/-- `actionCursor.AddOutput`: one write transaction; the nested
`addArtifactTransaction` reuses it, so artifact, output edge and producer
entry commit together. -/
def ActionCursor.addOutput (o : Oracle) (s : Sys) (act : ActionCursor)
    (name label : Bytes) (kind : Nat) : Sys × Except GErr ArtifactCursor :=
  if o s.txnCount then
    ({ s with txnCount := s.txnCount + 1 }, .error .storeError)
  else
    match addActionOutputTransaction s.store s.nextId act name label kind with
    | .error e => ({ s with txnCount := s.txnCount + 1 }, .error e)
    | .ok (st, artifact) => (⟨st, s.nextId + 1, s.txnCount + 1⟩, .ok artifact)

/-- One mutating top-level transaction of the graph API.  Cursors handed
to `AddInput`/`AddOutput` are ones obtained from the API: their records
exist and their ids are 128-bit.  Labels, commands and edge names are
bounded strings (Go `gob` bounds message sizes; `2 ^ 20` is a conservative
model bound), and artifact kinds are bytes (`ArtifactKind` is a `byte`). -/
inductive Step : Sys → Sys → Prop
  | addAction (o : Oracle) (l c : Bytes) {s : Sys}
      (hl : l.length < 2 ^ 20) (hc : c.length < 2 ^ 20) :
      Step s (Graph.addAction o s l c).1
  | addArtifact (o : Oracle) (l : Bytes) (k : Nat) {s : Sys}
      (hl : l.length < 2 ^ 20) (hk : k < 256) :
      Step s (Graph.addArtifact o s l k).1
  | addInput (o : Oracle) (n : Bytes) {s : Sys} (act : ActionCursor)
      (art : ArtifactCursor) (hn : n.length < 2 ^ 20)
      (hact : actionTransaction s.store act.id = .ok act)
      (hart : artifactTransaction s.store art.id = .ok art)
      (hia : act.id < 2 ^ 128) (hib : art.id < 2 ^ 128) :
      Step s (ActionCursor.addInput o s act n art).1
  | addOutput (o : Oracle) (n l : Bytes) (k : Nat) {s : Sys} (act : ActionCursor)
      (hn : n.length < 2 ^ 20) (hl : l.length < 2 ^ 20) (hk : k < 256)
      (hact : actionTransaction s.store act.id = .ok act)
      (hia : act.id < 2 ^ 128) :
      Step s (ActionCursor.addOutput o s act n l k).1

/-- Multi-step reachability between system states. -/
inductive Reach : Sys → Sys → Prop
  | refl (s : Sys) : Reach s s
  | tail {s t u : Sys} : Reach s t → Step t u → Reach s u

/-- States reachable from the empty store. -/
def Reachable (s : Sys) : Prop := Reach Sys.init s

/-! ### The script-to-graph compiler binding (`action()` in `main.go`)

`file()`/`dir()` return the kind tokens; `action(name, cmd, inputs?,
outputs?)` creates the action, wires each input (one transaction each,
with the `AddInput` error discarded), then each output (one transaction
each).  Script-level artifact references are the parsed 128-bit ids
(`uuid.Parse`/`Id().String()` modelled as the identity on ids).  The
binding also returns the ordered trace of attempted write transactions. -/

def fileToken : Int := 0

def dirToken : Int := 1

/-- Go `graph.ArtifactKind(int64)`: conversion to `byte` truncates. -/
def kindByte (v : Int) : Nat := (v.emod 256).toNat

/-- Trace events: one per attempted write transaction of the binding. -/
inductive Evt
  | create (ok : Bool)
  | input (ok : Bool)
  | output (ok : Bool)
  deriving DecidableEq

/-- The `inputs` loop: resolve each artifact id via `GetArtifact` (abort
on failure), then wire it via `AddInput` whose returned error the source
discards. -/
def bindInputs (o : Oracle) (g : Sys) (act : ActionCursor) :
    List (Bytes × Nat) → Sys × Except GErr Unit × List Evt
  | [] => (g, .ok (), [])
  | (name, aid) :: rest =>
    match artifactTransaction g.store aid with
    | .error e => (g, .error e, [])
    | .ok artifact =>
      let r1 := ActionCursor.addInput o g act name artifact
      let r2 := bindInputs o r1.1 act rest
      (r2.1, r2.2.1,
        Evt.input (match r1.2 with | .ok _ => true | .error _ => false) :: r2.2.2)

/-- The `outputs` loop: validate the kind token, create the output via
`AddOutput` (abort on failure), collect `name -> new artifact id`. -/
def bindOutputs (o : Oracle) (g : Sys) (act : ActionCursor) (label : Bytes) :
    List (Bytes × Int) → List (Bytes × Nat) →
    Sys × Except GErr (List (Bytes × Nat)) × List Evt
  | [], acc => (g, .ok acc, [])
  | (name, kindTok) :: rest, acc =>
    if kindByte kindTok = 0 ∨ kindByte kindTok = 1 then
      match ActionCursor.addOutput o g act name label (kindByte kindTok) with
      | (g1, .error e) => (g1, .error e, [Evt.output false])
      | (g1, .ok artifact) =>
        let r2 := bindOutputs o g1 act label rest (mapSet acc name artifact.id)
        (r2.1, r2.2.1, Evt.output true :: r2.2.2)
    else (g, .error .invalidArtifactKind, [])

/-- The script-level `action(name, cmd, inputs?, outputs?)` binding:
`AddAction` first (its own transaction), then each input, then each
output, each in its own transaction; the result exposes the
`outputs` name-to-artifact-id mapping. -/
def actionBinding (o : Oracle) (g : Sys) (label command : Bytes)
    (inputs : Option (List (Bytes × Nat))) (outputs : Option (List (Bytes × Int))) :
    Sys × Except GErr (List (Bytes × Nat)) × List Evt :=
  match Graph.addAction o g label command with
  | (g1, .error e) => (g1, .error e, [Evt.create false])
  | (g1, .ok act) =>
    let rIn := bindInputs o g1 act (inputs.getD [])
    match rIn.2.1 with
    | .error e => (rIn.1, .error e, Evt.create true :: rIn.2.2)
    | .ok _ =>
      let rOut := bindOutputs o rIn.1 act label (outputs.getD []) []
      (rOut.1, rOut.2.1, Evt.create true :: (rIn.2.2 ++ rOut.2.2))

/-! ### Key algebra: canonical record keys -/

theorem actionKeyEnc_pk (i : Nat) : actionKeyEnc i = packKey nmAction [i] := rfl

theorem artifactKeyEnc_pk (i : Nat) : artifactKeyEnc i = packKey nmArtifact [i] := rfl

theorem inputKeyEnc_pk (a b : Nat) : inputKeyEnc a b = packKey nmInput [a, b] := rfl

theorem outputKeyEnc_pk (a b : Nat) : outputKeyEnc a b = packKey nmOutput [a, b] := rfl

theorem producerKeyEnc_pk (b : Nat) : producerKeyEnc b = packKey nmProducer [b] := rfl

theorem consumerKeyEnc_pk (b a : Nat) : consumerKeyEnc b a = packKey nmConsumer [b, a] := rfl

/-- A packed key determines its namespace, with no bound on the ids. -/
theorem packKey_nm_eq {nm₁ nm₂ : Bytes} {ids₁ ids₂ : List Nat}
    (h : packKey nm₁ ids₁ = packKey nm₂ ids₂) : nm₁ = nm₂ :=
  (subPack_inj h).1

theorem ids1_lt {a : Nat} (ha : a < 2 ^ 128) : ∀ i ∈ ([a] : List Nat), i < 2 ^ 128 := by
  intro i hi
  rw [List.mem_singleton] at hi
  rw [hi]
  exact ha

theorem ids2_lt {a b : Nat} (ha : a < 2 ^ 128) (hb : b < 2 ^ 128) :
    ∀ i ∈ ([a, b] : List Nat), i < 2 ^ 128 := by
  intro i hi
  rcases List.mem_cons.mp hi with h | h
  · rw [h]; exact ha
  · rw [List.mem_singleton] at h
    rw [h]
    exact hb

theorem packKey_ne {nm₁ nm₂ : Bytes} {ids₁ ids₂ : List Nat}
    (hb₁ : ∀ i ∈ ids₁, i < 2 ^ 128) (hb₂ : ∀ i ∈ ids₂, i < 2 ^ 128)
    (h : nm₁ ≠ nm₂ ∨ ids₁ ≠ ids₂) : packKey nm₁ ids₁ ≠ packKey nm₂ ids₂ := by
  intro he
  obtain ⟨hn, hi⟩ := packKey_inj hb₁ hb₂ he
  rcases h with h | h
  · exact h hn
  · exact h hi

theorem packKey1_inj {nm : Bytes} {a b : Nat} (ha : a < 2 ^ 128) (hb : b < 2 ^ 128)
    (h : packKey nm [a] = packKey nm [b]) : a = b := by
  have h2 := (packKey_inj (ids1_lt ha) (ids1_lt hb) h).2
  injection h2 with h2 _

theorem packKey2_inj {nm : Bytes} {a b a' b' : Nat} (ha : a < 2 ^ 128) (hb : b < 2 ^ 128)
    (ha' : a' < 2 ^ 128) (hb' : b' < 2 ^ 128)
    (h : packKey nm [a, b] = packKey nm [a', b']) : a = a' ∧ b = b' := by
  have := (packKey_inj (ids2_lt ha hb) (ids2_lt ha' hb') h).2
  injection this with h1 h2
  injection h2 with h2 _
  exact ⟨h1, h2⟩

theorem packKey_append (nm : Bytes) (ids more : List Nat) :
    packKey nm (ids ++ more) = packKey nm ids ++
      encElems (more.map fun i => TupElem.bytes (uuidBytes i)) := by
  rw [packKey, packKey, List.map_append, subPack, subPack, encElems_append,
    List.append_assoc]

theorem packKey_starts_append (nm : Bytes) (ids more : List Nat) :
    starts (packKey nm ids) (packKey nm (ids ++ more)) = true := by
  rw [packKey_append]
  exact starts_append _ _

theorem lt_of_blt_packKey {nm : Bytes} {a b : Nat} (ha : a < 2 ^ 128) (hb : b < 2 ^ 128)
    (h : blt (packKey nm [a]) (packKey nm [b]) = true) : a < b := by
  rcases Nat.lt_trichotomy a b with h1 | h1 | h1
  · exact h1
  · subst h1
    rw [blt_irrefl] at h
    cases h
  · have h2 := @blt_packKey_last nm [] b a hb ha h1
    rw [List.nil_append, List.nil_append] at h2
    rw [blt_asymm h2] at h
    cases h

theorem lt_of_blt_packKey2 {nm : Bytes} {x a b : Nat} (ha : a < 2 ^ 128)
    (hb : b < 2 ^ 128)
    (h : blt (packKey nm [x, a]) (packKey nm [x, b]) = true) : a < b := by
  rcases Nat.lt_trichotomy a b with h1 | h1 | h1
  · exact h1
  · subst h1
    rw [blt_irrefl] at h
    cases h
  · have h2 := @blt_packKey_last nm [x] b a hb ha h1
    simp only [List.cons_append, List.nil_append] at h2
    rw [blt_asymm h2] at h
    cases h

theorem producerValue_enc_inj {a b : Nat} (ha : a < 2 ^ 128) (hb : b < 2 ^ 128)
    (h : artifactProducerValue.Encode ⟨a⟩ = artifactProducerValue.Encode ⟨b⟩) :
    a = b := by
  have key : a = b ∨ False := by
    have hla := bodyUuid_length a
    have hlb := bodyUuid_length b
    have h1 : gobOpen (gobMsg (bodyUuid a)) = some (bodyUuid a) := gobOpen_msg (by omega)
    have h2 : gobOpen (gobMsg (bodyUuid b)) = some (bodyUuid b) := gobOpen_msg (by omega)
    have he : gobMsg (bodyUuid a) = gobMsg (bodyUuid b) := h
    rw [he, h2] at h1
    injection h1 with h1
    have d1 := decUuidArr_body a ha
    rw [← h1, decUuidArr_body b hb] at d1
    injection d1 with d1
    left
    exact d1.symm
  rcases key with k | k
  · exact k
  · exact k.elim

theorem Store.mem_set_of_ne {st : Store} (hwf : st.Wf) {k v : Bytes}
    {kv : Bytes × Bytes} (h : kv ∈ st) (hne : kv.1 ≠ k) : kv ∈ st.set k v := by
  obtain ⟨k₂, w⟩ := kv
  refine Store.mem_of_get ?_
  rw [Store.get_set_ne st k v k₂ hne]
  exact Store.get_of_mem hwf h

/-! ### The store invariant

Every entry of a reachable store is one of the six canonical records, its
ids drawn from the already-allocated (time-ordered) id range, its value the
canonical encoding of a well-formed record; edges refer to existing
endpoint records, and the output edge and producer index mirror each
other exactly. -/

def EntryShape (nid : Nat) (k v : Bytes) : Prop :=
  (∃ id l c, id < nid ∧ l.length < 2 ^ 20 ∧ c.length < 2 ^ 20 ∧
    k = actionKeyEnc id ∧ v = actionValue.Encode ⟨l, c⟩) ∨
  (∃ id l kd, id < nid ∧ l.length < 2 ^ 20 ∧ kd < 256 ∧
    k = artifactKeyEnc id ∧ v = artifactValue.Encode ⟨l, kd⟩) ∨
  (∃ a b n, a < nid ∧ b < nid ∧ n.length < 2 ^ 20 ∧
    k = inputKeyEnc a b ∧ v = actionInputValue.Encode ⟨n⟩) ∨
  (∃ a b n, a < nid ∧ b < nid ∧ n.length < 2 ^ 20 ∧
    k = outputKeyEnc a b ∧ v = actionOutputValue.Encode ⟨n⟩) ∨
  (∃ b a, b < nid ∧ a < nid ∧
    k = producerKeyEnc b ∧ v = artifactProducerValue.Encode ⟨a⟩) ∨
  (∃ b a, b < nid ∧ a < nid ∧
    k = consumerKeyEnc b a ∧ v = artifactConsumerValue.Encode ⟨⟩)

theorem EntryShape_mono {nid nid' : Nat} (h : nid ≤ nid') {k v : Bytes}
    (hs : EntryShape nid k v) : EntryShape nid' k v := by
  rcases hs with ⟨i, l, c, h1, h2, h3, h4, h5⟩ | ⟨i, l, kd, h1, h2, h3, h4, h5⟩ |
    ⟨a, b, n, h1, h2, h3, h4, h5⟩ | ⟨a, b, n, h1, h2, h3, h4, h5⟩ |
    ⟨b, a, h1, h2, h3, h4⟩ | ⟨b, a, h1, h2, h3, h4⟩
  · exact Or.inl ⟨i, l, c, lt_of_lt_of_le h1 h, h2, h3, h4, h5⟩
  · exact Or.inr (Or.inl ⟨i, l, kd, lt_of_lt_of_le h1 h, h2, h3, h4, h5⟩)
  · exact Or.inr (Or.inr (Or.inl
      ⟨a, b, n, lt_of_lt_of_le h1 h, lt_of_lt_of_le h2 h, h3, h4, h5⟩))
  · exact Or.inr (Or.inr (Or.inr (Or.inl
      ⟨a, b, n, lt_of_lt_of_le h1 h, lt_of_lt_of_le h2 h, h3, h4, h5⟩)))
  · exact Or.inr (Or.inr (Or.inr (Or.inr (Or.inl
      ⟨b, a, lt_of_lt_of_le h1 h, lt_of_lt_of_le h2 h, h3, h4⟩))))
  · exact Or.inr (Or.inr (Or.inr (Or.inr (Or.inr
      ⟨b, a, lt_of_lt_of_le h1 h, lt_of_lt_of_le h2 h, h3, h4⟩))))

/-- The reachable-state invariant. -/
structure Inv (s : Sys) : Prop where
  wf : s.store.Wf
  nidLe : s.nextId ≤ 2 ^ 128
  shapes : ∀ kv ∈ s.store, EntryShape s.nextId kv.1 kv.2
  inputRef : ∀ a b v, a < 2 ^ 128 → b < 2 ^ 128 → (inputKeyEnc a b, v) ∈ s.store →
    (∃ w, (actionKeyEnc a, w) ∈ s.store) ∧ ∃ w, (artifactKeyEnc b, w) ∈ s.store
  outputProd : ∀ a b, a < 2 ^ 128 → b < 2 ^ 128 →
    ((∃ v, (outputKeyEnc a b, v) ∈ s.store) ↔
      s.store.get (producerKeyEnc b) = some (artifactProducerValue.Encode ⟨a⟩))
  outputRef : ∀ a b v, a < 2 ^ 128 → b < 2 ^ 128 → (outputKeyEnc a b, v) ∈ s.store →
    (∃ w, (actionKeyEnc a, w) ∈ s.store) ∧ ∃ w, (artifactKeyEnc b, w) ∈ s.store
  consumerRef : ∀ b a v, b < 2 ^ 128 → a < 2 ^ 128 → (consumerKeyEnc b a, v) ∈ s.store →
    (∃ w, (actionKeyEnc a, w) ∈ s.store) ∧ ∃ w, (artifactKeyEnc b, w) ∈ s.store

theorem shape_at_action {nid : Nat} (hn : nid ≤ 2 ^ 128) {i : Nat} {v : Bytes}
    (hi : i < 2 ^ 128) (hs : EntryShape nid (actionKeyEnc i) v) :
    i < nid ∧ ∃ l c, l.length < 2 ^ 20 ∧ c.length < 2 ^ 20 ∧
      v = actionValue.Encode ⟨l, c⟩ := by
  rcases hs with ⟨x, l, c, h1, h2, h3, h4, h5⟩ | ⟨x, l, kd, h1, h2, h3, h4, h5⟩ |
    ⟨x, y, n, h1, h2, h3, h4, h5⟩ | ⟨x, y, n, h1, h2, h3, h4, h5⟩ |
    ⟨x, y, h1, h2, h3, h4⟩ | ⟨x, y, h1, h2, h3, h4⟩
  · rw [actionKeyEnc_pk, actionKeyEnc_pk] at h4
    have hx := packKey1_inj hi (lt_of_lt_of_le h1 hn) h4
    exact ⟨hx ▸ h1, l, c, h2, h3, h5⟩
  · rw [actionKeyEnc_pk, artifactKeyEnc_pk] at h4
    exact absurd (packKey_nm_eq h4) (by decide)
  · rw [actionKeyEnc_pk, inputKeyEnc_pk] at h4
    exact absurd (packKey_nm_eq h4) (by decide)
  · rw [actionKeyEnc_pk, outputKeyEnc_pk] at h4
    exact absurd (packKey_nm_eq h4) (by decide)
  · rw [actionKeyEnc_pk, producerKeyEnc_pk] at h3
    exact absurd (packKey_nm_eq h3) (by decide)
  · rw [actionKeyEnc_pk, consumerKeyEnc_pk] at h3
    exact absurd (packKey_nm_eq h3) (by decide)

theorem shape_at_artifact {nid : Nat} (hn : nid ≤ 2 ^ 128) {i : Nat} {v : Bytes}
    (hi : i < 2 ^ 128) (hs : EntryShape nid (artifactKeyEnc i) v) :
    i < nid ∧ ∃ l kd, l.length < 2 ^ 20 ∧ kd < 256 ∧
      v = artifactValue.Encode ⟨l, kd⟩ := by
  rcases hs with ⟨x, l, c, h1, h2, h3, h4, h5⟩ | ⟨x, l, kd, h1, h2, h3, h4, h5⟩ |
    ⟨x, y, n, h1, h2, h3, h4, h5⟩ | ⟨x, y, n, h1, h2, h3, h4, h5⟩ |
    ⟨x, y, h1, h2, h3, h4⟩ | ⟨x, y, h1, h2, h3, h4⟩
  · rw [artifactKeyEnc_pk, actionKeyEnc_pk] at h4
    exact absurd (packKey_nm_eq h4) (by decide)
  · rw [artifactKeyEnc_pk, artifactKeyEnc_pk] at h4
    have hx := packKey1_inj hi (lt_of_lt_of_le h1 hn) h4
    exact ⟨hx ▸ h1, l, kd, h2, h3, h5⟩
  · rw [artifactKeyEnc_pk, inputKeyEnc_pk] at h4
    exact absurd (packKey_nm_eq h4) (by decide)
  · rw [artifactKeyEnc_pk, outputKeyEnc_pk] at h4
    exact absurd (packKey_nm_eq h4) (by decide)
  · rw [artifactKeyEnc_pk, producerKeyEnc_pk] at h3
    exact absurd (packKey_nm_eq h3) (by decide)
  · rw [artifactKeyEnc_pk, consumerKeyEnc_pk] at h3
    exact absurd (packKey_nm_eq h3) (by decide)

theorem shape_at_input {nid : Nat} (hn : nid ≤ 2 ^ 128) {a b : Nat} {v : Bytes}
    (ha : a < 2 ^ 128) (hb : b < 2 ^ 128) (hs : EntryShape nid (inputKeyEnc a b) v) :
    a < nid ∧ b < nid ∧ ∃ n, n.length < 2 ^ 20 ∧ v = actionInputValue.Encode ⟨n⟩ := by
  rcases hs with ⟨x, l, c, h1, h2, h3, h4, h5⟩ | ⟨x, l, kd, h1, h2, h3, h4, h5⟩ |
    ⟨x, y, n, h1, h2, h3, h4, h5⟩ | ⟨x, y, n, h1, h2, h3, h4, h5⟩ |
    ⟨x, y, h1, h2, h3, h4⟩ | ⟨x, y, h1, h2, h3, h4⟩
  · rw [inputKeyEnc_pk, actionKeyEnc_pk] at h4
    exact absurd (packKey_nm_eq h4) (by decide)
  · rw [inputKeyEnc_pk, artifactKeyEnc_pk] at h4
    exact absurd (packKey_nm_eq h4) (by decide)
  · rw [inputKeyEnc_pk, inputKeyEnc_pk] at h4
    obtain ⟨hx, hy⟩ := packKey2_inj ha hb (lt_of_lt_of_le h1 hn)
      (lt_of_lt_of_le h2 hn) h4
    exact ⟨hx ▸ h1, hy ▸ h2, n, h3, h5⟩
  · rw [inputKeyEnc_pk, outputKeyEnc_pk] at h4
    exact absurd (packKey_nm_eq h4) (by decide)
  · rw [inputKeyEnc_pk, producerKeyEnc_pk] at h3
    exact absurd (packKey_nm_eq h3) (by decide)
  · rw [inputKeyEnc_pk, consumerKeyEnc_pk] at h3
    exact absurd (packKey_nm_eq h3) (by decide)

theorem shape_at_output {nid : Nat} (hn : nid ≤ 2 ^ 128) {a b : Nat} {v : Bytes}
    (ha : a < 2 ^ 128) (hb : b < 2 ^ 128) (hs : EntryShape nid (outputKeyEnc a b) v) :
    a < nid ∧ b < nid ∧ ∃ n, n.length < 2 ^ 20 ∧ v = actionOutputValue.Encode ⟨n⟩ := by
  rcases hs with ⟨x, l, c, h1, h2, h3, h4, h5⟩ | ⟨x, l, kd, h1, h2, h3, h4, h5⟩ |
    ⟨x, y, n, h1, h2, h3, h4, h5⟩ | ⟨x, y, n, h1, h2, h3, h4, h5⟩ |
    ⟨x, y, h1, h2, h3, h4⟩ | ⟨x, y, h1, h2, h3, h4⟩
  · rw [outputKeyEnc_pk, actionKeyEnc_pk] at h4
    exact absurd (packKey_nm_eq h4) (by decide)
  · rw [outputKeyEnc_pk, artifactKeyEnc_pk] at h4
    exact absurd (packKey_nm_eq h4) (by decide)
  · rw [outputKeyEnc_pk, inputKeyEnc_pk] at h4
    exact absurd (packKey_nm_eq h4) (by decide)
  · rw [outputKeyEnc_pk, outputKeyEnc_pk] at h4
    obtain ⟨hx, hy⟩ := packKey2_inj ha hb (lt_of_lt_of_le h1 hn)
      (lt_of_lt_of_le h2 hn) h4
    exact ⟨hx ▸ h1, hy ▸ h2, n, h3, h5⟩
  · rw [outputKeyEnc_pk, producerKeyEnc_pk] at h3
    exact absurd (packKey_nm_eq h3) (by decide)
  · rw [outputKeyEnc_pk, consumerKeyEnc_pk] at h3
    exact absurd (packKey_nm_eq h3) (by decide)

theorem shape_at_producer {nid : Nat} (hn : nid ≤ 2 ^ 128) {b : Nat} {v : Bytes}
    (hb : b < 2 ^ 128) (hs : EntryShape nid (producerKeyEnc b) v) :
    b < nid ∧ ∃ a, a < nid ∧ v = artifactProducerValue.Encode ⟨a⟩ := by
  rcases hs with ⟨x, l, c, h1, h2, h3, h4, h5⟩ | ⟨x, l, kd, h1, h2, h3, h4, h5⟩ |
    ⟨x, y, n, h1, h2, h3, h4, h5⟩ | ⟨x, y, n, h1, h2, h3, h4, h5⟩ |
    ⟨x, y, h1, h2, h3, h4⟩ | ⟨x, y, h1, h2, h3, h4⟩
  · rw [producerKeyEnc_pk, actionKeyEnc_pk] at h4
    exact absurd (packKey_nm_eq h4) (by decide)
  · rw [producerKeyEnc_pk, artifactKeyEnc_pk] at h4
    exact absurd (packKey_nm_eq h4) (by decide)
  · rw [producerKeyEnc_pk, inputKeyEnc_pk] at h4
    exact absurd (packKey_nm_eq h4) (by decide)
  · rw [producerKeyEnc_pk, outputKeyEnc_pk] at h4
    exact absurd (packKey_nm_eq h4) (by decide)
  · rw [producerKeyEnc_pk, producerKeyEnc_pk] at h3
    have hx := packKey1_inj hb (lt_of_lt_of_le h1 hn) h3
    exact ⟨hx ▸ h1, y, h2, h4⟩
  · rw [producerKeyEnc_pk, consumerKeyEnc_pk] at h3
    exact absurd (packKey_nm_eq h3) (by decide)

theorem shape_at_consumer {nid : Nat} (hn : nid ≤ 2 ^ 128) {b a : Nat} {v : Bytes}
    (hb : b < 2 ^ 128) (ha : a < 2 ^ 128) (hs : EntryShape nid (consumerKeyEnc b a) v) :
    b < nid ∧ a < nid ∧ v = artifactConsumerValue.Encode ⟨⟩ := by
  rcases hs with ⟨x, l, c, h1, h2, h3, h4, h5⟩ | ⟨x, l, kd, h1, h2, h3, h4, h5⟩ |
    ⟨x, y, n, h1, h2, h3, h4, h5⟩ | ⟨x, y, n, h1, h2, h3, h4, h5⟩ |
    ⟨x, y, h1, h2, h3, h4⟩ | ⟨x, y, h1, h2, h3, h4⟩
  · rw [consumerKeyEnc_pk, actionKeyEnc_pk] at h4
    exact absurd (packKey_nm_eq h4) (by decide)
  · rw [consumerKeyEnc_pk, artifactKeyEnc_pk] at h4
    exact absurd (packKey_nm_eq h4) (by decide)
  · rw [consumerKeyEnc_pk, inputKeyEnc_pk] at h4
    exact absurd (packKey_nm_eq h4) (by decide)
  · rw [consumerKeyEnc_pk, outputKeyEnc_pk] at h4
    exact absurd (packKey_nm_eq h4) (by decide)
  · rw [consumerKeyEnc_pk, producerKeyEnc_pk] at h3
    exact absurd (packKey_nm_eq h3) (by decide)
  · rw [consumerKeyEnc_pk, consumerKeyEnc_pk] at h3
    obtain ⟨hx, hy⟩ := packKey2_inj hb ha (lt_of_lt_of_le h1 hn)
      (lt_of_lt_of_le h2 hn) h3
    exact ⟨hx ▸ h1, hy ▸ h2, h4⟩

theorem action_record {s : Sys} (hinv : Inv s) {id : Nat} (hid : id < 2 ^ 128)
    {w : Bytes} (hw : s.store.get (actionKeyEnc id) = some w) :
    id < s.nextId ∧ ∃ l c, l.length < 2 ^ 20 ∧ c.length < 2 ^ 20 ∧
      w = actionValue.Encode ⟨l, c⟩ :=
  shape_at_action hinv.nidLe hid (hinv.shapes _ (Store.mem_of_get hw))

theorem artifact_record {s : Sys} (hinv : Inv s) {id : Nat} (hid : id < 2 ^ 128)
    {w : Bytes} (hw : s.store.get (artifactKeyEnc id) = some w) :
    id < s.nextId ∧ ∃ l kd, l.length < 2 ^ 20 ∧ kd < 256 ∧
      w = artifactValue.Encode ⟨l, kd⟩ :=
  shape_at_artifact hinv.nidLe hid (hinv.shapes _ (Store.mem_of_get hw))

theorem actionTransaction_ok {s : Sys} (hinv : Inv s) {id : Nat} (hid : id < 2 ^ 128)
    {w : Bytes} (hw : s.store.get (actionKeyEnc id) = some w) :
    ∃ ac : ActionCursor, actionTransaction s.store id = .ok ac ∧ ac.id = id := by
  obtain ⟨-, l, c, hl, hc, hv⟩ := action_record hinv hid hw
  refine ⟨⟨id, l, c⟩, ?_, rfl⟩
  rw [actionTransaction, hw, hv]
  show (match actionValue.Decode (actionValue.Encode ⟨l, c⟩) with
    | .error e => Except.error e
    | .ok v => Except.ok (⟨id, v.Label, v.Command⟩ : ActionCursor)) =
      Except.ok ⟨id, l, c⟩
  rw [actionValue_roundtrip ⟨l, c⟩ hl hc]

theorem artifactTransaction_ok {s : Sys} (hinv : Inv s) {id : Nat} (hid : id < 2 ^ 128)
    {w : Bytes} (hw : s.store.get (artifactKeyEnc id) = some w) :
    ∃ ac : ArtifactCursor, artifactTransaction s.store id = .ok ac ∧ ac.id = id := by
  obtain ⟨-, l, kd, hl, hk, hv⟩ := artifact_record hinv hid hw
  refine ⟨⟨id, l, kd⟩, ?_, rfl⟩
  rw [artifactTransaction, hw, hv]
  show (match artifactValue.Decode (artifactValue.Encode ⟨l, kd⟩) with
    | .error e => Except.error e
    | .ok v => Except.ok (⟨id, v.Label, v.Kind⟩ : ArtifactCursor)) =
      Except.ok ⟨id, l, kd⟩
  rw [artifactValue_roundtrip ⟨l, kd⟩ hl hk]

theorem action_get_fresh {s : Sys} (hinv : Inv s) {i : Nat} (hi : i < 2 ^ 128)
    (hge : s.nextId ≤ i) : s.store.get (actionKeyEnc i) = none := by
  cases hg : s.store.get (actionKeyEnc i) with
  | none => rfl
  | some v =>
    obtain ⟨hlt, -⟩ := shape_at_action hinv.nidLe hi
      (hinv.shapes _ (Store.mem_of_get hg))
    omega

theorem artifact_get_fresh {s : Sys} (hinv : Inv s) {i : Nat} (hi : i < 2 ^ 128)
    (hge : s.nextId ≤ i) : s.store.get (artifactKeyEnc i) = none := by
  cases hg : s.store.get (artifactKeyEnc i) with
  | none => rfl
  | some v =>
    obtain ⟨hlt, -⟩ := shape_at_artifact hinv.nidLe hi
      (hinv.shapes _ (Store.mem_of_get hg))
    omega

theorem producer_get_fresh {s : Sys} (hinv : Inv s) {b : Nat} (hb : b < 2 ^ 128)
    (hge : s.nextId ≤ b) : s.store.get (producerKeyEnc b) = none := by
  cases hg : s.store.get (producerKeyEnc b) with
  | none => rfl
  | some v =>
    obtain ⟨hlt, -⟩ := shape_at_producer hinv.nidLe hb
      (hinv.shapes _ (Store.mem_of_get hg))
    omega

theorem output_get_fresh {s : Sys} (hinv : Inv s) {a b : Nat} (ha : a < 2 ^ 128)
    (hb : b < 2 ^ 128) (hge : s.nextId ≤ b) :
    s.store.get (outputKeyEnc a b) = none := by
  cases hg : s.store.get (outputKeyEnc a b) with
  | none => rfl
  | some v =>
    obtain ⟨-, hlt, -⟩ := shape_at_output hinv.nidLe ha hb
      (hinv.shapes _ (Store.mem_of_get hg))
    omega

/-! ### Pairwise disequality of canonical keys -/

theorem list1_ne {a b : Nat} (h : a ≠ b) : ([a] : List Nat) ≠ [b] := by
  intro he
  injection he with h1 _
  exact h h1

theorem list2_ne {a b c d : Nat} (h : a ≠ c ∨ b ≠ d) :
    ([a, b] : List Nat) ≠ [c, d] := by
  intro he
  injection he with h1 h2
  injection h2 with h2 _
  rcases h with h | h
  · exact h h1
  · exact h h2

theorem neAcAr {i a : Nat} (hi : i < 2 ^ 128) (ha : a < 2 ^ 128) :
    actionKeyEnc i ≠ artifactKeyEnc a := by
  rw [actionKeyEnc_pk, artifactKeyEnc_pk]
  exact packKey_ne (ids1_lt hi) (ids1_lt ha) (Or.inl (by decide))

theorem neAcIn {i a b : Nat} (hi : i < 2 ^ 128) (ha : a < 2 ^ 128) (hb : b < 2 ^ 128) :
    actionKeyEnc i ≠ inputKeyEnc a b := by
  rw [actionKeyEnc_pk, inputKeyEnc_pk]
  exact packKey_ne (ids1_lt hi) (ids2_lt ha hb) (Or.inl (by decide))

theorem neAcOu {i a b : Nat} (hi : i < 2 ^ 128) (ha : a < 2 ^ 128) (hb : b < 2 ^ 128) :
    actionKeyEnc i ≠ outputKeyEnc a b := by
  rw [actionKeyEnc_pk, outputKeyEnc_pk]
  exact packKey_ne (ids1_lt hi) (ids2_lt ha hb) (Or.inl (by decide))

theorem neAcPr {i a : Nat} (hi : i < 2 ^ 128) (ha : a < 2 ^ 128) :
    actionKeyEnc i ≠ producerKeyEnc a := by
  rw [actionKeyEnc_pk, producerKeyEnc_pk]
  exact packKey_ne (ids1_lt hi) (ids1_lt ha) (Or.inl (by decide))

theorem neAcCo {i a b : Nat} (hi : i < 2 ^ 128) (ha : a < 2 ^ 128) (hb : b < 2 ^ 128) :
    actionKeyEnc i ≠ consumerKeyEnc a b := by
  rw [actionKeyEnc_pk, consumerKeyEnc_pk]
  exact packKey_ne (ids1_lt hi) (ids2_lt ha hb) (Or.inl (by decide))

theorem neArIn {i a b : Nat} (hi : i < 2 ^ 128) (ha : a < 2 ^ 128) (hb : b < 2 ^ 128) :
    artifactKeyEnc i ≠ inputKeyEnc a b := by
  rw [artifactKeyEnc_pk, inputKeyEnc_pk]
  exact packKey_ne (ids1_lt hi) (ids2_lt ha hb) (Or.inl (by decide))

theorem neArOu {i a b : Nat} (hi : i < 2 ^ 128) (ha : a < 2 ^ 128) (hb : b < 2 ^ 128) :
    artifactKeyEnc i ≠ outputKeyEnc a b := by
  rw [artifactKeyEnc_pk, outputKeyEnc_pk]
  exact packKey_ne (ids1_lt hi) (ids2_lt ha hb) (Or.inl (by decide))

theorem neArPr {i a : Nat} (hi : i < 2 ^ 128) (ha : a < 2 ^ 128) :
    artifactKeyEnc i ≠ producerKeyEnc a := by
  rw [artifactKeyEnc_pk, producerKeyEnc_pk]
  exact packKey_ne (ids1_lt hi) (ids1_lt ha) (Or.inl (by decide))

theorem neArCo {i a b : Nat} (hi : i < 2 ^ 128) (ha : a < 2 ^ 128) (hb : b < 2 ^ 128) :
    artifactKeyEnc i ≠ consumerKeyEnc a b := by
  rw [artifactKeyEnc_pk, consumerKeyEnc_pk]
  exact packKey_ne (ids1_lt hi) (ids2_lt ha hb) (Or.inl (by decide))

theorem neInOu {i j a b : Nat} (hi : i < 2 ^ 128) (hj : j < 2 ^ 128) (ha : a < 2 ^ 128) (hb : b < 2 ^ 128) :
    inputKeyEnc i j ≠ outputKeyEnc a b := by
  rw [inputKeyEnc_pk, outputKeyEnc_pk]
  exact packKey_ne (ids2_lt hi hj) (ids2_lt ha hb) (Or.inl (by decide))

theorem neInPr {i j a : Nat} (hi : i < 2 ^ 128) (hj : j < 2 ^ 128) (ha : a < 2 ^ 128) :
    inputKeyEnc i j ≠ producerKeyEnc a := by
  rw [inputKeyEnc_pk, producerKeyEnc_pk]
  exact packKey_ne (ids2_lt hi hj) (ids1_lt ha) (Or.inl (by decide))

theorem neInCo {i j a b : Nat} (hi : i < 2 ^ 128) (hj : j < 2 ^ 128) (ha : a < 2 ^ 128) (hb : b < 2 ^ 128) :
    inputKeyEnc i j ≠ consumerKeyEnc a b := by
  rw [inputKeyEnc_pk, consumerKeyEnc_pk]
  exact packKey_ne (ids2_lt hi hj) (ids2_lt ha hb) (Or.inl (by decide))

theorem neOuPr {i j a : Nat} (hi : i < 2 ^ 128) (hj : j < 2 ^ 128) (ha : a < 2 ^ 128) :
    outputKeyEnc i j ≠ producerKeyEnc a := by
  rw [outputKeyEnc_pk, producerKeyEnc_pk]
  exact packKey_ne (ids2_lt hi hj) (ids1_lt ha) (Or.inl (by decide))

theorem neOuCo {i j a b : Nat} (hi : i < 2 ^ 128) (hj : j < 2 ^ 128) (ha : a < 2 ^ 128) (hb : b < 2 ^ 128) :
    outputKeyEnc i j ≠ consumerKeyEnc a b := by
  rw [outputKeyEnc_pk, consumerKeyEnc_pk]
  exact packKey_ne (ids2_lt hi hj) (ids2_lt ha hb) (Or.inl (by decide))

theorem nePrCo {i a b : Nat} (hi : i < 2 ^ 128) (ha : a < 2 ^ 128) (hb : b < 2 ^ 128) :
    producerKeyEnc i ≠ consumerKeyEnc a b := by
  rw [producerKeyEnc_pk, consumerKeyEnc_pk]
  exact packKey_ne (ids1_lt hi) (ids2_lt ha hb) (Or.inl (by decide))

theorem neAcAc {i j : Nat} (hi : i < 2 ^ 128) (hj : j < 2 ^ 128) (hne : i ≠ j) :
    actionKeyEnc i ≠ actionKeyEnc j := by
  rw [actionKeyEnc_pk, actionKeyEnc_pk]
  exact packKey_ne (ids1_lt hi) (ids1_lt hj) (Or.inr (list1_ne hne))

theorem neArAr {i j : Nat} (hi : i < 2 ^ 128) (hj : j < 2 ^ 128) (hne : i ≠ j) :
    artifactKeyEnc i ≠ artifactKeyEnc j := by
  rw [artifactKeyEnc_pk, artifactKeyEnc_pk]
  exact packKey_ne (ids1_lt hi) (ids1_lt hj) (Or.inr (list1_ne hne))

theorem neInIn {i j a b : Nat} (hi : i < 2 ^ 128) (hj : j < 2 ^ 128)
    (ha : a < 2 ^ 128) (hb : b < 2 ^ 128) (hne : i ≠ a ∨ j ≠ b) :
    inputKeyEnc i j ≠ inputKeyEnc a b := by
  rw [inputKeyEnc_pk, inputKeyEnc_pk]
  exact packKey_ne (ids2_lt hi hj) (ids2_lt ha hb) (Or.inr (list2_ne hne))

theorem neOuOu {i j a b : Nat} (hi : i < 2 ^ 128) (hj : j < 2 ^ 128)
    (ha : a < 2 ^ 128) (hb : b < 2 ^ 128) (hne : i ≠ a ∨ j ≠ b) :
    outputKeyEnc i j ≠ outputKeyEnc a b := by
  rw [outputKeyEnc_pk, outputKeyEnc_pk]
  exact packKey_ne (ids2_lt hi hj) (ids2_lt ha hb) (Or.inr (list2_ne hne))

theorem nePrPr {i j : Nat} (hi : i < 2 ^ 128) (hj : j < 2 ^ 128) (hne : i ≠ j) :
    producerKeyEnc i ≠ producerKeyEnc j := by
  rw [producerKeyEnc_pk, producerKeyEnc_pk]
  exact packKey_ne (ids1_lt hi) (ids1_lt hj) (Or.inr (list1_ne hne))

theorem neCoCo {i j a b : Nat} (hi : i < 2 ^ 128) (hj : j < 2 ^ 128)
    (ha : a < 2 ^ 128) (hb : b < 2 ^ 128) (hne : i ≠ a ∨ j ≠ b) :
    consumerKeyEnc i j ≠ consumerKeyEnc a b := by
  rw [consumerKeyEnc_pk, consumerKeyEnc_pk]
  exact packKey_ne (ids2_lt hi hj) (ids2_lt ha hb) (Or.inr (list2_ne hne))

/-! ### Invariant preservation -/

theorem inv_txn {s : Sys} (hinv : Inv s) (tc : Nat) :
    Inv ⟨s.store, s.nextId, tc⟩ :=
  ⟨hinv.wf, hinv.nidLe, hinv.shapes, hinv.inputRef, hinv.outputProd,
    hinv.outputRef, hinv.consumerRef⟩

theorem inv_set_action {s : Sys} (hinv : Inv s) {l c : Bytes}
    (hl : l.length < 2 ^ 20) (hc : c.length < 2 ^ 20) (hn : s.nextId < 2 ^ 128)
    (tc : Nat) :
    Inv ⟨s.store.set (actionKeyEnc s.nextId) (actionValue.Encode ⟨l, c⟩),
      s.nextId + 1, tc⟩ := by
  have hle : s.nextId + 1 ≤ 2 ^ 128 := by omega
  refine ⟨Store.wf_set hinv.wf _ _, hle, ?_, ?_, ?_, ?_, ?_⟩
  · intro kv hkv
    rcases Store.mem_set hkv with he | hm
    · rw [he]
      exact Or.inl ⟨s.nextId, l, c, Nat.lt_succ_self _, hl, hc, rfl, rfl⟩
    · exact EntryShape_mono (Nat.le_succ _) (hinv.shapes _ hm)
  · intro a b v ha hb hm
    rcases Store.mem_set hm with he | hm
    · exact absurd (congrArg Prod.fst he) (Ne.symm (neAcIn hn ha hb))
    · obtain ⟨hai, hbi, -⟩ := shape_at_input hinv.nidLe ha hb (hinv.shapes _ hm)
      obtain ⟨⟨w1, hw1⟩, w2, hw2⟩ := hinv.inputRef a b v ha hb hm
      exact ⟨⟨w1, Store.mem_set_of_ne hinv.wf hw1 (neAcAc ha hn (by omega))⟩,
        ⟨w2, Store.mem_set_of_ne hinv.wf hw2 (Ne.symm (neAcAr hn hb))⟩⟩
  · intro a b ha hb
    rw [Store.get_set_ne _ _ _ _ (Ne.symm (neAcPr hn hb))]
    constructor
    · rintro ⟨v, hv⟩
      rcases Store.mem_set hv with he | hm
      · exact absurd (congrArg Prod.fst he) (Ne.symm (neAcOu hn ha hb))
      · exact (hinv.outputProd a b ha hb).mp ⟨v, hm⟩
    · intro hget
      obtain ⟨v, hv⟩ := (hinv.outputProd a b ha hb).mpr hget
      exact ⟨v, Store.mem_set_of_ne hinv.wf hv (Ne.symm (neAcOu hn ha hb))⟩
  · intro a b v ha hb hm
    rcases Store.mem_set hm with he | hm
    · exact absurd (congrArg Prod.fst he) (Ne.symm (neAcOu hn ha hb))
    · obtain ⟨hai, hbi, -⟩ := shape_at_output hinv.nidLe ha hb (hinv.shapes _ hm)
      obtain ⟨⟨w1, hw1⟩, w2, hw2⟩ := hinv.outputRef a b v ha hb hm
      exact ⟨⟨w1, Store.mem_set_of_ne hinv.wf hw1 (neAcAc ha hn (by omega))⟩,
        ⟨w2, Store.mem_set_of_ne hinv.wf hw2 (Ne.symm (neAcAr hn hb))⟩⟩
  · intro b a v hb ha hm
    rcases Store.mem_set hm with he | hm
    · exact absurd (congrArg Prod.fst he) (Ne.symm (neAcCo hn hb ha))
    · obtain ⟨hbi, hai, -⟩ := shape_at_consumer hinv.nidLe hb ha (hinv.shapes _ hm)
      obtain ⟨⟨w1, hw1⟩, w2, hw2⟩ := hinv.consumerRef b a v hb ha hm
      exact ⟨⟨w1, Store.mem_set_of_ne hinv.wf hw1 (neAcAc ha hn (by omega))⟩,
        ⟨w2, Store.mem_set_of_ne hinv.wf hw2 (Ne.symm (neAcAr hn hb))⟩⟩

theorem inv_set_artifact {s : Sys} (hinv : Inv s) {l : Bytes} {kd : Nat}
    (hl : l.length < 2 ^ 20) (hkd : kd < 256) (hn : s.nextId < 2 ^ 128)
    (tc : Nat) :
    Inv ⟨s.store.set (artifactKeyEnc s.nextId) (artifactValue.Encode ⟨l, kd⟩),
      s.nextId + 1, tc⟩ := by
  have hle : s.nextId + 1 ≤ 2 ^ 128 := by omega
  refine ⟨Store.wf_set hinv.wf _ _, hle, ?_, ?_, ?_, ?_, ?_⟩
  · intro kv hkv
    rcases Store.mem_set hkv with he | hm
    · rw [he]
      exact Or.inr (Or.inl ⟨s.nextId, l, kd, Nat.lt_succ_self _, hl, hkd, rfl, rfl⟩)
    · exact EntryShape_mono (Nat.le_succ _) (hinv.shapes _ hm)
  · intro a b v ha hb hm
    rcases Store.mem_set hm with he | hm
    · exact absurd (congrArg Prod.fst he) (Ne.symm (neArIn hn ha hb))
    · obtain ⟨hai, hbi, -⟩ := shape_at_input hinv.nidLe ha hb (hinv.shapes _ hm)
      obtain ⟨⟨w1, hw1⟩, w2, hw2⟩ := hinv.inputRef a b v ha hb hm
      exact ⟨⟨w1, Store.mem_set_of_ne hinv.wf hw1 (neAcAr ha hn)⟩,
        ⟨w2, Store.mem_set_of_ne hinv.wf hw2 (neArAr hb hn (by omega))⟩⟩
  · intro a b ha hb
    rw [Store.get_set_ne _ _ _ _ (Ne.symm (neArPr hn hb))]
    constructor
    · rintro ⟨v, hv⟩
      rcases Store.mem_set hv with he | hm
      · exact absurd (congrArg Prod.fst he) (Ne.symm (neArOu hn ha hb))
      · exact (hinv.outputProd a b ha hb).mp ⟨v, hm⟩
    · intro hget
      obtain ⟨v, hv⟩ := (hinv.outputProd a b ha hb).mpr hget
      exact ⟨v, Store.mem_set_of_ne hinv.wf hv (Ne.symm (neArOu hn ha hb))⟩
  · intro a b v ha hb hm
    rcases Store.mem_set hm with he | hm
    · exact absurd (congrArg Prod.fst he) (Ne.symm (neArOu hn ha hb))
    · obtain ⟨hai, hbi, -⟩ := shape_at_output hinv.nidLe ha hb (hinv.shapes _ hm)
      obtain ⟨⟨w1, hw1⟩, w2, hw2⟩ := hinv.outputRef a b v ha hb hm
      exact ⟨⟨w1, Store.mem_set_of_ne hinv.wf hw1 (neAcAr ha hn)⟩,
        ⟨w2, Store.mem_set_of_ne hinv.wf hw2 (neArAr hb hn (by omega))⟩⟩
  · intro b a v hb ha hm
    rcases Store.mem_set hm with he | hm
    · exact absurd (congrArg Prod.fst he) (Ne.symm (neArCo hn hb ha))
    · obtain ⟨hbi, hai, -⟩ := shape_at_consumer hinv.nidLe hb ha (hinv.shapes _ hm)
      obtain ⟨⟨w1, hw1⟩, w2, hw2⟩ := hinv.consumerRef b a v hb ha hm
      exact ⟨⟨w1, Store.mem_set_of_ne hinv.wf hw1 (neAcAr ha hn)⟩,
        ⟨w2, Store.mem_set_of_ne hinv.wf hw2 (neArAr hb hn (by omega))⟩⟩

theorem inv_addInput_store {s : Sys} (hinv : Inv s) {act : ActionCursor}
    {art : ArtifactCursor} {name : Bytes} (hnm : name.length < 2 ^ 20)
    (ha : act.id < 2 ^ 128) (hb : art.id < 2 ^ 128)
    {wa : Bytes} (hwa : s.store.get (actionKeyEnc act.id) = some wa)
    {wb : Bytes} (hwb : s.store.get (artifactKeyEnc art.id) = some wb) (tc : Nat) :
    Inv ⟨addActionInputTransaction s.store act name art, s.nextId, tc⟩ := by
  have hact_lt : act.id < s.nextId := (action_record hinv ha hwa).1
  have hart_lt : art.id < s.nextId := (artifact_record hinv hb hwb).1
  have hwf1 : (s.store.set (inputKeyEnc act.id art.id)
      (actionInputValue.Encode ⟨name⟩)).Wf := Store.wf_set hinv.wf _ _
  rw [addActionInputTransaction]
  have hmemT : ∀ {k w : Bytes}, (k, w) ∈ s.store →
      k ≠ inputKeyEnc act.id art.id → k ≠ consumerKeyEnc art.id act.id →
      (k, w) ∈ ((s.store.set (inputKeyEnc act.id art.id)
        (actionInputValue.Encode ⟨name⟩)).set (consumerKeyEnc art.id act.id)
        (artifactConsumerValue.Encode ⟨⟩)) := by
    intro k w hm h1 h2
    exact Store.mem_set_of_ne hwf1 (Store.mem_set_of_ne hinv.wf hm h1) h2
  have hmemE : ∀ {kv : Bytes × Bytes},
      kv ∈ ((s.store.set (inputKeyEnc act.id art.id)
        (actionInputValue.Encode ⟨name⟩)).set (consumerKeyEnc art.id act.id)
        (artifactConsumerValue.Encode ⟨⟩)) →
      kv = (consumerKeyEnc art.id act.id, artifactConsumerValue.Encode ⟨⟩) ∨
      kv = (inputKeyEnc act.id art.id, actionInputValue.Encode ⟨name⟩) ∨
      kv ∈ s.store := by
    intro kv hm
    rcases Store.mem_set hm with he | hm
    · exact Or.inl he
    · rcases Store.mem_set hm with he | hm
      · exact Or.inr (Or.inl he)
      · exact Or.inr (Or.inr hm)
  refine ⟨Store.wf_set hwf1 _ _, hinv.nidLe, ?_, ?_, ?_, ?_, ?_⟩
  · intro kv hkv
    rcases hmemE hkv with he | he | hm
    · rw [he]
      exact Or.inr (Or.inr (Or.inr (Or.inr (Or.inr
        ⟨art.id, act.id, hart_lt, hact_lt, rfl, rfl⟩))))
    · rw [he]
      exact Or.inr (Or.inr (Or.inl
        ⟨act.id, art.id, name, hact_lt, hart_lt, hnm, rfl, rfl⟩))
    · exact hinv.shapes _ hm
  · intro a b v ha2 hb2 hm
    rcases hmemE hm with he | he | hm
    · exact absurd (congrArg Prod.fst he) (neInCo ha2 hb2 hb ha)
    · have h1 := congrArg Prod.fst he
      obtain ⟨hae, hbe⟩ := by
        rw [inputKeyEnc_pk, inputKeyEnc_pk] at h1
        exact packKey2_inj ha2 hb2 ha hb h1
      subst hae
      subst hbe
      exact ⟨⟨wa, hmemT (Store.mem_of_get hwa) (neAcIn ha ha hb)
          (neAcCo ha hb ha)⟩,
        ⟨wb, hmemT (Store.mem_of_get hwb) (neArIn hb ha hb)
          (neArCo hb hb ha)⟩⟩
    · obtain ⟨⟨w1, hw1⟩, w2, hw2⟩ := hinv.inputRef a b v ha2 hb2 hm
      exact ⟨⟨w1, hmemT hw1 (neAcIn ha2 ha hb)
          (neAcCo ha2 hb ha)⟩,
        ⟨w2, hmemT hw2 (neArIn hb2 ha hb) (neArCo hb2 hb ha)⟩⟩
  · intro a b ha2 hb2
    rw [Store.get_set_ne _ _ _ _ (nePrCo hb2 hb ha),
      Store.get_set_ne _ _ _ _ (Ne.symm (neInPr ha hb hb2))]
    constructor
    · rintro ⟨v, hv⟩
      rcases hmemE hv with he | he | hm
      · exact absurd (congrArg Prod.fst he) (neOuCo ha2 hb2 hb ha)
      · exact absurd (congrArg Prod.fst he) (Ne.symm (neInOu ha hb ha2 hb2))
      · exact (hinv.outputProd a b ha2 hb2).mp ⟨v, hm⟩
    · intro hget
      obtain ⟨v, hv⟩ := (hinv.outputProd a b ha2 hb2).mpr hget
      exact ⟨v, hmemT hv (Ne.symm (neInOu ha hb ha2 hb2)) (neOuCo ha2 hb2 hb ha)⟩
  · intro a b v ha2 hb2 hm
    rcases hmemE hm with he | he | hm
    · exact absurd (congrArg Prod.fst he) (neOuCo ha2 hb2 hb ha)
    · exact absurd (congrArg Prod.fst he) (Ne.symm (neInOu ha hb ha2 hb2))
    · obtain ⟨⟨w1, hw1⟩, w2, hw2⟩ := hinv.outputRef a b v ha2 hb2 hm
      exact ⟨⟨w1, hmemT hw1 (neAcIn ha2 ha hb)
          (neAcCo ha2 hb ha)⟩,
        ⟨w2, hmemT hw2 (neArIn hb2 ha hb) (neArCo hb2 hb ha)⟩⟩
  · intro b a v hb2 ha2 hm
    rcases hmemE hm with he | he | hm
    · have h1 := congrArg Prod.fst he
      obtain ⟨hbe, hae⟩ := by
        rw [consumerKeyEnc_pk, consumerKeyEnc_pk] at h1
        exact packKey2_inj hb2 ha2 hb ha h1
      subst hbe
      subst hae
      exact ⟨⟨wa, hmemT (Store.mem_of_get hwa) (neAcIn ha ha hb)
          (neAcCo ha hb ha)⟩,
        ⟨wb, hmemT (Store.mem_of_get hwb) (neArIn hb ha hb)
          (neArCo hb hb ha)⟩⟩
    · exact absurd (congrArg Prod.fst he) (Ne.symm (neInCo ha hb hb2 ha2))
    · obtain ⟨⟨w1, hw1⟩, w2, hw2⟩ := hinv.consumerRef b a v hb2 ha2 hm
      exact ⟨⟨w1, hmemT hw1 (neAcIn ha2 ha hb)
          (neAcCo ha2 hb ha)⟩,
        ⟨w2, hmemT hw2 (neArIn hb2 ha hb) (neArCo hb2 hb ha)⟩⟩

theorem inv_addOutput_store {s : Sys} (hinv : Inv s) {act : ActionCursor}
    {n l : Bytes} {kd : Nat} (hnm : n.length < 2 ^ 20) (hl : l.length < 2 ^ 20)
    (hkd : kd < 256) (ha : act.id < 2 ^ 128)
    {wa : Bytes} (hwa : s.store.get (actionKeyEnc act.id) = some wa)
    (hni : s.nextId < 2 ^ 128) (tc : Nat) :
    Inv ⟨((s.store.set (artifactKeyEnc s.nextId) (artifactValue.Encode ⟨l, kd⟩)).set
        (outputKeyEnc act.id s.nextId) (actionOutputValue.Encode ⟨n⟩)).set
        (producerKeyEnc s.nextId) (artifactProducerValue.Encode ⟨act.id⟩),
      s.nextId + 1, tc⟩ := by
  have hact_lt : act.id < s.nextId := (action_record hinv ha hwa).1
  have hwf1 : (s.store.set (artifactKeyEnc s.nextId)
      (artifactValue.Encode ⟨l, kd⟩)).Wf := Store.wf_set hinv.wf _ _
  have hwf2 : ((s.store.set (artifactKeyEnc s.nextId)
      (artifactValue.Encode ⟨l, kd⟩)).set (outputKeyEnc act.id s.nextId)
      (actionOutputValue.Encode ⟨n⟩)).Wf := Store.wf_set hwf1 _ _
  have hmemT : ∀ {k w : Bytes}, (k, w) ∈ s.store →
      k ≠ artifactKeyEnc s.nextId → k ≠ outputKeyEnc act.id s.nextId →
      k ≠ producerKeyEnc s.nextId →
      (k, w) ∈ ((s.store.set (artifactKeyEnc s.nextId)
        (artifactValue.Encode ⟨l, kd⟩)).set (outputKeyEnc act.id s.nextId)
        (actionOutputValue.Encode ⟨n⟩)).set (producerKeyEnc s.nextId)
        (artifactProducerValue.Encode ⟨act.id⟩) := by
    intro k w hm h1 h2 h3
    exact Store.mem_set_of_ne hwf2
      (Store.mem_set_of_ne hwf1 (Store.mem_set_of_ne hinv.wf hm h1) h2) h3
  have hmemE : ∀ {kv : Bytes × Bytes},
      kv ∈ ((s.store.set (artifactKeyEnc s.nextId)
        (artifactValue.Encode ⟨l, kd⟩)).set (outputKeyEnc act.id s.nextId)
        (actionOutputValue.Encode ⟨n⟩)).set (producerKeyEnc s.nextId)
        (artifactProducerValue.Encode ⟨act.id⟩) →
      kv = (producerKeyEnc s.nextId, artifactProducerValue.Encode ⟨act.id⟩) ∨
      kv = (outputKeyEnc act.id s.nextId, actionOutputValue.Encode ⟨n⟩) ∨
      kv = (artifactKeyEnc s.nextId, artifactValue.Encode ⟨l, kd⟩) ∨
      kv ∈ s.store := by
    intro kv hm
    rcases Store.mem_set hm with he | hm
    · exact Or.inl he
    · rcases Store.mem_set hm with he | hm
      · exact Or.inr (Or.inl he)
      · rcases Store.mem_set hm with he | hm
        · exact Or.inr (Or.inr (Or.inl he))
        · exact Or.inr (Or.inr (Or.inr hm))
  have memAk : (artifactKeyEnc s.nextId, artifactValue.Encode ⟨l, kd⟩) ∈
      ((s.store.set (artifactKeyEnc s.nextId)
        (artifactValue.Encode ⟨l, kd⟩)).set (outputKeyEnc act.id s.nextId)
        (actionOutputValue.Encode ⟨n⟩)).set (producerKeyEnc s.nextId)
        (artifactProducerValue.Encode ⟨act.id⟩) := by
    refine Store.mem_set_of_ne hwf2 (Store.mem_set_of_ne hwf1 ?_
      (neArOu hni ha hni)) (neArPr hni hni)
    exact Store.mem_of_get (Store.get_set_self _ _ _)
  have memOk : (outputKeyEnc act.id s.nextId, actionOutputValue.Encode ⟨n⟩) ∈
      ((s.store.set (artifactKeyEnc s.nextId)
        (artifactValue.Encode ⟨l, kd⟩)).set (outputKeyEnc act.id s.nextId)
        (actionOutputValue.Encode ⟨n⟩)).set (producerKeyEnc s.nextId)
        (artifactProducerValue.Encode ⟨act.id⟩) := by
    refine Store.mem_set_of_ne hwf2 ?_ (neOuPr ha hni hni)
    exact Store.mem_of_get (Store.get_set_self _ _ _)
  have hle : s.nextId + 1 ≤ 2 ^ 128 := by omega
  refine ⟨Store.wf_set hwf2 _ _, hle, ?_, ?_, ?_, ?_, ?_⟩
  · intro kv hkv
    rcases hmemE hkv with he | he | he | hm
    · rw [he]
      exact Or.inr (Or.inr (Or.inr (Or.inr (Or.inl
        ⟨s.nextId, act.id, Nat.lt_succ_self _, Nat.lt_succ_of_lt hact_lt,
          rfl, rfl⟩))))
    · rw [he]
      exact Or.inr (Or.inr (Or.inr (Or.inl
        ⟨act.id, s.nextId, n, Nat.lt_succ_of_lt hact_lt, Nat.lt_succ_self _,
          hnm, rfl, rfl⟩)))
    · rw [he]
      exact Or.inr (Or.inl ⟨s.nextId, l, kd, Nat.lt_succ_self _, hl, hkd, rfl, rfl⟩)
    · exact EntryShape_mono (Nat.le_succ _) (hinv.shapes _ hm)
  · intro a b v ha2 hb2 hm
    rcases hmemE hm with he | he | he | hm
    · exact absurd (congrArg Prod.fst he) (neInPr ha2 hb2 hni)
    · exact absurd (congrArg Prod.fst he) (neInOu ha2 hb2 ha hni)
    · exact absurd (congrArg Prod.fst he) (Ne.symm (neArIn hni ha2 hb2))
    · obtain ⟨hai, hbi, -⟩ := shape_at_input hinv.nidLe ha2 hb2 (hinv.shapes _ hm)
      obtain ⟨⟨w1, hw1⟩, w2, hw2⟩ := hinv.inputRef a b v ha2 hb2 hm
      exact ⟨⟨w1, hmemT hw1 (neAcAr ha2 hni) (neAcOu ha2 ha hni) (neAcPr ha2 hni)⟩,
        ⟨w2, hmemT hw2 (neArAr hb2 hni (by omega)) (neArOu hb2 ha hni)
          (neArPr hb2 hni)⟩⟩
  · intro a b ha2 hb2
    by_cases hbn : b = s.nextId
    · subst hbn
      rw [Store.get_set_self]
      constructor
      · rintro ⟨v, hv⟩
        rcases hmemE hv with he | he | he | hm
        · exact absurd (congrArg Prod.fst he) (neOuPr ha2 hni hni)
        · have h1 := congrArg Prod.fst he
          obtain ⟨hae, -⟩ : a = act.id ∧ s.nextId = s.nextId := by
            rw [outputKeyEnc_pk, outputKeyEnc_pk] at h1
            exact packKey2_inj ha2 hni ha hni h1
          rw [hae]
        · exact absurd (congrArg Prod.fst he) (Ne.symm (neArOu hni ha2 hni))
        · obtain ⟨-, hlt, -⟩ := shape_at_output hinv.nidLe ha2 hni (hinv.shapes _ hm)
          omega
      · intro hg
        injection hg with hg
        have hae := producerValue_enc_inj ha ha2 hg
        subst hae
        exact ⟨_, memOk⟩
    · rw [Store.get_set_ne _ _ _ _ (nePrPr hb2 hni hbn),
        Store.get_set_ne _ _ _ _ (Ne.symm (neOuPr ha hni hb2)),
        Store.get_set_ne _ _ _ _ (Ne.symm (neArPr hni hb2))]
      constructor
      · rintro ⟨v, hv⟩
        rcases hmemE hv with he | he | he | hm
        · exact absurd (congrArg Prod.fst he) (neOuPr ha2 hb2 hni)
        · have h1 := congrArg Prod.fst he
          obtain ⟨-, hbe⟩ : a = act.id ∧ b = s.nextId := by
            rw [outputKeyEnc_pk, outputKeyEnc_pk] at h1
            exact packKey2_inj ha2 hb2 ha hni h1
          exact absurd hbe hbn
        · exact absurd (congrArg Prod.fst he) (Ne.symm (neArOu hni ha2 hb2))
        · exact (hinv.outputProd a b ha2 hb2).mp ⟨v, hm⟩
      · intro hg
        obtain ⟨v, hv⟩ := (hinv.outputProd a b ha2 hb2).mpr hg
        exact ⟨v, hmemT hv (Ne.symm (neArOu hni ha2 hb2))
          (neOuOu ha2 hb2 ha hni (Or.inr hbn)) (neOuPr ha2 hb2 hni)⟩
  · intro a b v ha2 hb2 hm
    rcases hmemE hm with he | he | he | hm
    · exact absurd (congrArg Prod.fst he) (neOuPr ha2 hb2 hni)
    · have h1 := congrArg Prod.fst he
      obtain ⟨hae, hbe⟩ : a = act.id ∧ b = s.nextId := by
        rw [outputKeyEnc_pk, outputKeyEnc_pk] at h1
        exact packKey2_inj ha2 hb2 ha hni h1
      subst hae
      subst hbe
      exact ⟨⟨wa, hmemT (Store.mem_of_get hwa) (neAcAr ha hni) (neAcOu ha ha hni)
          (neAcPr ha hni)⟩, ⟨_, memAk⟩⟩
    · exact absurd (congrArg Prod.fst he) (Ne.symm (neArOu hni ha2 hb2))
    · obtain ⟨hai, hbi, -⟩ := shape_at_output hinv.nidLe ha2 hb2 (hinv.shapes _ hm)
      obtain ⟨⟨w1, hw1⟩, w2, hw2⟩ := hinv.outputRef a b v ha2 hb2 hm
      exact ⟨⟨w1, hmemT hw1 (neAcAr ha2 hni) (neAcOu ha2 ha hni) (neAcPr ha2 hni)⟩,
        ⟨w2, hmemT hw2 (neArAr hb2 hni (by omega)) (neArOu hb2 ha hni)
          (neArPr hb2 hni)⟩⟩
  · intro b a v hb2 ha2 hm
    rcases hmemE hm with he | he | he | hm
    · exact absurd (congrArg Prod.fst he) (Ne.symm (nePrCo hni hb2 ha2))
    · exact absurd (congrArg Prod.fst he) (Ne.symm (neOuCo ha hni hb2 ha2))
    · exact absurd (congrArg Prod.fst he) (Ne.symm (neArCo hni hb2 ha2))
    · obtain ⟨hbi, hai, -⟩ := shape_at_consumer hinv.nidLe hb2 ha2 (hinv.shapes _ hm)
      obtain ⟨⟨w1, hw1⟩, w2, hw2⟩ := hinv.consumerRef b a v hb2 ha2 hm
      exact ⟨⟨w1, hmemT hw1 (neAcAr ha2 hni) (neAcOu ha2 ha hni) (neAcPr ha2 hni)⟩,
        ⟨w2, hmemT hw2 (neArAr hb2 hni (by omega)) (neArOu hb2 ha hni)
          (neArPr hb2 hni)⟩⟩

theorem actionTransaction_get {st : Store} {id : Nat} {ac : ActionCursor}
    (h : actionTransaction st id = .ok ac) :
    ∃ w, st.get (actionKeyEnc id) = some w := by
  rw [actionTransaction] at h
  cases hg : st.get (actionKeyEnc id) with
  | none =>
    rw [hg] at h
    cases h
  | some w => exact ⟨w, rfl⟩

theorem artifactTransaction_get {st : Store} {id : Nat} {ac : ArtifactCursor}
    (h : artifactTransaction st id = .ok ac) :
    ∃ w, st.get (artifactKeyEnc id) = some w := by
  rw [artifactTransaction] at h
  cases hg : st.get (artifactKeyEnc id) with
  | none =>
    rw [hg] at h
    cases h
  | some w => exact ⟨w, rfl⟩

theorem inv_addAction {s : Sys} (hinv : Inv s) (o : Oracle) {l c : Bytes}
    (hl : l.length < 2 ^ 20) (hc : c.length < 2 ^ 20) :
    Inv (Graph.addAction o s l c).1 := by
  rw [Graph.addAction]
  by_cases ho : o s.txnCount
  · rw [if_pos ho]
    exact inv_txn hinv _
  · rw [if_neg ho, addActionTransaction]
    by_cases hn : s.nextId < 2 ^ 128
    · rw [if_pos hn]
      exact inv_set_action hinv hl hc hn _
    · rw [if_neg hn]
      exact inv_txn hinv _

theorem inv_addArtifact {s : Sys} (hinv : Inv s) (o : Oracle) {l : Bytes} {kd : Nat}
    (hl : l.length < 2 ^ 20) (hkd : kd < 256) :
    Inv (Graph.addArtifact o s l kd).1 := by
  rw [Graph.addArtifact]
  by_cases ho : o s.txnCount
  · rw [if_pos ho]
    exact inv_txn hinv _
  · rw [if_neg ho, addArtifactTransaction]
    by_cases hn : s.nextId < 2 ^ 128
    · rw [if_pos hn]
      exact inv_set_artifact hinv hl hkd hn _
    · rw [if_neg hn]
      exact inv_txn hinv _

theorem inv_addInput_op {s : Sys} (hinv : Inv s) (o : Oracle) {act : ActionCursor}
    {art : ArtifactCursor} {name : Bytes} (hnm : name.length < 2 ^ 20)
    (ha : act.id < 2 ^ 128) (hb : art.id < 2 ^ 128)
    (hact : actionTransaction s.store act.id = .ok act)
    (hart : artifactTransaction s.store art.id = .ok art) :
    Inv (ActionCursor.addInput o s act name art).1 := by
  obtain ⟨wa, hwa⟩ := actionTransaction_get hact
  obtain ⟨wb, hwb⟩ := artifactTransaction_get hart
  rw [ActionCursor.addInput]
  by_cases ho : o s.txnCount
  · rw [if_pos ho]
    exact inv_txn hinv _
  · rw [if_neg ho]
    exact inv_addInput_store hinv hnm ha hb hwa hwb _

theorem inv_addOutput_op {s : Sys} (hinv : Inv s) (o : Oracle) {act : ActionCursor}
    {n l : Bytes} {kd : Nat} (hnm : n.length < 2 ^ 20) (hl : l.length < 2 ^ 20)
    (hkd : kd < 256) (ha : act.id < 2 ^ 128)
    (hact : actionTransaction s.store act.id = .ok act) :
    Inv (ActionCursor.addOutput o s act n l kd).1 := by
  obtain ⟨wa, hwa⟩ := actionTransaction_get hact
  rw [ActionCursor.addOutput]
  by_cases ho : o s.txnCount
  · rw [if_pos ho]
    exact inv_txn hinv _
  · rw [if_neg ho, addActionOutputTransaction, addArtifactTransaction]
    by_cases hn : s.nextId < 2 ^ 128
    · rw [if_pos hn]
      exact inv_addOutput_store hinv hnm hl hkd ha hwa hn _
    · rw [if_neg hn]
      exact inv_txn hinv _

theorem inv_step {s t : Sys} (hinv : Inv s) (hst : Step s t) : Inv t := by
  cases hst with
  | addAction o l c hl hc => exact inv_addAction hinv o hl hc
  | addArtifact o l k hl hk => exact inv_addArtifact hinv o hl hk
  | addInput o n act art hn hact hart hia hib =>
    exact inv_addInput_op hinv o hn hia hib hact hart
  | addOutput o n l k act hn hl hk hact hia =>
    exact inv_addOutput_op hinv o hn hl hk hia hact

theorem inv_init : Inv Sys.init := by
  refine ⟨List.Pairwise.nil, Nat.zero_le _, ?_, ?_, ?_, ?_, ?_⟩
  · intro kv hkv
    cases hkv
  · intro a b v _ _ hm
    cases hm
  · intro a b _ _
    constructor
    · rintro ⟨v, hv⟩
      cases hv
    · intro hg
      cases hg
  · intro a b v _ _ hm
    cases hm
  · intro b a v _ _ hm
    cases hm

theorem inv_reach {s t : Sys} (h : Reach s t) (hinv : Inv s) : Inv t := by
  induction h with
  | refl => exact hinv
  | tail h1 h2 ih => exact inv_step ih h2

theorem inv_reachable {s : Sys} (h : Reachable s) : Inv s :=
  inv_reach h inv_init

/-! ### Range scans of the namespaces -/

theorem action_scan_shape {s : Sys} (hinv : Inv s) :
    ∀ kv ∈ s.store.rangeScan (packKey nmAction []),
      ∃ id l c, id < s.nextId ∧ l.length < 2 ^ 20 ∧ c.length < 2 ^ 20 ∧
        kv = (actionKeyEnc id, actionValue.Encode ⟨l, c⟩) := by
  intro kv hkv
  obtain ⟨k, v⟩ := kv
  obtain ⟨hm, hst⟩ := Store.mem_rangeScan.mp hkv
  have hs := hinv.shapes _ hm
  rcases hs with ⟨i, l, c, h1, h2, h3, h4, h5⟩ | ⟨i, l, kd, h1, h2, h3, h4, h5⟩ |
    ⟨a, b, n, h1, h2, h3, h4, h5⟩ | ⟨a, b, n, h1, h2, h3, h4, h5⟩ |
    ⟨b, a, h1, h2, h3, h4⟩ | ⟨b, a, h1, h2, h3, h4⟩
  · exact ⟨i, l, c, h1, h2, h3, Prod.ext h4 h5⟩
  · rw [h4, artifactKeyEnc_pk] at hst
    exact absurd (packKey_starts (by decide) (by decide) hst).1 (by decide)
  · rw [h4, inputKeyEnc_pk] at hst
    exact absurd (packKey_starts (by decide) (by decide) hst).1 (by decide)
  · rw [h4, outputKeyEnc_pk] at hst
    exact absurd (packKey_starts (by decide) (by decide) hst).1 (by decide)
  · rw [h3, producerKeyEnc_pk] at hst
    exact absurd (packKey_starts (by decide) (by decide) hst).1 (by decide)
  · rw [h3, consumerKeyEnc_pk] at hst
    exact absurd (packKey_starts (by decide) (by decide) hst).1 (by decide)

theorem action_scan_mem {st : Store} {id : Nat} {v : Bytes}
    (hm : (actionKeyEnc id, v) ∈ st) :
    (actionKeyEnc id, v) ∈ st.rangeScan (packKey nmAction []) := by
  refine Store.mem_rangeScan.mpr ⟨hm, ?_⟩
  show starts (packKey nmAction []) (actionKeyEnc id) = true
  rw [actionKeyEnc_pk]
  exact packKey_starts_append nmAction [] [id]

theorem input_scan_shape {s : Sys} (hinv : Inv s) {q : Nat} (hq : q < 2 ^ 128) :
    ∀ kv ∈ s.store.rangeScan (packKey nmInput [q]),
      ∃ b n, b < s.nextId ∧ n.length < 2 ^ 20 ∧
        kv = (inputKeyEnc q b, actionInputValue.Encode ⟨n⟩) := by
  intro kv hkv
  obtain ⟨k, v⟩ := kv
  obtain ⟨hm, hst⟩ := Store.mem_rangeScan.mp hkv
  have hs := hinv.shapes _ hm
  rcases hs with ⟨i, l, c, h1, h2, h3, h4, h5⟩ | ⟨i, l, kd, h1, h2, h3, h4, h5⟩ |
    ⟨a, b, n, h1, h2, h3, h4, h5⟩ | ⟨a, b, n, h1, h2, h3, h4, h5⟩ |
    ⟨b, a, h1, h2, h3, h4⟩ | ⟨b, a, h1, h2, h3, h4⟩
  · rw [h4, actionKeyEnc_pk] at hst
    exact absurd (packKey_starts (by decide) (by decide) hst).1 (by decide)
  · rw [h4, artifactKeyEnc_pk] at hst
    exact absurd (packKey_starts (by decide) (by decide) hst).1 (by decide)
  · rw [h4, inputKeyEnc_pk] at hst
    obtain ⟨-, t, ht⟩ := packKey_starts (by decide) (by decide) hst
    rw [List.map_cons, List.map_cons, List.map_nil, List.map_singleton] at ht
    have hhd : uuidBytes a = uuidBytes q := by
      have hh := congrArg (fun x => x.head?) ht
      simp at hh
      exact hh
    have haq : a = q := uuidBytes_inj (lt_of_lt_of_le h1 hinv.nidLe) hq hhd
    subst haq
    exact ⟨b, n, h2, h3, Prod.ext h4 h5⟩
  · rw [h4, outputKeyEnc_pk] at hst
    exact absurd (packKey_starts (by decide) (by decide) hst).1 (by decide)
  · rw [h3, producerKeyEnc_pk] at hst
    exact absurd (packKey_starts (by decide) (by decide) hst).1 (by decide)
  · rw [h3, consumerKeyEnc_pk] at hst
    exact absurd (packKey_starts (by decide) (by decide) hst).1 (by decide)

theorem input_scan_mem {st : Store} {a b : Nat} {v : Bytes}
    (hm : (inputKeyEnc a b, v) ∈ st) :
    (inputKeyEnc a b, v) ∈ st.rangeScan (packKey nmInput [a]) := by
  refine Store.mem_rangeScan.mpr ⟨hm, ?_⟩
  show starts (packKey nmInput [a]) (inputKeyEnc a b) = true
  rw [inputKeyEnc_pk]
  exact packKey_starts_append nmInput [a] [b]

theorem consumer_scan_shape {s : Sys} (hinv : Inv s) {q : Nat} (hq : q < 2 ^ 128) :
    ∀ kv ∈ s.store.rangeScan (packKey nmConsumer [q]),
      ∃ a, a < s.nextId ∧
        kv = (consumerKeyEnc q a, artifactConsumerValue.Encode ⟨⟩) := by
  intro kv hkv
  obtain ⟨k, v⟩ := kv
  obtain ⟨hm, hst⟩ := Store.mem_rangeScan.mp hkv
  have hs := hinv.shapes _ hm
  rcases hs with ⟨i, l, c, h1, h2, h3, h4, h5⟩ | ⟨i, l, kd, h1, h2, h3, h4, h5⟩ |
    ⟨a, b, n, h1, h2, h3, h4, h5⟩ | ⟨a, b, n, h1, h2, h3, h4, h5⟩ |
    ⟨b, a, h1, h2, h3, h4⟩ | ⟨b, a, h1, h2, h3, h4⟩
  · rw [h4, actionKeyEnc_pk] at hst
    exact absurd (packKey_starts (by decide) (by decide) hst).1 (by decide)
  · rw [h4, artifactKeyEnc_pk] at hst
    exact absurd (packKey_starts (by decide) (by decide) hst).1 (by decide)
  · rw [h4, inputKeyEnc_pk] at hst
    exact absurd (packKey_starts (by decide) (by decide) hst).1 (by decide)
  · rw [h4, outputKeyEnc_pk] at hst
    exact absurd (packKey_starts (by decide) (by decide) hst).1 (by decide)
  · rw [h3, producerKeyEnc_pk] at hst
    exact absurd (packKey_starts (by decide) (by decide) hst).1 (by decide)
  · rw [h3, consumerKeyEnc_pk] at hst
    obtain ⟨-, t, ht⟩ := packKey_starts (by decide) (by decide) hst
    rw [List.map_cons, List.map_cons, List.map_nil, List.map_singleton] at ht
    have hhd : uuidBytes b = uuidBytes q := by
      have hh := congrArg (fun x => x.head?) ht
      simp at hh
      exact hh
    have hbq : b = q := uuidBytes_inj (lt_of_lt_of_le h1 hinv.nidLe) hq hhd
    subst hbq
    exact ⟨a, h2, Prod.ext h3 h4⟩

theorem consumer_scan_mem {st : Store} {b a : Nat} {v : Bytes}
    (hm : (consumerKeyEnc b a, v) ∈ st) :
    (consumerKeyEnc b a, v) ∈ st.rangeScan (packKey nmConsumer [b]) := by
  refine Store.mem_rangeScan.mpr ⟨hm, ?_⟩
  show starts (packKey nmConsumer [b]) (consumerKeyEnc b a) = true
  rw [consumerKeyEnc_pk]
  exact packKey_starts_append nmConsumer [b] [a]

theorem output_scan_shape {s : Sys} (hinv : Inv s) {q : Nat} (hq : q < 2 ^ 128) :
    ∀ kv ∈ s.store.rangeScan (packKey nmOutput [q]),
      ∃ b n, b < s.nextId ∧ n.length < 2 ^ 20 ∧
        kv = (outputKeyEnc q b, actionOutputValue.Encode ⟨n⟩) := by
  intro kv hkv
  obtain ⟨k, v⟩ := kv
  obtain ⟨hm, hst⟩ := Store.mem_rangeScan.mp hkv
  have hs := hinv.shapes _ hm
  rcases hs with ⟨i, l, c, h1, h2, h3, h4, h5⟩ | ⟨i, l, kd, h1, h2, h3, h4, h5⟩ |
    ⟨a, b, n, h1, h2, h3, h4, h5⟩ | ⟨a, b, n, h1, h2, h3, h4, h5⟩ |
    ⟨b, a, h1, h2, h3, h4⟩ | ⟨b, a, h1, h2, h3, h4⟩
  · rw [h4, actionKeyEnc_pk] at hst
    exact absurd (packKey_starts (by decide) (by decide) hst).1 (by decide)
  · rw [h4, artifactKeyEnc_pk] at hst
    exact absurd (packKey_starts (by decide) (by decide) hst).1 (by decide)
  · rw [h4, inputKeyEnc_pk] at hst
    exact absurd (packKey_starts (by decide) (by decide) hst).1 (by decide)
  · rw [h4, outputKeyEnc_pk] at hst
    obtain ⟨-, t, ht⟩ := packKey_starts (by decide) (by decide) hst
    rw [List.map_cons, List.map_cons, List.map_nil, List.map_singleton] at ht
    have hhd : uuidBytes a = uuidBytes q := by
      have hh := congrArg (fun x => x.head?) ht
      simp at hh
      exact hh
    have haq : a = q := uuidBytes_inj (lt_of_lt_of_le h1 hinv.nidLe) hq hhd
    subst haq
    exact ⟨b, n, h2, h3, Prod.ext h4 h5⟩
  · rw [h3, producerKeyEnc_pk] at hst
    exact absurd (packKey_starts (by decide) (by decide) hst).1 (by decide)
  · rw [h3, consumerKeyEnc_pk] at hst
    exact absurd (packKey_starts (by decide) (by decide) hst).1 (by decide)

theorem output_scan_mem {st : Store} {a b : Nat} {v : Bytes}
    (hm : (outputKeyEnc a b, v) ∈ st) :
    (outputKeyEnc a b, v) ∈ st.rangeScan (packKey nmOutput [a]) := by
  refine Store.mem_rangeScan.mpr ⟨hm, ?_⟩
  show starts (packKey nmOutput [a]) (outputKeyEnc a b) = true
  rw [outputKeyEnc_pk]
  exact packKey_starts_append nmOutput [a] [b]

/-! ### Enumeration loops -/

theorem mapGet_set_self {α : Type} (m : List (Bytes × α)) (k : Bytes) (v : α) :
    mapGet (mapSet m k v) k = some v := by
  induction m with
  | nil => simp [mapSet, mapGet]
  | cons hd t ih =>
    obtain ⟨k', v'⟩ := hd
    rw [mapSet]
    by_cases h : k' = k
    · rw [if_pos h, mapGet, if_pos rfl]
    · rw [if_neg h, mapGet, if_neg h]
      exact ih

theorem mapGet_set_ne {α : Type} (m : List (Bytes × α)) (k q : Bytes) (v : α)
    (hne : q ≠ k) : mapGet (mapSet m k v) q = mapGet m q := by
  induction m with
  | nil =>
    show (if k = q then some v else mapGet ([] : List (Bytes × α)) q) =
      mapGet ([] : List (Bytes × α)) q
    rw [if_neg (fun hh : k = q => hne hh.symm)]
  | cons hd t ih =>
    obtain ⟨k', v'⟩ := hd
    rw [mapSet]
    by_cases h : k' = k
    · rw [if_pos h]
      show (if k = q then some v else mapGet t q) =
        if k' = q then some v' else mapGet t q
      have hk'q : ¬ k' = q := by
        rw [h]
        exact fun hh => hne hh.symm
      rw [if_neg (fun hh : k = q => hne hh.symm), if_neg hk'q]
    · rw [if_neg h]
      show (if k' = q then some v' else mapGet (mapSet t k v) q) =
        if k' = q then some v' else mapGet t q
      by_cases h2 : k' = q
      · rw [if_pos h2, if_pos h2]
      · rw [if_neg h2, if_neg h2]
        exact ih

theorem pairwise_map_of_mem {α β : Type} {R : α → α → Prop} {S : β → β → Prop}
    {f : α → β} : ∀ {l : List α}, l.Pairwise R →
    (∀ x ∈ l, ∀ y ∈ l, R x y → S (f x) (f y)) → (l.map f).Pairwise S := by
  intro l
  induction l with
  | nil =>
    intro _ _
    exact List.Pairwise.nil
  | cons hd t ih =>
    intro hp hs
    rw [List.pairwise_cons] at hp
    rw [List.map_cons, List.pairwise_cons]
    refine ⟨?_, ih hp.2 ?_⟩
    · intro b hb
      obtain ⟨x, hx, hfx⟩ := List.mem_map.mp hb
      rw [← hfx]
      exact hs hd (by simp) x (by simp [hx]) (hp.1 x hx)
    · intro x hx y hy hr
      exact hs x (by simp [hx]) y (by simp [hy]) hr

/-- Total decoding of a canonical action entry. -/
def decAct (kv : Bytes × Bytes) : ActionCursor :=
  match actionKey.Decode kv.1, actionValue.Decode kv.2 with
  | .ok k, .ok v => ⟨k.id, v.Label, v.Command⟩
  | _, _ => ⟨0, [], []⟩

theorem decAct_canon {id : Nat} {l c : Bytes} (hid : id < 2 ^ 128)
    (hl : l.length < 2 ^ 20) (hc : c.length < 2 ^ 20) :
    decAct (actionKeyEnc id, actionValue.Encode ⟨l, c⟩) = ⟨id, l, c⟩ := by
  have hkd : actionKey.Decode (actionKeyEnc id) = .ok ⟨id⟩ :=
    actionKey_roundtrip ⟨id⟩ hid
  rw [decAct, hkd, actionValue_roundtrip ⟨l, c⟩ hl hc]

theorem actionsLoop_map : ∀ {l : List (Bytes × Bytes)},
    (∀ kv ∈ l, ∃ id lb c, id < 2 ^ 128 ∧ lb.length < 2 ^ 20 ∧ c.length < 2 ^ 20 ∧
      kv = (actionKeyEnc id, actionValue.Encode ⟨lb, c⟩)) →
    actionsLoop l = .ok (l.map decAct) := by
  intro l
  induction l with
  | nil =>
    intro _
    rfl
  | cons hd t ih =>
    intro h
    obtain ⟨id, lb, c, hid, hl, hc, he⟩ := h hd (by simp)
    have ht := ih (fun kv hkv => h kv (by simp [hkv]))
    subst he
    have hkd : actionKey.Decode (actionKeyEnc id) = .ok ⟨id⟩ :=
      actionKey_roundtrip ⟨id⟩ hid
    rw [actionsLoop, hkd, actionValue_roundtrip ⟨lb, c⟩ hl hc, ht]
    rw [List.map_cons, decAct_canon hid hl hc]

/-- Total decoding of a canonical consumer entry, resolving the consumer
action through the store. -/
def decCon (st : Store) (kv : Bytes × Bytes) : ActionCursor :=
  match artifactConsumerKey.Decode kv.1 with
  | .error _ => ⟨0, [], []⟩
  | .ok ack =>
    match actionTransaction st ack.actionID with
    | .error _ => ⟨0, [], []⟩
    | .ok a => a

theorem decCon_canon {st : Store} {b a : Nat} {v : Bytes} {ac : ActionCursor}
    (hb : b < 2 ^ 128) (ha : a < 2 ^ 128)
    (hac : actionTransaction st a = .ok ac) :
    decCon st (consumerKeyEnc b a, v) = ac := by
  have hkd : artifactConsumerKey.Decode (consumerKeyEnc b a) = .ok ⟨b, a⟩ :=
    artifactConsumerKey_roundtrip ⟨b, a⟩ hb ha
  generalize hK : consumerKeyEnc b a = K at hkd ⊢
  rw [decCon]
  show (match artifactConsumerKey.Decode K with
    | .error _ => (⟨0, [], []⟩ : ActionCursor)
    | .ok ack =>
      match actionTransaction st ack.actionID with
      | .error _ => (⟨0, [], []⟩ : ActionCursor)
      | .ok a2 => a2) = ac
  rw [hkd]
  show (match actionTransaction st a with
    | .error _ => (⟨0, [], []⟩ : ActionCursor)
    | .ok a2 => a2) = ac
  rw [hac]

theorem consumersLoop_map {st : Store} : ∀ {l : List (Bytes × Bytes)},
    (∀ kv ∈ l, ∃ b a, b < 2 ^ 128 ∧ a < 2 ^ 128 ∧
      kv.1 = consumerKeyEnc b a ∧ ∃ ac, actionTransaction st a = .ok ac) →
    consumersLoop st l = .ok (l.map (decCon st)) := by
  intro l
  induction l with
  | nil =>
    intro _
    rfl
  | cons hd t ih =>
    intro h
    obtain ⟨b, a, hb, ha, hk, ac, hac⟩ := h hd (by simp)
    have ht := ih (fun kv hkv => h kv (by simp [hkv]))
    obtain ⟨k, v⟩ := hd
    have hk2 : k = consumerKeyEnc b a := hk
    subst hk2
    have hkd : artifactConsumerKey.Decode (consumerKeyEnc b a) = .ok ⟨b, a⟩ :=
      artifactConsumerKey_roundtrip ⟨b, a⟩ hb ha
    rw [List.map_cons, decCon_canon hb ha hac, consumersLoop, hkd]
    show (match actionTransaction st a with
      | .error e => Except.error e
      | .ok a2 =>
        match consumersLoop st t with
        | .error e => Except.error e
        | .ok tl => Except.ok (a2 :: tl)) =
      Except.ok (ac :: List.map (decCon st) t)
    rw [hac, ht]

theorem consumersLoop_total {st : Store} : ∀ {l : List (Bytes × Bytes)},
    (∀ kv ∈ l, ∃ b a, b < 2 ^ 128 ∧ a < 2 ^ 128 ∧
      kv.1 = consumerKeyEnc b a ∧ ∃ ac, actionTransaction st a = .ok ac) →
    ∃ L, consumersLoop st l = .ok L := by
  intro l
  induction l with
  | nil =>
    intro _
    exact ⟨[], rfl⟩
  | cons hd t ih =>
    intro h
    obtain ⟨b, a, hb, ha, hk, ac, hac⟩ := h hd (by simp)
    obtain ⟨L, hL⟩ := ih (fun kv hkv => h kv (by simp [hkv]))
    obtain ⟨k, v⟩ := hd
    refine ⟨ac :: L, ?_⟩
    show (match artifactConsumerKey.Decode k with
      | .error e => Except.error e
      | .ok ack =>
        match actionTransaction st ack.actionID with
        | .error e => Except.error e
        | .ok a2 =>
          match consumersLoop st t with
          | .error e => Except.error e
          | .ok tl => Except.ok (a2 :: tl)) = Except.ok (ac :: L)
    have hkd : artifactConsumerKey.Decode k = .ok ⟨b, a⟩ := by
      rw [show k = consumerKeyEnc b a from hk]
      exact artifactConsumerKey_roundtrip ⟨b, a⟩ hb ha
    rw [hkd]
    show (match actionTransaction st a with
      | .error e => Except.error e
      | .ok a2 =>
        match consumersLoop st t with
        | .error e => Except.error e
        | .ok tl => Except.ok (a2 :: tl)) = Except.ok (ac :: L)
    rw [hac, hL]

theorem consumersLoop_mem {st : Store} : ∀ {l : List (Bytes × Bytes)}
    {L : List ActionCursor}, consumersLoop st l = .ok L →
    ∀ {k0 v0 : Bytes}, (k0, v0) ∈ l →
    ∀ {b a : Nat}, b < 2 ^ 128 → a < 2 ^ 128 → k0 = consumerKeyEnc b a →
    ∀ {ac : ActionCursor}, actionTransaction st a = .ok ac → ac ∈ L := by
  intro l
  induction l with
  | nil =>
    intro L _ k0 v0 hm
    cases hm
  | cons hd t ih =>
    intro L hL k0 v0 hm b a hb ha hk ac hac
    obtain ⟨k, v⟩ := hd
    rw [consumersLoop] at hL
    rcases List.mem_cons.mp hm with he | hm
    · injection he with he1 he2
      subst he1
      have hkd : artifactConsumerKey.Decode (consumerKeyEnc b a) = .ok ⟨b, a⟩ :=
        artifactConsumerKey_roundtrip ⟨b, a⟩ hb ha
      rw [hk, hkd] at hL
      have hL2 : (match actionTransaction st a with
        | .error e => Except.error e
        | .ok a2 =>
          match consumersLoop st t with
          | .error e => Except.error e
          | .ok tl => Except.ok (a2 :: tl)) = Except.ok L := hL
      rw [hac] at hL2
      cases hrest : consumersLoop st t with
      | error e =>
        rw [hrest] at hL2
        cases hL2
      | ok tl =>
        rw [hrest] at hL2
        injection hL2 with hL2
        rw [← hL2]
        simp
    · cases hkd : artifactConsumerKey.Decode k with
      | error e =>
        rw [hkd] at hL
        cases hL
      | ok ack =>
        rw [hkd] at hL
        have hL2 : (match actionTransaction st ack.actionID with
          | .error e => Except.error e
          | .ok a2 =>
            match consumersLoop st t with
            | .error e => Except.error e
            | .ok tl => Except.ok (a2 :: tl)) = Except.ok L := hL
        cases hat : actionTransaction st ack.actionID with
        | error e =>
          rw [hat] at hL2
          cases hL2
        | ok a2 =>
          rw [hat] at hL2
          cases hrest : consumersLoop st t with
          | error e =>
            rw [hrest] at hL2
            cases hL2
          | ok tl =>
            rw [hrest] at hL2
            injection hL2 with hL2
            rw [← hL2]
            exact List.mem_cons.mpr (Or.inr (ih hrest hm hb ha hk hac))

theorem inputsLoop_total {st : Store} : ∀ {l : List (Bytes × Bytes)}
    {acc : List (Bytes × ArtifactCursor)},
    (∀ kv ∈ l, ∃ a b nm, a < 2 ^ 128 ∧ b < 2 ^ 128 ∧ nm.length < 2 ^ 20 ∧
      kv = (inputKeyEnc a b, actionInputValue.Encode ⟨nm⟩) ∧
      ∃ ac, artifactTransaction st b = .ok ac) →
    ∃ m, inputsLoop st l acc = .ok m ∧
      ∀ q : Bytes, (∀ kv ∈ l, ∀ nm : Bytes,
        actionInputValue.Decode kv.2 = .ok ⟨nm⟩ → nm ≠ q) →
      mapGet m q = mapGet acc q := by
  intro l
  induction l with
  | nil =>
    intro acc _
    exact ⟨acc, rfl, fun _ _ => rfl⟩
  | cons hd t ih =>
    intro acc h
    obtain ⟨a, b, nm, ha, hb, hnm, he, ac, hac⟩ := h hd (by simp)
    obtain ⟨m, hm, hpres⟩ := ih (fun kv hkv => h kv (by simp [hkv]))
    subst he
    have hkd : actionInputKey.Decode (inputKeyEnc a b) = .ok ⟨a, b⟩ :=
      actionInputKey_roundtrip ⟨a, b⟩ ha hb
    have hvd : actionInputValue.Decode (actionInputValue.Encode ⟨nm⟩) = .ok ⟨nm⟩ :=
      actionInputValue_roundtrip ⟨nm⟩ hnm
    have hstep : inputsLoop st
        ((inputKeyEnc a b, actionInputValue.Encode ⟨nm⟩) :: t) acc =
        inputsLoop st t (mapSet acc nm ac) := by
      rw [inputsLoop, hkd, hvd]
      show (match artifactTransaction st b with
        | .error e => Except.error e
        | .ok artifact => inputsLoop st t (mapSet acc nm artifact)) =
          inputsLoop st t (mapSet acc nm ac)
      rw [hac]
    refine ⟨m, hstep.trans hm, ?_⟩
    intro q hq
    have hnq : nm ≠ q :=
      hq (inputKeyEnc a b, actionInputValue.Encode ⟨nm⟩) (by simp) nm hvd
    rw [hpres q (fun kv hkv nm2 hd2 => hq kv (by simp [hkv]) nm2 hd2)]
    exact mapGet_set_ne acc nm q ac (fun hh => hnq hh.symm)

theorem inputsLoop_append {st : Store} : ∀ {l1 l2 : List (Bytes × Bytes)}
    {acc m1 : List (Bytes × ArtifactCursor)},
    inputsLoop st l1 acc = .ok m1 →
    inputsLoop st (l1 ++ l2) acc = inputsLoop st l2 m1 := by
  intro l1
  induction l1 with
  | nil =>
    intro l2 acc m1 h
    have h2 : (Except.ok acc : Except GErr (List (Bytes × ArtifactCursor))) =
      .ok m1 := h
    injection h2 with h2
    show inputsLoop st l2 acc = inputsLoop st l2 m1
    rw [h2]
  | cons hd t ih =>
    intro l2 acc m1 h
    obtain ⟨k, v⟩ := hd
    rw [inputsLoop] at h
    cases hkd : actionInputKey.Decode k with
    | error e =>
      rw [hkd] at h
      cases h
    | ok aik =>
      rw [hkd] at h
      cases hvd : actionInputValue.Decode v with
      | error e =>
        rw [hvd] at h
        cases h
      | ok aiv =>
        rw [hvd] at h
        have h2 : (match artifactTransaction st aik.artifactID with
          | .error e => Except.error e
          | .ok artifact =>
            inputsLoop st t (mapSet acc aiv.Name artifact)) = .ok m1 := h
        cases hat : artifactTransaction st aik.artifactID with
        | error e =>
          rw [hat] at h2
          cases h2
        | ok art =>
          rw [hat] at h2
          show inputsLoop st ((k, v) :: (t ++ l2)) acc = inputsLoop st l2 m1
          rw [inputsLoop, hkd, hvd]
          show (match artifactTransaction st aik.artifactID with
            | .error e => Except.error e
            | .ok artifact =>
              inputsLoop st (t ++ l2) (mapSet acc aiv.Name artifact)) =
              inputsLoop st l2 m1
          rw [hat]
          exact ih h2

theorem mem_mapSet {α : Type} : ∀ {m : List (Bytes × α)} {k : Bytes} {v : α}
    {p : Bytes × α}, p ∈ mapSet m k v → p = (k, v) ∨ p ∈ m := by
  intro m
  induction m with
  | nil =>
    intro k v p hp
    rw [mapSet] at hp
    exact Or.inl (List.mem_singleton.mp hp)
  | cons hd t ih =>
    intro k v p hp
    obtain ⟨k2, v2⟩ := hd
    rw [mapSet] at hp
    by_cases hk : k2 = k
    · rw [if_pos hk] at hp
      rcases List.mem_cons.mp hp with h | h
      · exact Or.inl h
      · exact Or.inr (List.mem_cons.mpr (Or.inr h))
    · rw [if_neg hk] at hp
      rcases List.mem_cons.mp hp with h | h
      · exact Or.inr (List.mem_cons.mpr (Or.inl h))
      · rcases ih h with h2 | h2
        · exact Or.inl h2
        · exact Or.inr (List.mem_cons.mpr (Or.inr h2))

theorem inputsLoop_srcs {st : Store} {A : Nat} (hA : A < 2 ^ 128) :
    ∀ {l : List (Bytes × Bytes)} {acc m : List (Bytes × ArtifactCursor)},
    (∀ kv ∈ l, ∃ b nm, b < 2 ^ 128 ∧ nm.length < 2 ^ 20 ∧
      kv = (inputKeyEnc A b, actionInputValue.Encode ⟨nm⟩) ∧
      ∃ ac, artifactTransaction st b = .ok ac) →
    inputsLoop st l acc = .ok m →
    ∀ p ∈ m, p ∈ acc ∨ ∃ b, b < 2 ^ 128 ∧
      (inputKeyEnc A b, actionInputValue.Encode ⟨p.1⟩) ∈ l ∧
      artifactTransaction st b = .ok p.2 := by
  intro l
  induction l with
  | nil =>
    intro acc m _ hm p hp
    rw [inputsLoop] at hm
    injection hm with hm
    rw [← hm] at hp
    exact Or.inl hp
  | cons hd t ih =>
    intro acc m h hm p hp
    obtain ⟨b, nm, hb, hnm, he, ac, hac⟩ := h hd (by simp)
    subst he
    have hkd : actionInputKey.Decode (inputKeyEnc A b) = .ok ⟨A, b⟩ :=
      actionInputKey_roundtrip ⟨A, b⟩ hA hb
    have hvd : actionInputValue.Decode (actionInputValue.Encode ⟨nm⟩) =
        .ok ⟨nm⟩ := actionInputValue_roundtrip ⟨nm⟩ hnm
    rw [inputsLoop, hkd, hvd] at hm
    have hm2 : (match artifactTransaction st b with
      | .error e => Except.error e
      | .ok artifact => inputsLoop st t (mapSet acc nm artifact)) = .ok m := hm
    rw [hac] at hm2
    have hm3 : inputsLoop st t (mapSet acc nm ac) = .ok m := hm2
    rcases ih (fun kv hkv => h kv (by simp [hkv])) hm3 p hp with
      hin | ⟨b2, hb2, hmem, hart⟩
    · rcases mem_mapSet hin with he2 | hin2
      · refine Or.inr ⟨b, hb, ?_, ?_⟩
        · rw [he2]
          exact List.mem_cons.mpr (Or.inl rfl)
        · rw [he2]
          exact hac
      · exact Or.inl hin2
    · exact Or.inr ⟨b2, hb2, List.mem_cons.mpr (Or.inr hmem), hart⟩

theorem outputsLoop_ok {st : Store} {A : Nat} (hA : A < 2 ^ 128) :
    ∀ {l : List (Bytes × Bytes)} {acc : List (Bytes × ArtifactCursor)},
    (∀ kv ∈ l, ∃ b nm, b < 2 ^ 128 ∧ nm.length < 2 ^ 20 ∧
      kv = (outputKeyEnc A b, actionOutputValue.Encode ⟨nm⟩) ∧
      ∃ ac, artifactTransaction st b = .ok ac) →
    ∃ m, outputsLoop st l acc = .ok m := by
  intro l
  induction l with
  | nil =>
    intro acc _
    exact ⟨acc, rfl⟩
  | cons hd t ih =>
    intro acc h
    obtain ⟨b, nm, hb, hnm, he, ac, hac⟩ := h hd (by simp)
    subst he
    obtain ⟨m, hm⟩ := @ih (mapSet acc nm ac) (fun kv hkv => h kv (by simp [hkv]))
    have hkd : actionOutputKey.Decode (outputKeyEnc A b) = .ok ⟨A, b⟩ :=
      actionOutputKey_roundtrip ⟨A, b⟩ hA hb
    have hvd : actionOutputValue.Decode (actionOutputValue.Encode ⟨nm⟩) =
        .ok ⟨nm⟩ := actionOutputValue_roundtrip ⟨nm⟩ hnm
    refine ⟨m, ?_⟩
    rw [outputsLoop, hkd, hvd]
    show (match artifactTransaction st b with
      | .error e => Except.error e
      | .ok artifact => outputsLoop st t (mapSet acc nm artifact)) = .ok m
    rw [hac]
    exact hm

theorem outputsLoop_srcs {st : Store} {A : Nat} (hA : A < 2 ^ 128) :
    ∀ {l : List (Bytes × Bytes)} {acc m : List (Bytes × ArtifactCursor)},
    (∀ kv ∈ l, ∃ b nm, b < 2 ^ 128 ∧ nm.length < 2 ^ 20 ∧
      kv = (outputKeyEnc A b, actionOutputValue.Encode ⟨nm⟩) ∧
      ∃ ac, artifactTransaction st b = .ok ac) →
    outputsLoop st l acc = .ok m →
    ∀ p ∈ m, p ∈ acc ∨ ∃ b, b < 2 ^ 128 ∧
      (outputKeyEnc A b, actionOutputValue.Encode ⟨p.1⟩) ∈ l ∧
      artifactTransaction st b = .ok p.2 := by
  intro l
  induction l with
  | nil =>
    intro acc m _ hm p hp
    rw [outputsLoop] at hm
    injection hm with hm
    rw [← hm] at hp
    exact Or.inl hp
  | cons hd t ih =>
    intro acc m h hm p hp
    obtain ⟨b, nm, hb, hnm, he, ac, hac⟩ := h hd (by simp)
    subst he
    have hkd : actionOutputKey.Decode (outputKeyEnc A b) = .ok ⟨A, b⟩ :=
      actionOutputKey_roundtrip ⟨A, b⟩ hA hb
    have hvd : actionOutputValue.Decode (actionOutputValue.Encode ⟨nm⟩) =
        .ok ⟨nm⟩ := actionOutputValue_roundtrip ⟨nm⟩ hnm
    rw [outputsLoop, hkd, hvd] at hm
    have hm2 : (match artifactTransaction st b with
      | .error e => Except.error e
      | .ok artifact => outputsLoop st t (mapSet acc nm artifact)) = .ok m := hm
    rw [hac] at hm2
    have hm3 : outputsLoop st t (mapSet acc nm ac) = .ok m := hm2
    rcases ih (fun kv hkv => h kv (by simp [hkv])) hm3 p hp with
      hin | ⟨b2, hb2, hmem, hart⟩
    · rcases mem_mapSet hin with he2 | hin2
      · refine Or.inr ⟨b, hb, ?_, ?_⟩
        · rw [he2]
          exact List.mem_cons.mpr (Or.inl rfl)
        · rw [he2]
          exact hac
      · exact Or.inl hin2
    · exact Or.inr ⟨b2, hb2, List.mem_cons.mpr (Or.inr hmem), hart⟩

theorem wf_split {l1 l2 : Store} {x : Bytes × Bytes}
    (hwf : (l1 ++ x :: l2).Wf) :
    (∀ y ∈ l1, y.1 ≠ x.1) ∧ (∀ y ∈ l2, y.1 ≠ x.1) := by
  rw [Store.Wf, List.pairwise_append] at hwf
  obtain ⟨h1, h2, h3⟩ := hwf
  rw [List.pairwise_cons] at h2
  constructor
  · intro y hy he
    have hb := h3 y hy x (by simp)
    rw [he] at hb
    rw [blt_irrefl] at hb
    cases hb
  · intro y hy he
    have hb := h2.1 y hy
    rw [he] at hb
    rw [blt_irrefl] at hb
    cases hb

/-! ### The claims -/

/-- **C4** (confirmed): round-trip law.  For every key type and every value
type of the codec (action, artifact, input, output, producer, consumer keys
and values) and every well-formed instance `x`, `Decode (Encode x) = ok x`.
Keys are well-formed when their ids are 128-bit uuids; values when their
strings fit the gob message framing (conservatively `< 2 ^ 20` bytes here)
and the artifact kind is a byte. -/
theorem C4_roundtrip
    (k1 : actionKey) (h1 : k1.id < 2 ^ 128)
    (k2 : artifactKey) (h2 : k2.id < 2 ^ 128)
    (k3 : artifactProducerKey) (h3 : k3.artifactID < 2 ^ 128)
    (k4 : actionInputKey) (h4a : k4.actionID < 2 ^ 128) (h4b : k4.artifactID < 2 ^ 128)
    (k5 : actionOutputKey) (h5a : k5.actionID < 2 ^ 128) (h5b : k5.artifactID < 2 ^ 128)
    (k6 : artifactConsumerKey) (h6a : k6.artifactID < 2 ^ 128) (h6b : k6.actionID < 2 ^ 128)
    (v1 : actionValue) (g1a : v1.Label.length < 2 ^ 20) (g1b : v1.Command.length < 2 ^ 20)
    (v2 : artifactValue) (g2a : v2.Label.length < 2 ^ 20) (g2b : v2.Kind < 256)
    (v3 : actionInputValue) (g3 : v3.Name.length < 2 ^ 20)
    (v4 : actionOutputValue) (g4 : v4.Name.length < 2 ^ 20)
    (v5 : artifactProducerValue) (g5 : v5.ActionID < 2 ^ 128)
    (v6 : artifactConsumerValue) :
    actionKey.Decode k1.Encode = .ok k1 ∧
    artifactKey.Decode k2.Encode = .ok k2 ∧
    artifactProducerKey.Decode k3.Encode = .ok k3 ∧
    actionInputKey.Decode k4.Encode = .ok k4 ∧
    actionOutputKey.Decode k5.Encode = .ok k5 ∧
    artifactConsumerKey.Decode k6.Encode = .ok k6 ∧
    actionValue.Decode v1.Encode = .ok v1 ∧
    artifactValue.Decode v2.Encode = .ok v2 ∧
    actionInputValue.Decode v3.Encode = .ok v3 ∧
    actionOutputValue.Decode v4.Encode = .ok v4 ∧
    artifactProducerValue.Decode v5.Encode = .ok v5 ∧
    artifactConsumerValue.Decode v6.Encode = .ok v6 :=
  ⟨actionKey_roundtrip k1 h1, artifactKey_roundtrip k2 h2,
    artifactProducerKey_roundtrip k3 h3, actionInputKey_roundtrip k4 h4a h4b,
    actionOutputKey_roundtrip k5 h5a h5b, artifactConsumerKey_roundtrip k6 h6a h6b,
    actionValue_roundtrip v1 g1a g1b, artifactValue_roundtrip v2 g2a g2b,
    actionInputValue_roundtrip v3 g3, actionOutputValue_roundtrip v4 g4,
    artifactProducerValue_roundtrip v5 g5, artifactConsumerValue_roundtrip v6⟩

/-- Witness for C4 at concrete instances. -/
theorem C4_roundtrip_witness :
    actionKey.Decode (actionKey.Encode ⟨3⟩) = .ok ⟨3⟩ ∧
    artifactKey.Decode (artifactKey.Encode ⟨4⟩) = .ok ⟨4⟩ ∧
    artifactProducerKey.Decode (artifactProducerKey.Encode ⟨5⟩) = .ok ⟨5⟩ ∧
    actionInputKey.Decode (actionInputKey.Encode ⟨1, 2⟩) = .ok ⟨1, 2⟩ ∧
    actionOutputKey.Decode (actionOutputKey.Encode ⟨1, 6⟩) = .ok ⟨1, 6⟩ ∧
    artifactConsumerKey.Decode (artifactConsumerKey.Encode ⟨2, 1⟩) = .ok ⟨2, 1⟩ ∧
    actionValue.Decode (actionValue.Encode ⟨[104, 105], [99, 109, 100]⟩) =
      .ok ⟨[104, 105], [99, 109, 100]⟩ ∧
    artifactValue.Decode (artifactValue.Encode ⟨[104, 105], 1⟩) = .ok ⟨[104, 105], 1⟩ ∧
    actionInputValue.Decode (actionInputValue.Encode ⟨[110]⟩) = .ok ⟨[110]⟩ ∧
    actionOutputValue.Decode (actionOutputValue.Encode ⟨[111]⟩) = .ok ⟨[111]⟩ ∧
    artifactProducerValue.Decode (artifactProducerValue.Encode ⟨3⟩) = .ok ⟨3⟩ ∧
    artifactConsumerValue.Decode (artifactConsumerValue.Encode ⟨⟩) = .ok ⟨⟩ :=
  C4_roundtrip ⟨3⟩ (by norm_num) ⟨4⟩ (by norm_num) ⟨5⟩ (by norm_num)
    ⟨1, 2⟩ (by norm_num) (by norm_num) ⟨1, 6⟩ (by norm_num) (by norm_num)
    ⟨2, 1⟩ (by norm_num) (by norm_num)
    ⟨[104, 105], [99, 109, 100]⟩ (by norm_num) (by norm_num)
    ⟨[104, 105], 1⟩ (by norm_num) (by norm_num)
    ⟨[110]⟩ (by norm_num) ⟨[111]⟩ (by norm_num) ⟨3⟩ (by norm_num) ⟨⟩

/-- **C8** (counterexample): the consumer-index value decoder accepts
arbitrary malformed input and silently returns the zero value — `[37]` is
not the encoding of the only `artifactConsumerValue` instance, yet `Decode`
returns `ok`. -/
theorem C8_counterexample :
    artifactConsumerValue.Decode [37] = .ok ⟨⟩ ∧
    artifactConsumerValue.Encode ⟨⟩ ≠ [37] := by
  constructor
  · rfl
  · decide

/-- **C8** (amended): every codec decoder except the (trivially empty)
consumer-index value rejects malformed input: the six key decoders accept
a byte string only when it is exactly the well-formed encoding of the
returned key, and the five non-trivial value decoders reject every proper
truncation of an encoding with a decode error. -/
theorem C8_amended :
    (∀ key k1, (∀ c ∈ key, c < 256) → actionKey.Decode key = .ok k1 →
      key = actionKey.Encode k1) ∧
    (∀ key k2, (∀ c ∈ key, c < 256) → artifactKey.Decode key = .ok k2 →
      key = artifactKey.Encode k2) ∧
    (∀ key k3, (∀ c ∈ key, c < 256) → artifactProducerKey.Decode key = .ok k3 →
      key = artifactProducerKey.Encode k3) ∧
    (∀ key k4, (∀ c ∈ key, c < 256) → actionInputKey.Decode key = .ok k4 →
      key = actionInputKey.Encode k4) ∧
    (∀ key k5, (∀ c ∈ key, c < 256) → actionOutputKey.Decode key = .ok k5 →
      key = actionOutputKey.Encode k5) ∧
    (∀ key k6, (∀ c ∈ key, c < 256) → artifactConsumerKey.Decode key = .ok k6 →
      key = artifactConsumerKey.Encode k6) ∧
    (∀ v1 : actionValue, v1.Label.length < 2 ^ 20 → v1.Command.length < 2 ^ 20 →
      ∀ k < v1.Encode.length,
        actionValue.Decode (v1.Encode.take k) = .error .gobDecodeError) ∧
    (∀ v2 : artifactValue, v2.Label.length < 2 ^ 20 →
      ∀ k < v2.Encode.length,
        artifactValue.Decode (v2.Encode.take k) = .error .gobDecodeError) ∧
    (∀ v3 : actionInputValue, v3.Name.length < 2 ^ 20 →
      ∀ k < v3.Encode.length,
        actionInputValue.Decode (v3.Encode.take k) = .error .gobDecodeError) ∧
    (∀ v4 : actionOutputValue, v4.Name.length < 2 ^ 20 →
      ∀ k < v4.Encode.length,
        actionOutputValue.Decode (v4.Encode.take k) = .error .gobDecodeError) ∧
    (∀ v5 : artifactProducerValue, ∀ k < v5.Encode.length,
      artifactProducerValue.Decode (v5.Encode.take k) = .error .gobDecodeError) :=
  ⟨fun _ _ => actionKey_decode_sound, fun _ _ => artifactKey_decode_sound,
    fun _ _ => artifactProducerKey_decode_sound,
    fun _ _ => actionInputKey_decode_sound, fun _ _ => actionOutputKey_decode_sound,
    fun _ _ => artifactConsumerKey_decode_sound,
    fun v1 h0 h1 k hk => actionValue_decode_truncated v1 h0 h1 k hk,
    fun v2 h0 k hk => artifactValue_decode_truncated v2 h0 k hk,
    fun v3 h0 k hk => actionInputValue_decode_truncated v3 h0 k hk,
    fun v4 h0 k hk => actionOutputValue_decode_truncated v4 h0 k hk,
    fun v5 k hk => artifactProducerValue_decode_truncated v5 k hk⟩

/-- Witness for the amended C8: a concrete truncation is rejected. -/
theorem C8_amended_witness :
    actionValue.Decode ((actionValue.Encode ⟨[104], [99]⟩).take 3) =
      .error .gobDecodeError :=
  C8_amended.2.2.2.2.2.2.1 ⟨[104], [99]⟩ (by norm_num) (by norm_num) 3 (by decide)

/-! ### Operation run equations and frame facts -/

theorem packKey_ne_nm {nm₁ nm₂ : Bytes} (h : nm₁ ≠ nm₂) (ids₁ ids₂ : List Nat) :
    packKey nm₁ ids₁ ≠ packKey nm₂ ids₂ :=
  fun he => h (packKey_nm_eq he)

theorem qAcIn (i a b : Nat) : actionKeyEnc i ≠ inputKeyEnc a b := by
  rw [actionKeyEnc_pk, inputKeyEnc_pk]
  exact packKey_ne_nm (by decide) _ _

theorem qAcCo (i b a : Nat) : actionKeyEnc i ≠ consumerKeyEnc b a := by
  rw [actionKeyEnc_pk, consumerKeyEnc_pk]
  exact packKey_ne_nm (by decide) _ _

theorem qArIn (i a b : Nat) : artifactKeyEnc i ≠ inputKeyEnc a b := by
  rw [artifactKeyEnc_pk, inputKeyEnc_pk]
  exact packKey_ne_nm (by decide) _ _

theorem qArCo (i b a : Nat) : artifactKeyEnc i ≠ consumerKeyEnc b a := by
  rw [artifactKeyEnc_pk, consumerKeyEnc_pk]
  exact packKey_ne_nm (by decide) _ _

theorem qAcAr (i j : Nat) : actionKeyEnc i ≠ artifactKeyEnc j := by
  rw [actionKeyEnc_pk, artifactKeyEnc_pk]
  exact packKey_ne_nm (by decide) _ _

theorem qAcOu (i a b : Nat) : actionKeyEnc i ≠ outputKeyEnc a b := by
  rw [actionKeyEnc_pk, outputKeyEnc_pk]
  exact packKey_ne_nm (by decide) _ _

theorem qAcPr (i b : Nat) : actionKeyEnc i ≠ producerKeyEnc b := by
  rw [actionKeyEnc_pk, producerKeyEnc_pk]
  exact packKey_ne_nm (by decide) _ _

theorem qArOu (i a b : Nat) : artifactKeyEnc i ≠ outputKeyEnc a b := by
  rw [artifactKeyEnc_pk, outputKeyEnc_pk]
  exact packKey_ne_nm (by decide) _ _

theorem qArPr (i b : Nat) : artifactKeyEnc i ≠ producerKeyEnc b := by
  rw [artifactKeyEnc_pk, producerKeyEnc_pk]
  exact packKey_ne_nm (by decide) _ _

theorem bool_eq_false {b : Bool} (h : ¬ b = true) : b = false := by
  cases b
  · rfl
  · exact absurd rfl h

theorem addAction_run {s : Sys} {o : Oracle} (ho : o s.txnCount = false)
    (hni : s.nextId < 2 ^ 128) (l c : Bytes) :
    Graph.addAction o s l c =
      (⟨s.store.set (actionKeyEnc s.nextId) (actionValue.Encode ⟨l, c⟩),
        s.nextId + 1, s.txnCount + 1⟩, .ok ⟨s.nextId, l, c⟩) := by
  rw [Graph.addAction, if_neg (by rw [ho]; exact Bool.false_ne_true),
    addActionTransaction, if_pos hni]

theorem addAction_fail_o {s : Sys} {o : Oracle} (ho : o s.txnCount = true)
    (l c : Bytes) :
    Graph.addAction o s l c =
      ({ s with txnCount := s.txnCount + 1 }, .error .storeError) := by
  rw [Graph.addAction, if_pos ho]

theorem addAction_fail_id {s : Sys} {o : Oracle} (ho : o s.txnCount = false)
    (hni : ¬ s.nextId < 2 ^ 128) (l c : Bytes) :
    Graph.addAction o s l c =
      ({ s with txnCount := s.txnCount + 1 }, .error .uuidGenError) := by
  rw [Graph.addAction, if_neg (by rw [ho]; exact Bool.false_ne_true),
    addActionTransaction, if_neg hni]

theorem addArtifact_run {s : Sys} {o : Oracle} (ho : o s.txnCount = false)
    (hni : s.nextId < 2 ^ 128) (l : Bytes) (kd : Nat) :
    Graph.addArtifact o s l kd =
      (⟨s.store.set (artifactKeyEnc s.nextId) (artifactValue.Encode ⟨l, kd⟩),
        s.nextId + 1, s.txnCount + 1⟩, .ok ⟨s.nextId, l, kd⟩) := by
  rw [Graph.addArtifact, if_neg (by rw [ho]; exact Bool.false_ne_true),
    addArtifactTransaction, if_pos hni]

theorem addInput_run {s : Sys} {o : Oracle} {act : ActionCursor}
    {art : ArtifactCursor} (ho : o s.txnCount = false) (n : Bytes) :
    ActionCursor.addInput o s act n art =
      (⟨(s.store.set (inputKeyEnc act.id art.id)
          (actionInputValue.Encode ⟨n⟩)).set (consumerKeyEnc art.id act.id)
          (artifactConsumerValue.Encode ⟨⟩),
        s.nextId, s.txnCount + 1⟩, .ok ()) := by
  rw [ActionCursor.addInput, if_neg (by rw [ho]; exact Bool.false_ne_true)]
  rfl

theorem addInput_fail_o {s : Sys} {o : Oracle} {act : ActionCursor}
    {art : ArtifactCursor} (ho : o s.txnCount = true) (n : Bytes) :
    ActionCursor.addInput o s act n art =
      ({ s with txnCount := s.txnCount + 1 }, .error .storeError) := by
  rw [ActionCursor.addInput, if_pos ho]

theorem addOutput_run {s : Sys} {o : Oracle} {act : ActionCursor}
    (ho : o s.txnCount = false) (hni : s.nextId < 2 ^ 128) (n l : Bytes) (kd : Nat) :
    ActionCursor.addOutput o s act n l kd =
      (⟨((s.store.set (artifactKeyEnc s.nextId)
          (artifactValue.Encode ⟨l, kd⟩)).set (outputKeyEnc act.id s.nextId)
          (actionOutputValue.Encode ⟨n⟩)).set (producerKeyEnc s.nextId)
          (artifactProducerValue.Encode ⟨act.id⟩),
        s.nextId + 1, s.txnCount + 1⟩, .ok ⟨s.nextId, l, kd⟩) := by
  rw [ActionCursor.addOutput, if_neg (by rw [ho]; exact Bool.false_ne_true),
    addActionOutputTransaction, addArtifactTransaction, if_pos hni]

theorem addOutput_fail_o {s : Sys} {o : Oracle} {act : ActionCursor}
    (ho : o s.txnCount = true) (n l : Bytes) (kd : Nat) :
    ActionCursor.addOutput o s act n l kd =
      ({ s with txnCount := s.txnCount + 1 }, .error .storeError) := by
  rw [ActionCursor.addOutput, if_pos ho]

theorem addOutput_fail_id {s : Sys} {o : Oracle} {act : ActionCursor}
    (ho : o s.txnCount = false) (hni : ¬ s.nextId < 2 ^ 128) (n l : Bytes) (kd : Nat) :
    ActionCursor.addOutput o s act n l kd =
      ({ s with txnCount := s.txnCount + 1 }, .error .uuidGenError) := by
  rw [ActionCursor.addOutput, if_neg (by rw [ho]; exact Bool.false_ne_true),
    addActionOutputTransaction, addArtifactTransaction, if_neg hni]

theorem actionTransaction_congr {st st' : Store} {id : Nat}
    (h : st'.get (actionKeyEnc id) = st.get (actionKeyEnc id)) :
    actionTransaction st' id = actionTransaction st id := by
  rw [actionTransaction, actionTransaction, h]

theorem artifactTransaction_congr {st st' : Store} {id : Nat}
    (h : st'.get (artifactKeyEnc id) = st.get (artifactKeyEnc id)) :
    artifactTransaction st' id = artifactTransaction st id := by
  rw [artifactTransaction, artifactTransaction, h]

theorem addAction_txn (o : Oracle) (s : Sys) (l c : Bytes) :
    (Graph.addAction o s l c).1.txnCount = s.txnCount + 1 := by
  by_cases ho : o s.txnCount = true
  · rw [addAction_fail_o ho]
  · by_cases hni : s.nextId < 2 ^ 128
    · rw [addAction_run (bool_eq_false ho) hni]
    · rw [addAction_fail_id (bool_eq_false ho) hni]

theorem addInput_effect (o : Oracle) (g : Sys) (act : ActionCursor) (n : Bytes)
    (art : ArtifactCursor) :
    (ActionCursor.addInput o g act n art).1.txnCount = g.txnCount + 1 ∧
    (ActionCursor.addInput o g act n art).1.nextId = g.nextId ∧
    (∀ i, (ActionCursor.addInput o g act n art).1.store.get (actionKeyEnc i) =
      g.store.get (actionKeyEnc i)) ∧
    (∀ i, (ActionCursor.addInput o g act n art).1.store.get (artifactKeyEnc i) =
      g.store.get (artifactKeyEnc i)) := by
  by_cases ho : o g.txnCount = true
  · rw [addInput_fail_o ho]
    exact ⟨rfl, rfl, fun i => rfl, fun i => rfl⟩
  · rw [addInput_run (bool_eq_false ho) n]
    refine ⟨rfl, rfl, fun i => ?_, fun i => ?_⟩
    · show ((g.store.set (inputKeyEnc act.id art.id)
        (actionInputValue.Encode ⟨n⟩)).set (consumerKeyEnc art.id act.id)
        (artifactConsumerValue.Encode ⟨⟩)).get (actionKeyEnc i) =
        g.store.get (actionKeyEnc i)
      rw [Store.get_set_ne _ _ _ _ (qAcCo i art.id act.id),
        Store.get_set_ne _ _ _ _ (qAcIn i act.id art.id)]
    · show ((g.store.set (inputKeyEnc act.id art.id)
        (actionInputValue.Encode ⟨n⟩)).set (consumerKeyEnc art.id act.id)
        (artifactConsumerValue.Encode ⟨⟩)).get (artifactKeyEnc i) =
        g.store.get (artifactKeyEnc i)
      rw [Store.get_set_ne _ _ _ _ (qArCo i art.id act.id),
        Store.get_set_ne _ _ _ _ (qArIn i act.id art.id)]

theorem addOutput_txn (o : Oracle) (s : Sys) (act : ActionCursor) (n l : Bytes)
    (kd : Nat) :
    (ActionCursor.addOutput o s act n l kd).1.txnCount = s.txnCount + 1 := by
  by_cases ho : o s.txnCount = true
  · rw [addOutput_fail_o ho]
  · by_cases hni : s.nextId < 2 ^ 128
    · rw [addOutput_run (bool_eq_false ho) hni]
    · rw [addOutput_fail_id (bool_eq_false ho) hni]

theorem addOutput_action_get (o : Oracle) (s : Sys) (act : ActionCursor)
    (n l : Bytes) (kd : Nat) (i : Nat) :
    (ActionCursor.addOutput o s act n l kd).1.store.get (actionKeyEnc i) =
      s.store.get (actionKeyEnc i) := by
  by_cases ho : o s.txnCount = true
  · rw [addOutput_fail_o ho]
  · by_cases hni : s.nextId < 2 ^ 128
    · rw [addOutput_run (bool_eq_false ho) hni]
      show (((s.store.set (artifactKeyEnc s.nextId)
        (artifactValue.Encode ⟨l, kd⟩)).set (outputKeyEnc act.id s.nextId)
        (actionOutputValue.Encode ⟨n⟩)).set (producerKeyEnc s.nextId)
        (artifactProducerValue.Encode ⟨act.id⟩)).get (actionKeyEnc i) =
        s.store.get (actionKeyEnc i)
      rw [Store.get_set_ne _ _ _ _ (qAcPr i s.nextId),
        Store.get_set_ne _ _ _ _ (qAcOu i act.id s.nextId),
        Store.get_set_ne _ _ _ _ (qAcAr i s.nextId)]
    · rw [addOutput_fail_id (bool_eq_false ho) hni]

theorem bindInputs_spec (o : Oracle) (act : ActionCursor) :
    ∀ (L : List (Bytes × Nat)) (g : Sys),
      (∀ e ∈ (bindInputs o g act L).2.2, ∃ bf, e = Evt.input bf) ∧
      (bindInputs o g act L).1.txnCount =
        g.txnCount + ((bindInputs o g act L).2.2).length ∧
      (bindInputs o g act L).1.nextId = g.nextId ∧
      (∀ i, (bindInputs o g act L).1.store.get (actionKeyEnc i) =
        g.store.get (actionKeyEnc i)) ∧
      (∀ i, (bindInputs o g act L).1.store.get (artifactKeyEnc i) =
        g.store.get (artifactKeyEnc i)) := by
  intro L
  induction L with
  | nil =>
    intro g
    exact ⟨fun e he => absurd he (List.not_mem_nil e), rfl, rfl,
      fun i => rfl, fun i => rfl⟩
  | cons hd t ih =>
    intro g
    obtain ⟨nm, aid⟩ := hd
    cases hat : artifactTransaction g.store aid with
    | error e =>
      have hstep : bindInputs o g act ((nm, aid) :: t) = (g, .error e, []) := by
        rw [bindInputs, hat]
      rw [hstep]
      exact ⟨fun e he => absurd he (List.not_mem_nil e), rfl, rfl,
        fun i => rfl, fun i => rfl⟩
    | ok artifact =>
      have hstep : bindInputs o g act ((nm, aid) :: t) =
          ((bindInputs o (ActionCursor.addInput o g act nm artifact).1 act t).1,
           (bindInputs o (ActionCursor.addInput o g act nm artifact).1 act t).2.1,
           Evt.input (match (ActionCursor.addInput o g act nm artifact).2 with
             | .ok _ => true
             | .error _ => false) ::
             (bindInputs o (ActionCursor.addInput o g act nm artifact).1
               act t).2.2) := by
        rw [bindInputs, hat]
      obtain ⟨he1, he2, he4, he5⟩ := addInput_effect o g act nm artifact
      obtain ⟨hi1, hi2, hi3, hi4, hi5⟩ :=
        ih (ActionCursor.addInput o g act nm artifact).1
      rw [hstep]
      refine ⟨?_, ?_, ?_, ?_, ?_⟩
      · intro e he
        rcases List.mem_cons.mp he with he | he
        · exact ⟨_, he⟩
        · exact hi1 e he
      · show (bindInputs o (ActionCursor.addInput o g act nm artifact).1
            act t).1.txnCount = g.txnCount + (Evt.input _ ::
            (bindInputs o (ActionCursor.addInput o g act nm artifact).1
              act t).2.2).length
        rw [hi2, he1, List.length_cons]
        omega
      · show (bindInputs o (ActionCursor.addInput o g act nm artifact).1
            act t).1.nextId = g.nextId
        rw [hi3, he2]
      · intro i
        show (bindInputs o (ActionCursor.addInput o g act nm artifact).1
            act t).1.store.get (actionKeyEnc i) = g.store.get (actionKeyEnc i)
        rw [hi4 i, he4 i]
      · intro i
        show (bindInputs o (ActionCursor.addInput o g act nm artifact).1
            act t).1.store.get (artifactKeyEnc i) = g.store.get (artifactKeyEnc i)
        rw [hi5 i, he5 i]

theorem bindOutputs_spec (o : Oracle) (act : ActionCursor) (label : Bytes) :
    ∀ (L : List (Bytes × Int)) (g : Sys) (acc : List (Bytes × Nat)),
      (∀ e ∈ (bindOutputs o g act label L acc).2.2, ∃ bf, e = Evt.output bf) ∧
      (bindOutputs o g act label L acc).1.txnCount =
        g.txnCount + ((bindOutputs o g act label L acc).2.2).length ∧
      ∀ i, (bindOutputs o g act label L acc).1.store.get (actionKeyEnc i) =
        g.store.get (actionKeyEnc i) := by
  intro L
  induction L with
  | nil =>
    intro g acc
    exact ⟨fun e he => absurd he (List.not_mem_nil e), rfl, fun i => rfl⟩
  | cons hd t ih =>
    intro g acc
    obtain ⟨nm, tok⟩ := hd
    by_cases hv : kindByte tok = 0 ∨ kindByte tok = 1
    · cases hro : ActionCursor.addOutput o g act nm label (kindByte tok) with
      | mk g1 r =>
        have htx : g1.txnCount = g.txnCount + 1 := by
          have := addOutput_txn o g act nm label (kindByte tok)
          rw [hro] at this
          exact this
        have hget : ∀ i, g1.store.get (actionKeyEnc i) =
            g.store.get (actionKeyEnc i) := by
          intro i
          have := addOutput_action_get o g act nm label (kindByte tok) i
          rw [hro] at this
          exact this
        cases r with
        | error e =>
          have hstep : bindOutputs o g act label ((nm, tok) :: t) acc =
              (g1, .error e, [Evt.output false]) := by
            rw [bindOutputs, if_pos hv, hro]
          rw [hstep]
          refine ⟨?_, ?_, ?_⟩
          · intro e2 he2
            rcases List.mem_cons.mp he2 with he2 | he2
            · exact ⟨false, he2⟩
            · exact absurd he2 (List.not_mem_nil e2)
          · show g1.txnCount = g.txnCount + 1
            exact htx
          · exact hget
        | ok artifact =>
          have hstep : bindOutputs o g act label ((nm, tok) :: t) acc =
              ((bindOutputs o g1 act label t (mapSet acc nm artifact.id)).1,
               (bindOutputs o g1 act label t (mapSet acc nm artifact.id)).2.1,
               Evt.output true ::
                 (bindOutputs o g1 act label t (mapSet acc nm artifact.id)).2.2) := by
            rw [bindOutputs, if_pos hv, hro]
          obtain ⟨hi1, hi2, hi3⟩ := ih g1 (mapSet acc nm artifact.id)
          rw [hstep]
          refine ⟨?_, ?_, ?_⟩
          · intro e he
            rcases List.mem_cons.mp he with he | he
            · exact ⟨true, he⟩
            · exact hi1 e he
          · show (bindOutputs o g1 act label t (mapSet acc nm artifact.id)).1.txnCount =
              g.txnCount + (Evt.output true ::
                (bindOutputs o g1 act label t (mapSet acc nm artifact.id)).2.2).length
            rw [hi2, htx, List.length_cons]
            omega
          · intro i
            show (bindOutputs o g1 act label t
                (mapSet acc nm artifact.id)).1.store.get (actionKeyEnc i) =
              g.store.get (actionKeyEnc i)
            rw [hi3 i, hget i]
    · have hstep : bindOutputs o g act label ((nm, tok) :: t) acc =
          (g, .error .invalidArtifactKind, []) := by
        rw [bindOutputs, if_neg hv]
      rw [hstep]
      exact ⟨fun e he => absurd he (List.not_mem_nil e), rfl, fun i => rfl⟩

/-- **C6** (confirmed): construction order of a script-level
`action(name, cmd, inputs, outputs)` call.  The trace always starts with
the `CreateAction` transaction, followed by one `input` event per
attempted input-edge transaction and then one `output` event per
attempted output transaction, in that order; the transaction counter
advances exactly once per trace event (each step is its own transaction,
so the declaration as a whole is not atomic); and once the creating
transaction has committed, the action record remains committed in the
final store even if a later step fails. -/
theorem C6_construction_order (o : Oracle) (g : Sys) (label command : Bytes)
    (ins : Option (List (Bytes × Nat))) (outs : Option (List (Bytes × Int))) :
    ∃ cflag ti tout,
      (actionBinding o g label command ins outs).2.2 =
        Evt.create cflag :: (ti ++ tout) ∧
      (∀ e ∈ ti, ∃ bf, e = Evt.input bf) ∧
      (∀ e ∈ tout, ∃ bf, e = Evt.output bf) ∧
      (actionBinding o g label command ins outs).1.txnCount =
        g.txnCount + ((actionBinding o g label command ins outs).2.2).length ∧
      (cflag = true →
        (actionBinding o g label command ins outs).1.store.get
          (actionKeyEnc g.nextId) = some (actionValue.Encode ⟨label, command⟩)) := by
  by_cases ho : o g.txnCount = true
  · have hstep : actionBinding o g label command ins outs =
        ({ g with txnCount := g.txnCount + 1 }, .error .storeError,
          [Evt.create false]) := by
      simp only [actionBinding, addAction_fail_o ho]
    refine ⟨false, [], [], ?_, ?_, ?_, ?_, ?_⟩
    · rw [hstep]
      rfl
    · intro e he
      exact absurd he (List.not_mem_nil e)
    · intro e he
      exact absurd he (List.not_mem_nil e)
    · rw [hstep]
      rfl
    · intro h
      exact absurd h Bool.false_ne_true
  · by_cases hni : g.nextId < 2 ^ 128
    · rcases hI : bindInputs o
        ⟨g.store.set (actionKeyEnc g.nextId) (actionValue.Encode ⟨label, command⟩),
          g.nextId + 1, g.txnCount + 1⟩
        ⟨g.nextId, label, command⟩ (ins.getD []) with ⟨gI, rI, tI⟩
      obtain ⟨hI1, hI2, hI3, hI4, hI5⟩ := bindInputs_spec o
        ⟨g.nextId, label, command⟩ (ins.getD [])
        ⟨g.store.set (actionKeyEnc g.nextId) (actionValue.Encode ⟨label, command⟩),
          g.nextId + 1, g.txnCount + 1⟩
      rw [hI] at hI1 hI2 hI4
      cases rI with
      | error e =>
        have hstep : actionBinding o g label command ins outs =
            (gI, .error e, Evt.create true :: tI) := by
          simp only [actionBinding, addAction_run (bool_eq_false ho) hni, hI]
        refine ⟨true, tI, [], ?_, hI1, ?_, ?_, ?_⟩
        · rw [hstep, List.append_nil]
        · intro e2 he2
          exact absurd he2 (List.not_mem_nil e2)
        · rw [hstep]
          show gI.txnCount = g.txnCount + (Evt.create true :: tI).length
          rw [hI2, List.length_cons]
          show g.txnCount + 1 + tI.length = g.txnCount + (tI.length + 1)
          omega
        · intro _
          rw [hstep]
          show gI.store.get (actionKeyEnc g.nextId) = _
          rw [hI4, Store.get_set_self]
      | ok u =>
        rcases hO : bindOutputs o gI ⟨g.nextId, label, command⟩ label
          (outs.getD []) [] with ⟨gO, rO, tO⟩
        obtain ⟨hO1, hO2, hO3⟩ := bindOutputs_spec o
          ⟨g.nextId, label, command⟩ label (outs.getD []) gI []
        rw [hO] at hO1 hO2 hO3
        have hstep : actionBinding o g label command ins outs =
            (gO, rO, Evt.create true :: (tI ++ tO)) := by
          simp only [actionBinding, addAction_run (bool_eq_false ho) hni, hI, hO]
        refine ⟨true, tI, tO, ?_, hI1, hO1, ?_, ?_⟩
        · rw [hstep]
        · rw [hstep]
          show gO.txnCount = g.txnCount + (Evt.create true :: (tI ++ tO)).length
          rw [hO2]
          show gI.txnCount + tO.length = _
          rw [hI2]
          show g.txnCount + 1 + tI.length + tO.length = _
          rw [List.length_cons, List.length_append]
          omega
        · intro _
          rw [hstep]
          show gO.store.get (actionKeyEnc g.nextId) = _
          rw [hO3, hI4, Store.get_set_self]
    · have hstep : actionBinding o g label command ins outs =
          ({ g with txnCount := g.txnCount + 1 }, .error .uuidGenError,
            [Evt.create false]) := by
        simp only [actionBinding, addAction_fail_id (bool_eq_false ho) hni]
      refine ⟨false, [], [], ?_, ?_, ?_, ?_, ?_⟩
      · rw [hstep]
        rfl
      · intro e he
        exact absurd he (List.not_mem_nil e)
      · intro e he
        exact absurd he (List.not_mem_nil e)
      · rw [hstep]
        rfl
      · intro h
        exact absurd h Bool.false_ne_true

theorem producerTransaction_get {st : Store} {art : ArtifactCursor} {aID : Nat}
    (hget : st.get (producerKeyEnc art.id) =
      some (artifactProducerValue.Encode ⟨aID⟩)) (haID : aID < 2 ^ 128) :
    artifactProducerTransaction st art = actionTransaction st aID := by
  have hdec := artifactProducerValue_roundtrip ⟨aID⟩ haID
  generalize hE : artifactProducerValue.Encode ⟨aID⟩ = E at hget hdec
  rw [artifactProducerTransaction, hget]
  show (match artifactProducerValue.Decode E with
    | .error e => Except.error e
    | .ok apv => actionTransaction st apv.ActionID) = actionTransaction st aID
  rw [hdec]

theorem producerTransaction_none {st : Store} {art : ArtifactCursor}
    (hget : st.get (producerKeyEnc art.id) = none) :
    artifactProducerTransaction st art = .error (.noProducerFound art.id) := by
  rw [artifactProducerTransaction, hget]

/-- **C1** (confirmed): the three writes of `AddOutput` are atomic.  In
every reachable store state, the output edge `(a, b)` is present exactly
when the producer-index entry for `b` names `a`, and any such edge comes
with both endpoint records: there is no reachable state holding some of
the three records of an output-created artifact without the others. -/
theorem C1_addOutput_atomic {s : Sys} (hs : Reachable s) {a b : Nat}
    (ha : a < 2 ^ 128) (hb : b < 2 ^ 128) :
    ((∃ v, (outputKeyEnc a b, v) ∈ s.store) ↔
      s.store.get (producerKeyEnc b) =
        some (artifactProducerValue.Encode ⟨a⟩)) ∧
    (∀ v, (outputKeyEnc a b, v) ∈ s.store →
      (∃ w, (actionKeyEnc a, w) ∈ s.store) ∧
      ∃ w, (artifactKeyEnc b, w) ∈ s.store) := by
  have hinv := inv_reachable hs
  exact ⟨hinv.outputProd a b ha hb, fun v hv => hinv.outputRef a b v ha hb hv⟩

/-- **C2** (confirmed): an artifact created by `AddOutput` resolves its
producer to exactly the creating action; an artifact created by the
standalone `AddArtifact` path has no producer entry, and the producer
lookup fails NotFound — a legal state, not corruption. -/
theorem C2_producer {s : Sys} (hs : Reachable s) (o : Oracle) (n l : Bytes)
    (kd : Nat) :
    (∀ act : ActionCursor, act.id < 2 ^ 128 →
      actionTransaction s.store act.id = .ok act →
      ∀ s' art, ActionCursor.addOutput o s act n l kd = (s', .ok art) →
        artifactProducerTransaction s'.store art = .ok act) ∧
    (∀ s' art, Graph.addArtifact o s l kd = (s', .ok art) →
      artifactProducerTransaction s'.store art =
        .error (.noProducerFound art.id)) := by
  have hinv := inv_reachable hs
  constructor
  · intro act ha hact s' art hrun
    by_cases ho : o s.txnCount = true
    · rw [addOutput_fail_o ho] at hrun
      have h2 : (Except.error GErr.storeError : Except GErr ArtifactCursor) =
        .ok art := congrArg Prod.snd hrun
      cases h2
    · by_cases hni : s.nextId < 2 ^ 128
      · rw [addOutput_run (bool_eq_false ho) hni] at hrun
        have hs' : (⟨((s.store.set (artifactKeyEnc s.nextId)
            (artifactValue.Encode ⟨l, kd⟩)).set (outputKeyEnc act.id s.nextId)
            (actionOutputValue.Encode ⟨n⟩)).set (producerKeyEnc s.nextId)
            (artifactProducerValue.Encode ⟨act.id⟩),
            s.nextId + 1, s.txnCount + 1⟩ : Sys) = s' := congrArg Prod.fst hrun
        have hart : (Except.ok (⟨s.nextId, l, kd⟩ : ArtifactCursor) :
          Except GErr ArtifactCursor) = .ok art := congrArg Prod.snd hrun
        injection hart with hart
        rw [← hs', ← hart]
        have hget : ((((s.store.set (artifactKeyEnc s.nextId)
            (artifactValue.Encode ⟨l, kd⟩)).set (outputKeyEnc act.id s.nextId)
            (actionOutputValue.Encode ⟨n⟩)).set (producerKeyEnc s.nextId)
            (artifactProducerValue.Encode ⟨act.id⟩))).get
            (producerKeyEnc (⟨s.nextId, l, kd⟩ : ArtifactCursor).id) =
            some (artifactProducerValue.Encode ⟨act.id⟩) :=
          Store.get_set_self _ _ _
        rw [producerTransaction_get hget ha]
        have hpres : ((((s.store.set (artifactKeyEnc s.nextId)
            (artifactValue.Encode ⟨l, kd⟩)).set (outputKeyEnc act.id s.nextId)
            (actionOutputValue.Encode ⟨n⟩)).set (producerKeyEnc s.nextId)
            (artifactProducerValue.Encode ⟨act.id⟩))).get (actionKeyEnc act.id) =
            s.store.get (actionKeyEnc act.id) := by
          rw [Store.get_set_ne _ _ _ _ (qAcPr act.id s.nextId),
            Store.get_set_ne _ _ _ _ (qAcOu act.id act.id s.nextId),
            Store.get_set_ne _ _ _ _ (qAcAr act.id s.nextId)]
        rw [actionTransaction_congr hpres, hact]
      · rw [addOutput_fail_id (bool_eq_false ho) hni] at hrun
        have h2 : (Except.error GErr.uuidGenError : Except GErr ArtifactCursor) =
          .ok art := congrArg Prod.snd hrun
        cases h2
  · intro s' art hrun
    by_cases ho : o s.txnCount = true
    · rw [Graph.addArtifact, if_pos ho] at hrun
      have h2 : (Except.error GErr.storeError : Except GErr ArtifactCursor) =
        .ok art := congrArg Prod.snd hrun
      cases h2
    · by_cases hni : s.nextId < 2 ^ 128
      · rw [addArtifact_run (bool_eq_false ho) hni] at hrun
        have hs' : (⟨s.store.set (artifactKeyEnc s.nextId)
            (artifactValue.Encode ⟨l, kd⟩), s.nextId + 1, s.txnCount + 1⟩ : Sys) =
            s' := congrArg Prod.fst hrun
        have hart : (Except.ok (⟨s.nextId, l, kd⟩ : ArtifactCursor) :
          Except GErr ArtifactCursor) = .ok art := congrArg Prod.snd hrun
        injection hart with hart
        rw [← hs', ← hart]
        have hget : (s.store.set (artifactKeyEnc s.nextId)
            (artifactValue.Encode ⟨l, kd⟩)).get
            (producerKeyEnc (⟨s.nextId, l, kd⟩ : ArtifactCursor).id) = none := by
          show (s.store.set (artifactKeyEnc s.nextId)
            (artifactValue.Encode ⟨l, kd⟩)).get (producerKeyEnc s.nextId) = none
          rw [Store.get_set_ne _ _ _ _ (Ne.symm (qArPr s.nextId s.nextId))]
          exact producer_get_fresh hinv hni (Nat.le_refl _)
        exact producerTransaction_none hget
      · have ho' : o s.txnCount = false := bool_eq_false ho
        rw [Graph.addArtifact, if_neg (by rw [ho']; exact Bool.false_ne_true),
          addArtifactTransaction, if_neg hni] at hrun
        have h2 : (Except.error GErr.uuidGenError : Except GErr ArtifactCursor) =
          .ok art := congrArg Prod.snd hrun
        cases h2

/-- **C5** (confirmed): calling `AddInput` twice for the same
(action, artifact) pair with names `n1 ≠ n2` leaves exactly one input
edge for the pair, carrying `n2`, and exactly one consumer-index entry —
no duplicates. -/
theorem C5_addInput_overwrites {s : Sys} (hs : Reachable s) (o o2 : Oracle)
    {act : ActionCursor} {art : ArtifactCursor} (ha : act.id < 2 ^ 128)
    (hb : art.id < 2 ^ 128) (n1 n2 : Bytes) (hne : n1 ≠ n2)
    (ho1 : o s.txnCount = false)
    (ho2 : o2 (ActionCursor.addInput o s act n1 art).1.txnCount = false) :
    ((ActionCursor.addInput o2 (ActionCursor.addInput o s act n1 art).1 act n2
      art).1.store.get (inputKeyEnc act.id art.id) =
        some (actionInputValue.Encode ⟨n2⟩)) ∧
    ((ActionCursor.addInput o2 (ActionCursor.addInput o s act n1 art).1 act n2
      art).1.store.keyCount (inputKeyEnc act.id art.id) = 1) ∧
    ((ActionCursor.addInput o2 (ActionCursor.addInput o s act n1 art).1 act n2
      art).1.store.get (consumerKeyEnc art.id act.id) =
        some (artifactConsumerValue.Encode ⟨⟩)) ∧
    ((ActionCursor.addInput o2 (ActionCursor.addInput o s act n1 art).1 act n2
      art).1.store.keyCount (consumerKeyEnc art.id act.id) = 1) := by
  have hinv := inv_reachable hs
  have e1 : (ActionCursor.addInput o s act n1 art).1 =
      ⟨(s.store.set (inputKeyEnc act.id art.id)
        (actionInputValue.Encode ⟨n1⟩)).set (consumerKeyEnc art.id act.id)
        (artifactConsumerValue.Encode ⟨⟩), s.nextId, s.txnCount + 1⟩ := by
    rw [addInput_run ho1 n1]
  rw [e1] at ho2
  have e2 : (ActionCursor.addInput o2
      (ActionCursor.addInput o s act n1 art).1 act n2 art).1 =
      ⟨((((s.store.set (inputKeyEnc act.id art.id)
        (actionInputValue.Encode ⟨n1⟩)).set (consumerKeyEnc art.id act.id)
        (artifactConsumerValue.Encode ⟨⟩)).set (inputKeyEnc act.id art.id)
        (actionInputValue.Encode ⟨n2⟩)).set (consumerKeyEnc art.id act.id)
        (artifactConsumerValue.Encode ⟨⟩)), s.nextId, s.txnCount + 2⟩ := by
    rw [e1, addInput_run ho2 n2]
  rw [e2]
  have hwf4 : (((((s.store.set (inputKeyEnc act.id art.id)
      (actionInputValue.Encode ⟨n1⟩)).set (consumerKeyEnc art.id act.id)
      (artifactConsumerValue.Encode ⟨⟩)).set (inputKeyEnc act.id art.id)
      (actionInputValue.Encode ⟨n2⟩)).set (consumerKeyEnc art.id act.id)
      (artifactConsumerValue.Encode ⟨⟩))).Wf :=
    Store.wf_set (Store.wf_set (Store.wf_set (Store.wf_set hinv.wf _ _) _ _) _ _) _ _
  have hgi : (((((s.store.set (inputKeyEnc act.id art.id)
      (actionInputValue.Encode ⟨n1⟩)).set (consumerKeyEnc art.id act.id)
      (artifactConsumerValue.Encode ⟨⟩)).set (inputKeyEnc act.id art.id)
      (actionInputValue.Encode ⟨n2⟩)).set (consumerKeyEnc art.id act.id)
      (artifactConsumerValue.Encode ⟨⟩))).get (inputKeyEnc act.id art.id) =
      some (actionInputValue.Encode ⟨n2⟩) := by
    rw [Store.get_set_ne _ _ _ _ (neInCo ha hb hb ha), Store.get_set_self]
  have hgc : (((((s.store.set (inputKeyEnc act.id art.id)
      (actionInputValue.Encode ⟨n1⟩)).set (consumerKeyEnc art.id act.id)
      (artifactConsumerValue.Encode ⟨⟩)).set (inputKeyEnc act.id art.id)
      (actionInputValue.Encode ⟨n2⟩)).set (consumerKeyEnc art.id act.id)
      (artifactConsumerValue.Encode ⟨⟩))).get (consumerKeyEnc art.id act.id) =
      some (artifactConsumerValue.Encode ⟨⟩) := Store.get_set_self _ _ _
  exact ⟨hgi, Store.keyCount_of_get hwf4 hgi, hgc, Store.keyCount_of_get hwf4 hgc⟩

/-! ### Concrete runs used by the witnesses -/

/-- The oracle with no store failures. -/
def noFail : Oracle := fun _ => false

def s1c : Sys := (Graph.addAction noFail Sys.init [104, 105] [99, 109]).1

def actA : ActionCursor := ⟨0, [104, 105], [99, 109]⟩

theorem reach_s1c : Reachable s1c :=
  Reach.tail (Reach.refl _)
    (Step.addAction noFail [104, 105] [99, 109] (by norm_num) (by norm_num))

theorem actA_tx : actionTransaction s1c.store actA.id = .ok actA := by rfl

def s2c : Sys := (ActionCursor.addOutput noFail s1c actA [111] [104, 105] 0).1

def artB : ArtifactCursor := ⟨1, [104, 105], 0⟩

theorem reach_s2c : Reachable s2c :=
  Reach.tail reach_s1c
    (Step.addOutput noFail [111] [104, 105] 0 actA (by norm_num) (by norm_num)
      (by norm_num) actA_tx (by decide))

def s3c : Sys := (Graph.addArtifact noFail s1c [104, 105] 0).1

def artC : ArtifactCursor := ⟨1, [104, 105], 0⟩

theorem reach_s3c : Reachable s3c :=
  Reach.tail reach_s1c
    (Step.addArtifact noFail [104, 105] 0 (by norm_num) (by norm_num))

theorem artC_tx : artifactTransaction s3c.store artC.id = .ok artC := by rfl

/-- Witness for C1 after a concrete `AddOutput`. -/
theorem C1_addOutput_atomic_witness :
    ((∃ v, (outputKeyEnc 0 1, v) ∈ s2c.store) ↔
      s2c.store.get (producerKeyEnc 1) =
        some (artifactProducerValue.Encode ⟨0⟩)) ∧
    (∀ v, (outputKeyEnc 0 1, v) ∈ s2c.store →
      (∃ w, (actionKeyEnc 0, w) ∈ s2c.store) ∧
      ∃ w, (artifactKeyEnc 1, w) ∈ s2c.store) :=
  C1_addOutput_atomic reach_s2c (by norm_num) (by norm_num)

/-- Witness for C2 on the concrete output-created and standalone artifacts. -/
theorem C2_producer_witness :
    artifactProducerTransaction s2c.store artB = .ok actA ∧
    artifactProducerTransaction s3c.store artC =
      .error (.noProducerFound artC.id) :=
  ⟨(C2_producer reach_s1c noFail [111] [104, 105] 0).1 actA (by decide)
      actA_tx s2c artB (by rfl),
    (C2_producer reach_s1c noFail [111] [104, 105] 0).2 s3c artC (by rfl)⟩

/-- Witness for C5: two concrete `AddInput` calls with different names. -/
theorem C5_addInput_overwrites_witness :
    ((ActionCursor.addInput noFail
      (ActionCursor.addInput noFail s3c actA [110, 49] artC).1 actA [110, 50]
      artC).1.store.get (inputKeyEnc actA.id artC.id) =
        some (actionInputValue.Encode ⟨[110, 50]⟩)) ∧
    ((ActionCursor.addInput noFail
      (ActionCursor.addInput noFail s3c actA [110, 49] artC).1 actA [110, 50]
      artC).1.store.keyCount (inputKeyEnc actA.id artC.id) = 1) ∧
    ((ActionCursor.addInput noFail
      (ActionCursor.addInput noFail s3c actA [110, 49] artC).1 actA [110, 50]
      artC).1.store.get (consumerKeyEnc artC.id actA.id) =
        some (artifactConsumerValue.Encode ⟨⟩)) ∧
    ((ActionCursor.addInput noFail
      (ActionCursor.addInput noFail s3c actA [110, 49] artC).1 actA [110, 50]
      artC).1.store.keyCount (consumerKeyEnc artC.id actA.id) = 1) :=
  C5_addInput_overwrites reach_s3c noFail noFail (by decide) (by decide)
    [110, 49] [110, 50] (by decide) rfl rfl

theorem artifactTransaction_id {st : Store} {id : Nat} {ac : ArtifactCursor}
    (h : artifactTransaction st id = .ok ac) : ac.id = id := by
  rw [artifactTransaction] at h
  cases hg : st.get (artifactKeyEnc id) with
  | none =>
    rw [hg] at h
    cases h
  | some w =>
    rw [hg] at h
    have h2 : (match artifactValue.Decode w with
      | Except.error e => Except.error e
      | Except.ok v => Except.ok (⟨id, v.Label, v.Kind⟩ : ArtifactCursor)) =
        Except.ok ac := h
    cases hd : artifactValue.Decode w with
    | error e =>
      rw [hd] at h2
      cases h2
    | ok v =>
      rw [hd] at h2
      injection h2 with h2
      rw [← h2]

theorem kindByte_lt (v : Int) : kindByte v < 256 := by
  rw [kindByte]
  have h1 : 0 ≤ v.emod 256 := Int.emod_nonneg v (by norm_num)
  have h2 : v.emod 256 < 256 := Int.emod_lt_of_pos v (by norm_num)
  omega

/-- **C9** (confirmed, implicit): the `action()` binding discards the
error returned by `AddInput`.  When the input artifact resolves but the
`AddInput` transaction fails, the binding continues, returns success to
the script, and the input edge and consumer-index entry were never
written. -/
theorem C9_addInput_error_discarded {g : Sys} (o : Oracle)
    (label command nm : Bytes) {aid : Nat} {art : ArtifactCursor}
    (hres : artifactTransaction g.store aid = .ok art)
    (ho0 : o g.txnCount = false) (ho1 : o (g.txnCount + 1) = true)
    (hni : g.nextId < 2 ^ 128)
    (hnone : g.store.get (inputKeyEnc g.nextId aid) = none)
    (hnone2 : g.store.get (consumerKeyEnc aid g.nextId) = none) :
    (actionBinding o g label command (some [(nm, aid)]) none).2.1 = .ok [] ∧
    (actionBinding o g label command (some [(nm, aid)]) none).2.2 =
      [Evt.create true, Evt.input false] ∧
    (actionBinding o g label command (some [(nm, aid)]) none).1.store.get
      (inputKeyEnc g.nextId aid) = none ∧
    (actionBinding o g label command (some [(nm, aid)]) none).1.store.get
      (consumerKeyEnc aid g.nextId) = none := by
  have hres1 : artifactTransaction
      (g.store.set (actionKeyEnc g.nextId)
        (actionValue.Encode ⟨label, command⟩)) aid = .ok art := by
    rw [artifactTransaction_congr
      (Store.get_set_ne _ _ _ _ (Ne.symm (qAcAr g.nextId aid)))]
    exact hres
  have hfail : ActionCursor.addInput o
      (⟨g.store.set (actionKeyEnc g.nextId)
        (actionValue.Encode ⟨label, command⟩),
        g.nextId + 1, g.txnCount + 1⟩ : Sys)
      ⟨g.nextId, label, command⟩ nm art =
      (⟨g.store.set (actionKeyEnc g.nextId)
        (actionValue.Encode ⟨label, command⟩),
        g.nextId + 1, g.txnCount + 1 + 1⟩, .error .storeError) := by
    rw [addInput_fail_o ho1 nm]
  have hstep : actionBinding o g label command (some [(nm, aid)]) none =
      (⟨g.store.set (actionKeyEnc g.nextId)
        (actionValue.Encode ⟨label, command⟩),
        g.nextId + 1, g.txnCount + 1 + 1⟩, .ok [],
        [Evt.create true, Evt.input false]) := by
    simp only [actionBinding, addAction_run ho0 hni, bindInputs,
      Option.getD_some, Option.getD_none, hres1, hfail, bindOutputs,
      List.append_nil]
  rw [hstep]
  refine ⟨rfl, rfl, ?_, ?_⟩
  · show (g.store.set (actionKeyEnc g.nextId)
      (actionValue.Encode ⟨label, command⟩)).get (inputKeyEnc g.nextId aid) = none
    rw [Store.get_set_ne _ _ _ _ (Ne.symm (qAcIn g.nextId g.nextId aid))]
    exact hnone
  · show (g.store.set (actionKeyEnc g.nextId)
      (actionValue.Encode ⟨label, command⟩)).get (consumerKeyEnc aid g.nextId) =
      none
    rw [Store.get_set_ne _ _ _ _ (Ne.symm (qAcCo g.nextId aid g.nextId))]
    exact hnone2

theorem bindOutputs_artifacts (o : Oracle) (act : ActionCursor) (label : Bytes) :
    ∀ (L : List (Bytes × Int)) (g : Sys) (acc : List (Bytes × Nat)) {b : Nat}
      {v : Bytes},
      (bindOutputs o g act label L acc).1.store.get (artifactKeyEnc b) = some v →
      g.store.get (artifactKeyEnc b) = some v ∨
        ∃ kd, kd < 256 ∧ v = artifactValue.Encode ⟨label, kd⟩ := by
  intro L
  induction L with
  | nil =>
    intro g acc b v h
    exact Or.inl h
  | cons hd t ih =>
    intro g acc b v h
    obtain ⟨nm, tok⟩ := hd
    by_cases hv : kindByte tok = 0 ∨ kindByte tok = 1
    · by_cases ho : o g.txnCount = true
      · have hstep : bindOutputs o g act label ((nm, tok) :: t) acc =
            ({ g with txnCount := g.txnCount + 1 }, .error .storeError,
              [Evt.output false]) := by
          rw [bindOutputs, if_pos hv, addOutput_fail_o ho]
        rw [hstep] at h
        exact Or.inl h
      · by_cases hni : g.nextId < 2 ^ 128
        · have hstep : bindOutputs o g act label ((nm, tok) :: t) acc =
              ((bindOutputs o
                (⟨((g.store.set (artifactKeyEnc g.nextId)
                  (artifactValue.Encode ⟨label, kindByte tok⟩)).set
                  (outputKeyEnc act.id g.nextId)
                  (actionOutputValue.Encode ⟨nm⟩)).set (producerKeyEnc g.nextId)
                  (artifactProducerValue.Encode ⟨act.id⟩),
                  g.nextId + 1, g.txnCount + 1⟩ : Sys)
                act label t (mapSet acc nm g.nextId)).1,
               (bindOutputs o
                (⟨((g.store.set (artifactKeyEnc g.nextId)
                  (artifactValue.Encode ⟨label, kindByte tok⟩)).set
                  (outputKeyEnc act.id g.nextId)
                  (actionOutputValue.Encode ⟨nm⟩)).set (producerKeyEnc g.nextId)
                  (artifactProducerValue.Encode ⟨act.id⟩),
                  g.nextId + 1, g.txnCount + 1⟩ : Sys)
                act label t (mapSet acc nm g.nextId)).2.1,
               Evt.output true ::
                 (bindOutputs o
                  (⟨((g.store.set (artifactKeyEnc g.nextId)
                    (artifactValue.Encode ⟨label, kindByte tok⟩)).set
                    (outputKeyEnc act.id g.nextId)
                    (actionOutputValue.Encode ⟨nm⟩)).set
                    (producerKeyEnc g.nextId)
                    (artifactProducerValue.Encode ⟨act.id⟩),
                    g.nextId + 1, g.txnCount + 1⟩ : Sys)
                  act label t (mapSet acc nm g.nextId)).2.2) := by
            rw [bindOutputs, if_pos hv, addOutput_run (bool_eq_false ho) hni]
          rw [hstep] at h
          have h2 := ih _ (mapSet acc nm g.nextId) h
          rcases h2 with hold | hnew
          · have h3 : ((g.store.set (artifactKeyEnc g.nextId)
                (artifactValue.Encode ⟨label, kindByte tok⟩))).get
                (artifactKeyEnc b) = some v := by
              have h4 : (((g.store.set (artifactKeyEnc g.nextId)
                  (artifactValue.Encode ⟨label, kindByte tok⟩)).set
                  (outputKeyEnc act.id g.nextId)
                  (actionOutputValue.Encode ⟨nm⟩)).set (producerKeyEnc g.nextId)
                  (artifactProducerValue.Encode ⟨act.id⟩)).get
                  (artifactKeyEnc b) = some v := hold
              rw [Store.get_set_ne _ _ _ _ (qArPr b g.nextId),
                Store.get_set_ne _ _ _ _ (qArOu b act.id g.nextId)] at h4
              exact h4
            by_cases hbk : artifactKeyEnc b = artifactKeyEnc g.nextId
            · rw [hbk, Store.get_set_self] at h3
              injection h3 with h3
              exact Or.inr ⟨kindByte tok, kindByte_lt tok, h3.symm⟩
            · rw [Store.get_set_ne _ _ _ _ hbk] at h3
              exact Or.inl h3
          · exact Or.inr hnew
        · have hstep : bindOutputs o g act label ((nm, tok) :: t) acc =
              ({ g with txnCount := g.txnCount + 1 }, .error .uuidGenError,
                [Evt.output false]) := by
            rw [bindOutputs, if_pos hv,
              addOutput_fail_id (bool_eq_false ho) hni]
          rw [hstep] at h
          exact Or.inl h
    · have hstep : bindOutputs o g act label ((nm, tok) :: t) acc =
          (g, .error .invalidArtifactKind, []) := by
        rw [bindOutputs, if_neg hv]
      rw [hstep] at h
      exact Or.inl h

/-- **C10** (confirmed, implicit): every artifact record created by a
script-level `action(name, cmd, ..., outputs)` call carries the enclosing
action's name as its label — the `label` argument the binding passes to
`AddOutput` is the action's name string, not the output's own name. -/
theorem C10_output_label (o : Oracle) (g : Sys) (label command : Bytes)
    (ins : Option (List (Bytes × Nat))) (outs : Option (List (Bytes × Int)))
    {b : Nat} {v : Bytes}
    (hnew : (actionBinding o g label command ins outs).1.store.get
      (artifactKeyEnc b) = some v)
    (hold : g.store.get (artifactKeyEnc b) = none) :
    ∃ kd, kd < 256 ∧ v = artifactValue.Encode ⟨label, kd⟩ := by
  by_cases ho : o g.txnCount = true
  · have hstep : actionBinding o g label command ins outs =
        ({ g with txnCount := g.txnCount + 1 }, .error .storeError,
          [Evt.create false]) := by
      simp only [actionBinding, addAction_fail_o ho]
    rw [hstep] at hnew
    have h2 : g.store.get (artifactKeyEnc b) = some v := hnew
    rw [hold] at h2
    cases h2
  · by_cases hni : g.nextId < 2 ^ 128
    · rcases hI : bindInputs o
        ⟨g.store.set (actionKeyEnc g.nextId) (actionValue.Encode ⟨label, command⟩),
          g.nextId + 1, g.txnCount + 1⟩
        ⟨g.nextId, label, command⟩ (ins.getD []) with ⟨gI, rI, tI⟩
      obtain ⟨hI1, hI2, hI3, hI4, hI5⟩ := bindInputs_spec o
        ⟨g.nextId, label, command⟩ (ins.getD [])
        ⟨g.store.set (actionKeyEnc g.nextId) (actionValue.Encode ⟨label, command⟩),
          g.nextId + 1, g.txnCount + 1⟩
      rw [hI] at hI5
      have hIart : gI.store.get (artifactKeyEnc b) = none := by
        have h3 := hI5 b
        rw [h3]
        show (g.store.set (actionKeyEnc g.nextId)
          (actionValue.Encode ⟨label, command⟩)).get (artifactKeyEnc b) = none
        rw [Store.get_set_ne _ _ _ _ (Ne.symm (qAcAr g.nextId b))]
        exact hold
      cases rI with
      | error e =>
        have hstep : actionBinding o g label command ins outs =
            (gI, .error e, Evt.create true :: tI) := by
          simp only [actionBinding, addAction_run (bool_eq_false ho) hni, hI]
        rw [hstep] at hnew
        have h2 : gI.store.get (artifactKeyEnc b) = some v := hnew
        rw [hIart] at h2
        cases h2
      | ok u =>
        rcases hO : bindOutputs o gI ⟨g.nextId, label, command⟩ label
          (outs.getD []) [] with ⟨gO, rO, tO⟩
        have hstep : actionBinding o g label command ins outs =
            (gO, rO, Evt.create true :: (tI ++ tO)) := by
          simp only [actionBinding, addAction_run (bool_eq_false ho) hni, hI, hO]
        rw [hstep] at hnew
        have h2 : (bindOutputs o gI ⟨g.nextId, label, command⟩ label
            (outs.getD []) []).1.store.get (artifactKeyEnc b) = some v := by
          rw [hO]
          exact hnew
        rcases bindOutputs_artifacts o ⟨g.nextId, label, command⟩ label
          (outs.getD []) gI [] h2 with holdI | hnew2
        · rw [hIart] at holdI
          cases holdI
        · exact hnew2
    · have hstep : actionBinding o g label command ins outs =
          ({ g with txnCount := g.txnCount + 1 }, .error .uuidGenError,
            [Evt.create false]) := by
        simp only [actionBinding, addAction_fail_id (bool_eq_false ho) hni]
      rw [hstep] at hnew
      have h2 : g.store.get (artifactKeyEnc b) = some v := hnew
      rw [hold] at h2
      cases h2

def oC9 : Oracle := fun n => n == 3

/-- Witness for C9: with a concrete store failure injected at the
`AddInput` transaction, the binding still reports success. -/
theorem C9_addInput_error_discarded_witness :
    (actionBinding oC9 s3c [97] [99] (some [([110], 1)]) none).2.1 = .ok [] ∧
    (actionBinding oC9 s3c [97] [99] (some [([110], 1)]) none).2.2 =
      [Evt.create true, Evt.input false] ∧
    (actionBinding oC9 s3c [97] [99] (some [([110], 1)]) none).1.store.get
      (inputKeyEnc s3c.nextId 1) = none ∧
    (actionBinding oC9 s3c [97] [99] (some [([110], 1)]) none).1.store.get
      (consumerKeyEnc 1 s3c.nextId) = none :=
  C9_addInput_error_discarded oC9 [97] [99] [110] artC_tx rfl rfl (by decide)
    rfl rfl

/-- Witness for C10 on a concrete one-output declaration. -/
theorem C10_output_label_witness :
    ∃ kd, kd < 256 ∧ artifactValue.Encode ⟨[97], 0⟩ =
      artifactValue.Encode ⟨[97], kd⟩ :=
  C10_output_label noFail Sys.init [97] [99] none (some [([111], 0)])
    (b := 1) (v := artifactValue.Encode ⟨[97], 0⟩) rfl rfl

/-- **C7** (confirmed): in every reachable state, every enumeration
returns only entries lying under its namespace-plus-filter key prefix.
`ListActions` returns exactly the records under the action namespace —
each returned cursor is backed by its action record, and each action
record is returned — in strictly ascending id order, which is creation
order since ids are allocated by a monotone counter; `Consumers`
returns, in strictly ascending id order, actions each backed by a
consumer-index entry of the queried artifact; and every binding returned
by `Inputs`/`Outputs` stems from an input/output edge of the queried
action, with the bound artifact resolved from its record. -/
theorem C7_actions_enumeration {s : Sys} (hs : Reachable s) :
    (∃ L, actionsTransaction s.store = .ok L ∧
      List.Pairwise (fun x y : ActionCursor => x.id < y.id) L ∧
      (∀ a ∈ L, a.id < s.nextId ∧
        s.store.get (actionKeyEnc a.id) =
          some (actionValue.Encode ⟨a.label, a.command⟩)) ∧
      (∀ id w, id < 2 ^ 128 → s.store.get (actionKeyEnc id) = some w →
        ∃ a ∈ L, a.id = id)) ∧
    (∀ art : ArtifactCursor, art.id < 2 ^ 128 →
      ∃ L, artifactConsumersTransaction s.store art = .ok L ∧
        List.Pairwise (fun x y : ActionCursor => x.id < y.id) L ∧
        ∀ ac ∈ L,
          (consumerKeyEnc art.id ac.id, artifactConsumerValue.Encode ⟨⟩) ∈
            s.store ∧
          actionTransaction s.store ac.id = .ok ac) ∧
    (∀ act : ActionCursor, act.id < 2 ^ 128 →
      ∃ m, actionInputsTransaction s.store act = .ok m ∧
        ∀ p ∈ m, ∃ b, b < 2 ^ 128 ∧
          (inputKeyEnc act.id b, actionInputValue.Encode ⟨p.1⟩) ∈ s.store ∧
          artifactTransaction s.store b = .ok p.2) ∧
    (∀ act : ActionCursor, act.id < 2 ^ 128 →
      ∃ m, actionOutputsTransaction s.store act = .ok m ∧
        ∀ p ∈ m, ∃ b, b < 2 ^ 128 ∧
          (outputKeyEnc act.id b, actionOutputValue.Encode ⟨p.1⟩) ∈ s.store ∧
          artifactTransaction s.store b = .ok p.2) := by
  have hinv := inv_reachable hs
  refine ⟨?_, ?_, ?_, ?_⟩
  pick_goal 2
  · intro art hb
    have hshape := consumer_scan_shape hinv hb
    have hgood : ∀ kv ∈ s.store.rangeScan (packKey nmConsumer [art.id]),
        ∃ a, a < 2 ^ 128 ∧
          kv = (consumerKeyEnc art.id a, artifactConsumerValue.Encode ⟨⟩) ∧
          ∃ ac, actionTransaction s.store a = .ok ac ∧ ac.id = a := by
      intro kv hkv
      obtain ⟨a, h1, h2⟩ := hshape kv hkv
      have ha : a < 2 ^ 128 := lt_of_lt_of_le h1 hinv.nidLe
      have hm : (consumerKeyEnc art.id a, artifactConsumerValue.Encode ⟨⟩) ∈
          s.store := by
        rw [← h2]
        exact (Store.mem_rangeScan.mp hkv).1
      obtain ⟨⟨w, hw⟩, -⟩ := hinv.consumerRef art.id a _ hb ha hm
      obtain ⟨ac, hac, hid⟩ :=
        actionTransaction_ok hinv ha (Store.get_of_mem hinv.wf hw)
      exact ⟨a, ha, h2, ac, hac, hid⟩
    have hgood2 : ∀ kv ∈ s.store.rangeScan (packKey nmConsumer [art.id]),
        ∃ b a, b < 2 ^ 128 ∧ a < 2 ^ 128 ∧ kv.1 = consumerKeyEnc b a ∧
          ∃ ac, actionTransaction s.store a = .ok ac := by
      intro kv hkv
      obtain ⟨a, ha, h2, ac, hac, -⟩ := hgood kv hkv
      refine ⟨art.id, a, hb, ha, ?_, ac, hac⟩
      rw [h2]
    have hmap := consumersLoop_map hgood2
    refine ⟨(s.store.rangeScan (packKey nmConsumer [art.id])).map
      (decCon s.store), ?_, ?_, ?_⟩
    · rw [artifactConsumersTransaction, hmap]
    · refine pairwise_map_of_mem
        (Store.wf_rangeScan hinv.wf (packKey nmConsumer [art.id])) ?_
      intro x hx y hy hr
      obtain ⟨a1, ha1, hx2, ac1, hac1, hid1⟩ := hgood x hx
      obtain ⟨a2, ha2, hy2, ac2, hac2, hid2⟩ := hgood y hy
      rw [hx2, decCon_canon hb ha1 hac1, hy2, decCon_canon hb ha2 hac2,
        hid1, hid2]
      rw [hx2, hy2] at hr
      have hr2 : blt (packKey nmConsumer [art.id, a1])
          (packKey nmConsumer [art.id, a2]) = true := by
        rw [← consumerKeyEnc_pk, ← consumerKeyEnc_pk]
        exact hr
      exact lt_of_blt_packKey2 ha1 ha2 hr2
    · intro ac hacL
      obtain ⟨kv, hkv, hdec⟩ := List.mem_map.mp hacL
      obtain ⟨a, ha, h2, ac2, hac2, hid2⟩ := hgood kv hkv
      have hce : ac = ac2 := by
        rw [← hdec, h2, decCon_canon hb ha hac2]
      have hacid : ac.id = a := by
        rw [hce, hid2]
      refine ⟨?_, ?_⟩
      · rw [hacid]
        have hm2 : kv ∈ s.store := (Store.mem_rangeScan.mp hkv).1
        rw [h2] at hm2
        exact hm2
      · rw [hacid, hce]
        exact hac2
  pick_goal 2
  · intro act hact
    have hshape := input_scan_shape hinv hact
    have hgood : ∀ kv ∈ s.store.rangeScan (packKey nmInput [act.id]),
        ∃ b nm, b < 2 ^ 128 ∧ nm.length < 2 ^ 20 ∧
          kv = (inputKeyEnc act.id b, actionInputValue.Encode ⟨nm⟩) ∧
          ∃ ac, artifactTransaction s.store b = .ok ac := by
      intro kv hkv
      obtain ⟨b, nm, h1, h2, h3⟩ := hshape kv hkv
      have hb : b < 2 ^ 128 := lt_of_lt_of_le h1 hinv.nidLe
      have hm : (inputKeyEnc act.id b, actionInputValue.Encode ⟨nm⟩) ∈
          s.store := by
        rw [← h3]
        exact (Store.mem_rangeScan.mp hkv).1
      obtain ⟨-, w, hw⟩ := hinv.inputRef act.id b _ hact hb hm
      obtain ⟨ac, hac, -⟩ :=
        artifactTransaction_ok hinv hb (Store.get_of_mem hinv.wf hw)
      exact ⟨b, nm, hb, h2, h3, ac, hac⟩
    have hgood2 : ∀ kv ∈ s.store.rangeScan (packKey nmInput [act.id]),
        ∃ a b nm, a < 2 ^ 128 ∧ b < 2 ^ 128 ∧ nm.length < 2 ^ 20 ∧
          kv = (inputKeyEnc a b, actionInputValue.Encode ⟨nm⟩) ∧
          ∃ ac, artifactTransaction s.store b = .ok ac := by
      intro kv hkv
      obtain ⟨b, nm, hb, hnm, h3, ac, hac⟩ := hgood kv hkv
      exact ⟨act.id, b, nm, hact, hb, hnm, h3, ac, hac⟩
    obtain ⟨m, hm, -⟩ := @inputsLoop_total s.store
      (s.store.rangeScan (packKey nmInput [act.id])) [] hgood2
    refine ⟨m, ?_, ?_⟩
    · rw [actionInputsTransaction]
      exact hm
    · intro p hp
      rcases inputsLoop_srcs hact hgood hm p hp with
        hin | ⟨b, hb, hmemL, hart⟩
      · cases hin
      · exact ⟨b, hb, (Store.mem_rangeScan.mp hmemL).1, hart⟩
  pick_goal 2
  · intro act hact
    have hshape := output_scan_shape hinv hact
    have hgood : ∀ kv ∈ s.store.rangeScan (packKey nmOutput [act.id]),
        ∃ b nm, b < 2 ^ 128 ∧ nm.length < 2 ^ 20 ∧
          kv = (outputKeyEnc act.id b, actionOutputValue.Encode ⟨nm⟩) ∧
          ∃ ac, artifactTransaction s.store b = .ok ac := by
      intro kv hkv
      obtain ⟨b, nm, h1, h2, h3⟩ := hshape kv hkv
      have hb : b < 2 ^ 128 := lt_of_lt_of_le h1 hinv.nidLe
      have hm : (outputKeyEnc act.id b, actionOutputValue.Encode ⟨nm⟩) ∈
          s.store := by
        rw [← h3]
        exact (Store.mem_rangeScan.mp hkv).1
      obtain ⟨-, w, hw⟩ := hinv.outputRef act.id b _ hact hb hm
      obtain ⟨ac, hac, -⟩ :=
        artifactTransaction_ok hinv hb (Store.get_of_mem hinv.wf hw)
      exact ⟨b, nm, hb, h2, h3, ac, hac⟩
    obtain ⟨m, hm⟩ := @outputsLoop_ok s.store act.id hact
      (s.store.rangeScan (packKey nmOutput [act.id])) [] hgood
    refine ⟨m, ?_, ?_⟩
    · rw [actionOutputsTransaction]
      exact hm
    · intro p hp
      rcases outputsLoop_srcs hact hgood hm p hp with
        hin | ⟨b, hb, hmemL, hart⟩
      · cases hin
      · exact ⟨b, hb, (Store.mem_rangeScan.mp hmemL).1, hart⟩
  have hshape := action_scan_shape hinv
  have hgood : ∀ kv ∈ s.store.rangeScan (packKey nmAction []),
      ∃ id lb c, id < 2 ^ 128 ∧ lb.length < 2 ^ 20 ∧ c.length < 2 ^ 20 ∧
        kv = (actionKeyEnc id, actionValue.Encode ⟨lb, c⟩) := by
    intro kv hkv
    obtain ⟨id, lb, c, h1, h2, h3, h4⟩ := hshape kv hkv
    exact ⟨id, lb, c, lt_of_lt_of_le h1 hinv.nidLe, h2, h3, h4⟩
  have hmap := actionsLoop_map hgood
  refine ⟨(s.store.rangeScan (packKey nmAction [])).map decAct, ?_, ?_, ?_, ?_⟩
  · rw [actionsTransaction, hmap]
  · refine pairwise_map_of_mem (Store.wf_rangeScan hinv.wf _) ?_
    intro x hx y hy hr
    obtain ⟨i, lx, cx, hi1, hi2, hi3, hi4⟩ := hgood x hx
    obtain ⟨j, ly, cy, hj1, hj2, hj3, hj4⟩ := hgood y hy
    rw [hi4, decAct_canon hi1 hi2 hi3, hj4, decAct_canon hj1 hj2 hj3]
    show i < j
    rw [hi4, hj4] at hr
    have hr2 : blt (packKey nmAction [i]) (packKey nmAction [j]) = true := by
      rw [← actionKeyEnc_pk, ← actionKeyEnc_pk]
      exact hr
    exact lt_of_blt_packKey hi1 hj1 hr2
  · intro a haL
    obtain ⟨kv, hkv, hda⟩ := List.mem_map.mp haL
    obtain ⟨id, lb, c, h1, h2, h3, h4⟩ := hshape kv hkv
    have h5 : a = ⟨id, lb, c⟩ := by
      rw [← hda, h4, decAct_canon (lt_of_lt_of_le h1 hinv.nidLe) h2 h3]
    have hmem : (actionKeyEnc id, actionValue.Encode ⟨lb, c⟩) ∈ s.store := by
      rw [← h4]
      exact (Store.mem_rangeScan.mp hkv).1
    rw [h5]
    exact ⟨h1, Store.get_of_mem hinv.wf hmem⟩
  · intro id w hid hw
    have hmem := Store.mem_of_get hw
    have hscan := action_scan_mem hmem
    refine ⟨decAct (actionKeyEnc id, w), List.mem_map.mpr ⟨_, hscan, rfl⟩, ?_⟩
    obtain ⟨id2, lb, c, h1, h2, h3, h4⟩ := hshape _ hscan
    have hk := congrArg Prod.fst h4
    have hv2 := congrArg Prod.snd h4
    have hid2 : id = id2 := by
      rw [actionKeyEnc_pk, actionKeyEnc_pk] at hk
      exact packKey1_inj hid (lt_of_lt_of_le h1 hinv.nidLe) hk
    have hw2 : w = actionValue.Encode ⟨lb, c⟩ := hv2
    rw [hw2]
    rw [hid2]
    exact congrArg ActionCursor.id (decAct_canon (hid2 ▸ hid) h2 h3)

theorem qInCo (i j b a : Nat) : inputKeyEnc i j ≠ consumerKeyEnc b a := by
  rw [inputKeyEnc_pk, consumerKeyEnc_pk]
  exact packKey_ne_nm (by decide) _ _

def s4c : Sys := (Graph.addArtifact noFail s3c [120] 1).1

def artD : ArtifactCursor := ⟨2, [120], 1⟩

def s5c : Sys := (ActionCursor.addInput noFail s4c actA [110] artD).1

def s6c : Sys := (ActionCursor.addInput noFail s5c actA [110] artC).1

/-- **C3** (counterexample): the original claim fails.  Wire artifact 2
(`artD`) under name `n`, then wire artifact 1 (`artC`) under the same
name — the last `AddInput` succeeds, yet `Inputs(action)` afterwards maps
`n` to `artD`, not to `artC`: the map is collected in ascending
artifact-id order, so the same-named edge of the larger-id artifact wins,
not the most recently wired one. -/
theorem C3_counterexample :
    (ActionCursor.addInput noFail s5c actA [110] artC).2 = .ok () ∧
    actionInputsTransaction s6c.store actA = .ok [([110], artD)] ∧
    mapGet [([110], artD)] [110] = some artD ∧
    artD ≠ artC := by
  refine ⟨rfl, ?_, rfl, by decide⟩
  rfl

/-- **C3** (amended): after a successful `AddInput(action, name,
artifact)`, `Consumers(artifact)` contains the action, and — provided no
other input edge of the action carries the same name — `Inputs(action)`
maps `name` to the artifact.  Without that proviso the binding can be
shadowed by a same-named edge on a larger-id artifact (see the
counterexample). -/
theorem C3_addInput_visible {s : Sys} (hs : Reachable s) (o : Oracle)
    {act : ActionCursor} {art : ArtifactCursor} {name : Bytes}
    (ha : act.id < 2 ^ 128) (hb : art.id < 2 ^ 128) (hnm : name.length < 2 ^ 20)
    (hact : actionTransaction s.store act.id = .ok act)
    (hart : artifactTransaction s.store art.id = .ok art)
    (ho : o s.txnCount = false)
    (huniq : ∀ b2 v2, (inputKeyEnc act.id b2, v2) ∈ s.store → b2 ≠ art.id →
      actionInputValue.Decode v2 ≠ .ok ⟨name⟩) :
    (∃ L, artifactConsumersTransaction
        (ActionCursor.addInput o s act name art).1.store art = .ok L ∧
      act ∈ L) ∧
    (∃ m, actionInputsTransaction
        (ActionCursor.addInput o s act name art).1.store act = .ok m ∧
      mapGet m name = some art) := by
  have hinv := inv_reachable hs
  have hinv' : Inv (ActionCursor.addInput o s act name art).1 :=
    inv_addInput_op hinv o hnm ha hb hact hart
  have hS : (ActionCursor.addInput o s act name art).1.store =
      (s.store.set (inputKeyEnc act.id art.id)
        (actionInputValue.Encode ⟨name⟩)).set (consumerKeyEnc art.id act.id)
        (artifactConsumerValue.Encode ⟨⟩) := by
    rw [addInput_run ho name]
  obtain ⟨-, -, hFac, hFar⟩ := addInput_effect o s act name art
  have F2 : actionTransaction (ActionCursor.addInput o s act name art).1.store
      act.id = .ok act := by
    rw [actionTransaction_congr (hFac act.id)]
    exact hact
  have F3 : artifactTransaction (ActionCursor.addInput o s act name art).1.store
      art.id = .ok art := by
    rw [artifactTransaction_congr (hFar art.id)]
    exact hart
  have F4 : (ActionCursor.addInput o s act name art).1.store.get
      (consumerKeyEnc art.id act.id) = some (artifactConsumerValue.Encode ⟨⟩) := by
    rw [hS]
    exact Store.get_set_self _ _ _
  have F5 : (ActionCursor.addInput o s act name art).1.store.get
      (inputKeyEnc act.id art.id) = some (actionInputValue.Encode ⟨name⟩) := by
    rw [hS, Store.get_set_ne _ _ _ _ (neInCo ha hb hb ha)]
    exact Store.get_set_self _ _ _
  constructor
  · -- Consumers(artifact) contains the action
    have hGoodC : ∀ kv ∈ (ActionCursor.addInput o s act name
        art).1.store.rangeScan (packKey nmConsumer [art.id]),
        ∃ b a, b < 2 ^ 128 ∧ a < 2 ^ 128 ∧ kv.1 = consumerKeyEnc b a ∧
          ∃ ac, actionTransaction
            (ActionCursor.addInput o s act name art).1.store a = .ok ac := by
      intro kv hkv
      obtain ⟨a, h1, h2⟩ := consumer_scan_shape hinv' hb kv hkv
      have ha2 : a < 2 ^ 128 := lt_of_lt_of_le h1 hinv'.nidLe
      have hm2 : (consumerKeyEnc art.id a, artifactConsumerValue.Encode ⟨⟩) ∈
          (ActionCursor.addInput o s act name art).1.store := by
        rw [← h2]
        exact (Store.mem_rangeScan.mp hkv).1
      obtain ⟨⟨w, hw⟩, -⟩ := hinv'.consumerRef art.id a _ hb ha2 hm2
      obtain ⟨ac, hac, -⟩ :=
        actionTransaction_ok hinv' ha2 (Store.get_of_mem hinv'.wf hw)
      refine ⟨art.id, a, hb, ha2, ?_, ac, hac⟩
      rw [h2]
    obtain ⟨L, hL⟩ := consumersLoop_total hGoodC
    refine ⟨L, ?_, ?_⟩
    · rw [artifactConsumersTransaction]
      exact hL
    · exact consumersLoop_mem hL
        (consumer_scan_mem (Store.mem_of_get F4)) hb ha rfl F2
  · -- Inputs(action) maps the name to the artifact
    have hGoodI : ∀ kv ∈ (ActionCursor.addInput o s act name
        art).1.store.rangeScan (packKey nmInput [act.id]),
        ∃ a2 b nm2, a2 < 2 ^ 128 ∧ b < 2 ^ 128 ∧ nm2.length < 2 ^ 20 ∧
          kv = (inputKeyEnc a2 b, actionInputValue.Encode ⟨nm2⟩) ∧
          ∃ ac, artifactTransaction
            (ActionCursor.addInput o s act name art).1.store b = .ok ac := by
      intro kv hkv
      obtain ⟨b, n2, h1, h2, h3⟩ := input_scan_shape hinv' ha kv hkv
      have hb2 : b < 2 ^ 128 := lt_of_lt_of_le h1 hinv'.nidLe
      have hm2 : (inputKeyEnc act.id b, actionInputValue.Encode ⟨n2⟩) ∈
          (ActionCursor.addInput o s act name art).1.store := by
        rw [← h3]
        exact (Store.mem_rangeScan.mp hkv).1
      obtain ⟨-, w, hw⟩ := hinv'.inputRef act.id b _ ha hb2 hm2
      obtain ⟨ac, hac, -⟩ :=
        artifactTransaction_ok hinv' hb2 (Store.get_of_mem hinv'.wf hw)
      exact ⟨act.id, b, n2, ha, hb2, h2, h3, ac, hac⟩
    have hmemI := input_scan_mem (Store.mem_of_get F5)
    obtain ⟨l1, l2, hsplit⟩ := List.append_of_mem hmemI
    have hwfscan := Store.wf_rangeScan hinv'.wf (packKey nmInput [act.id])
    rw [hsplit] at hwfscan
    obtain ⟨hne1, hne2⟩ := wf_split hwfscan
    have hinscan : ∀ kv, kv ∈ l1 ∨ kv ∈ l2 →
        kv ∈ (ActionCursor.addInput o s act name art).1.store.rangeScan
          (packKey nmInput [act.id]) := by
      intro kv hkv
      rw [hsplit]
      rcases hkv with h | h
      · exact List.mem_append.mpr (Or.inl h)
      · exact List.mem_append.mpr (Or.inr (List.mem_cons.mpr (Or.inr h)))
    have hnames : ∀ kv, kv ∈ l1 ∨ kv ∈ l2 → ∀ n2 : Bytes,
        actionInputValue.Decode kv.2 = .ok ⟨n2⟩ → n2 ≠ name := by
      intro kv hkv n2 hdec hcontra
      obtain ⟨b, n2', h1, h2, h3⟩ := input_scan_shape hinv' ha kv
        (hinscan kv hkv)
      have hb2 : b < 2 ^ 128 := lt_of_lt_of_le h1 hinv'.nidLe
      have hkne : kv.1 ≠ (inputKeyEnc act.id art.id,
          actionInputValue.Encode ⟨name⟩).1 := by
        rcases hkv with h | h
        · exact hne1 kv h
        · exact hne2 kv h
      have hbne : b ≠ art.id := by
        intro hbe
        apply hkne
        rw [h3, hbe]
      have hmm : (inputKeyEnc act.id b, actionInputValue.Encode ⟨n2'⟩) ∈
          (ActionCursor.addInput o s act name art).1.store := by
        rw [← h3]
        exact (Store.mem_rangeScan.mp (hinscan kv hkv)).1
      rw [hS] at hmm
      rcases Store.mem_set hmm with he | hmm
      · exact absurd (congrArg Prod.fst he) (qInCo act.id b art.id act.id)
      · rcases Store.mem_set hmm with he | hmm
        · have hke := congrArg Prod.fst he
          have : b = art.id := by
            rw [inputKeyEnc_pk, inputKeyEnc_pk] at hke
            exact (packKey2_inj ha hb2 ha hb hke).2
          exact hbne this
        · have hv2 : actionInputValue.Decode
              (actionInputValue.Encode ⟨n2'⟩) = .ok ⟨n2⟩ := by
            rw [h3] at hdec
            exact hdec
          rw [actionInputValue_roundtrip ⟨n2'⟩ h2] at hv2
          injection hv2 with hv2
          have hn2 : n2' = n2 := by injection hv2
          exact huniq b (actionInputValue.Encode ⟨n2'⟩) hmm hbne
            (by rw [actionInputValue_roundtrip ⟨n2'⟩ h2, hn2, hcontra])
    obtain ⟨m1, hm1, -⟩ :=
      @inputsLoop_total (ActionCursor.addInput o s act name art).1.store l1 []
        (fun kv hkv => hGoodI kv (hinscan kv (Or.inl hkv)))
    have hstep : inputsLoop (ActionCursor.addInput o s act name art).1.store
        ((inputKeyEnc act.id art.id, actionInputValue.Encode ⟨name⟩) :: l2) m1 =
        inputsLoop (ActionCursor.addInput o s act name art).1.store l2
          (mapSet m1 name art) := by
      have hkd : actionInputKey.Decode (inputKeyEnc act.id art.id) =
          .ok ⟨act.id, art.id⟩ := actionInputKey_roundtrip ⟨act.id, art.id⟩ ha hb
      have hvd : actionInputValue.Decode (actionInputValue.Encode ⟨name⟩) =
          .ok ⟨name⟩ := actionInputValue_roundtrip ⟨name⟩ hnm
      rw [inputsLoop, hkd, hvd]
      show (match artifactTransaction
          (ActionCursor.addInput o s act name art).1.store art.id with
        | .error e => Except.error e
        | .ok artifact => inputsLoop
            (ActionCursor.addInput o s act name art).1.store l2
            (mapSet m1 name artifact)) = _
      rw [F3]
    obtain ⟨m, hm2, hpres⟩ :=
      @inputsLoop_total (ActionCursor.addInput o s act name art).1.store l2
        (mapSet m1 name art)
        (fun kv hkv => hGoodI kv (hinscan kv (Or.inr hkv)))
    refine ⟨m, ?_, ?_⟩
    · rw [actionInputsTransaction, hsplit, inputsLoop_append hm1, hstep]
      exact hm2
    · rw [hpres name (fun kv hkv n2 hdec => hnames kv (Or.inr hkv) n2 hdec)]
      exact mapGet_set_self m1 name art

theorem actA_tx3 : actionTransaction s3c.store actA.id = .ok actA := by rfl

theorem no_input_edges_s3c (b2 : Nat) (v2 : Bytes)
    (hm : (inputKeyEnc actA.id b2, v2) ∈ s3c.store) : False := by
  have hm2 : (inputKeyEnc actA.id b2, v2) ∈
      ((actionKeyEnc 0, actionValue.Encode ⟨[104, 105], [99, 109]⟩) ::
        [(artifactKeyEnc 1, artifactValue.Encode ⟨[104, 105], 0⟩)] :
        List (Bytes × Bytes)) := hm
  rcases List.mem_cons.mp hm2 with he | hm3
  · have hk : inputKeyEnc actA.id b2 = actionKeyEnc 0 := congrArg Prod.fst he
    rw [inputKeyEnc_pk, actionKeyEnc_pk] at hk
    exact absurd (packKey_nm_eq hk) (by decide)
  · rcases List.mem_cons.mp hm3 with he | hm4
    · have hk : inputKeyEnc actA.id b2 = artifactKeyEnc 1 := congrArg Prod.fst he
      rw [inputKeyEnc_pk, artifactKeyEnc_pk] at hk
      exact absurd (packKey_nm_eq hk) (by decide)
    · cases hm4

/-- Witness for the amended C3 on a concrete first wiring. -/
theorem C3_addInput_visible_witness :
    (∃ L, artifactConsumersTransaction
        (ActionCursor.addInput noFail s3c actA [110] artC).1.store artC =
        .ok L ∧ actA ∈ L) ∧
    (∃ m, actionInputsTransaction
        (ActionCursor.addInput noFail s3c actA [110] artC).1.store actA =
        .ok m ∧ mapGet m [110] = some artC) :=
  C3_addInput_visible reach_s3c noFail (by decide) (by decide) (by norm_num)
    actA_tx3 artC_tx rfl
    (fun b2 v2 hm _ => (no_input_edges_s3c b2 v2 hm).elim)

theorem actA_tx4 : actionTransaction s4c.store actA.id = .ok actA := by rfl

theorem artD_tx4 : artifactTransaction s4c.store artD.id = .ok artD := by rfl

theorem reach_s4c : Reachable s4c :=
  Reach.tail reach_s3c
    (Step.addArtifact noFail [120] 1 (by decide) (by decide))

theorem reach_s5c : Reachable s5c :=
  Reach.tail reach_s4c
    (Step.addInput noFail [110] actA artD (by decide) actA_tx4 artD_tx4
      (by decide) (by decide))

theorem actA_tx5 : actionTransaction s5c.store actA.id = .ok actA := by rfl

theorem artC_tx5 : artifactTransaction s5c.store artC.id = .ok artC := by rfl

theorem reach_s6c : Reachable s6c :=
  Reach.tail reach_s5c
    (Step.addInput noFail [110] actA artC (by decide) actA_tx5 artC_tx5
      (by decide) (by decide))

/-- `s6c` extended by an output of the standing action: a state whose
store populates all four enumerable namespaces at once. -/
def s7c : Sys := (ActionCursor.addOutput noFail s6c actA [111] [104, 105] 0).1

theorem actA_tx6 : actionTransaction s6c.store actA.id = .ok actA := by rfl

theorem reach_s7c : Reachable s7c :=
  Reach.tail reach_s6c
    (Step.addOutput noFail [111] [104, 105] 0 actA (by decide) (by decide)
      (by decide) actA_tx6 (by decide))

/-- Witness for C7 in a concrete reachable state whose store holds action
records, consumer-index entries, input edges and output edges at once. -/
theorem C7_actions_enumeration_witness :
    (∃ L, actionsTransaction s7c.store = .ok L ∧
      List.Pairwise (fun x y : ActionCursor => x.id < y.id) L ∧
      (∀ a ∈ L, a.id < s7c.nextId ∧
        s7c.store.get (actionKeyEnc a.id) =
          some (actionValue.Encode ⟨a.label, a.command⟩)) ∧
      (∀ id w, id < 2 ^ 128 → s7c.store.get (actionKeyEnc id) = some w →
        ∃ a ∈ L, a.id = id)) ∧
    (∀ art : ArtifactCursor, art.id < 2 ^ 128 →
      ∃ L, artifactConsumersTransaction s7c.store art = .ok L ∧
        List.Pairwise (fun x y : ActionCursor => x.id < y.id) L ∧
        ∀ ac ∈ L,
          (consumerKeyEnc art.id ac.id, artifactConsumerValue.Encode ⟨⟩) ∈
            s7c.store ∧
          actionTransaction s7c.store ac.id = .ok ac) ∧
    (∀ act : ActionCursor, act.id < 2 ^ 128 →
      ∃ m, actionInputsTransaction s7c.store act = .ok m ∧
        ∀ p ∈ m, ∃ b, b < 2 ^ 128 ∧
          (inputKeyEnc act.id b, actionInputValue.Encode ⟨p.1⟩) ∈ s7c.store ∧
          artifactTransaction s7c.store b = .ok p.2) ∧
    (∀ act : ActionCursor, act.id < 2 ^ 128 →
      ∃ m, actionOutputsTransaction s7c.store act = .ok m ∧
        ∀ p ∈ m, ∃ b, b < 2 ^ 128 ∧
          (outputKeyEnc act.id b, actionOutputValue.Encode ⟨p.1⟩) ∈ s7c.store ∧
          artifactTransaction s7c.store b = .ok p.2) :=
  C7_actions_enumeration reach_s7c

end Skycastle